import Mathlib

/-!
Verification development for the ulight JavaScript/JSX highlighter
(`src/src/main/cpp/js.cpp`).

The source span is modelled as a `List Char` of Unicode scalar values, one
unit per code point (the C++ operates on UTF-8 code units through a decoding
collaborator; all concrete inputs in this development are ASCII, where the
two views coincide unit-for-unit).

`ULIGHT_ASSERT`/`ULIGHT_DEBUG_ASSERT` in the source are modelled as no-ops
(release semantics); where an assertion's condition is itself at issue, a
theorem states the violated condition explicitly.

Out-of-bounds `operator[]` reads performed by the C++ (undefined behaviour)
are modelled by `List.getD` with an explicit junk character; the places where
this matters are analysed via definitions parameterised over that junk value.
-/

namespace UJS

/-- Highlight categories. The constructors used by the JS highlighter are
taken from the names appearing in `js.cpp` (`Highlight_Type::comment`,
`comment_delimiter`, `error`, `number`, `string`, `string_delim`, `escape`,
`id`, `sym_brace`, `sym_punc`, `markup_tag`); `keyword` and `sym_op` stand
for the per-token categories of the registry table, whose data lives outside
`src/`. -/
inductive Highlight_Type where
  | comment
  | comment_delimiter
  | error
  | number
  | string
  | string_delim
  | escape
  | id
  | sym_brace
  | sym_punc
  | markup_tag
  | keyword
  | sym_op
  deriving DecidableEq, Repr

/-- Character written `'\''` in the source. -/
def squote : Char := Char.ofNat 39

/-- Character written `` '`' `` in the source. -/
def backtick : Char := Char.ofNat 96

/-- Left brace character. -/
def lbrace : Char := Char.ofNat 123

/-- Right brace character. -/
def rbrace : Char := Char.ofNat 125

/-- Junk character standing for the unspecified byte produced by an
out-of-bounds read in the C++. -/
def junk_byte : Char := Char.ofNat 0

/-- Modelled from the spec: `is_js_whitespace` (chars.hpp is not under
`src/`). Section 4.1 says whitespace consumes "the maximal run of code points
satisfying the language's whitespace predicate"; we model the ASCII
whitespace and line-terminator code points. -/
def is_js_whitespace (c : Char) : Bool :=
  c = ' ' || c = '\t' || c = '\n' || c = '\r' || c = Char.ofNat 11 || c = Char.ofNat 12

/-- Modelled from the spec: `is_ascii_digit` from chars.hpp. -/
def is_ascii_digit (c : Char) : Bool :=
  48 ≤ c.toNat && c.toNat ≤ 57

/-- Modelled from the spec: `is_ascii_digit_base` from chars.hpp — "digits
valid for a given numeric base" (section 4.1). -/
def is_ascii_digit_base (c : Char) (base : Nat) : Bool :=
  match base with
  | 2 => c.toNat = 48 || c.toNat = 49
  | 8 => 48 ≤ c.toNat && c.toNat ≤ 55
  | 16 => is_ascii_digit c || (97 ≤ c.toNat && c.toNat ≤ 102) || (65 ≤ c.toNat && c.toNat ≤ 70)
  | _ => is_ascii_digit c

/-- Modelled from the spec: `is_js_identifier_start` from chars.hpp —
"identifier-start" (section 4.1). Restricted to the ASCII subset
(letters, `_`, `$`). -/
def is_js_identifier_start (c : Char) : Bool :=
  (65 ≤ c.toNat && c.toNat ≤ 90) || (97 ≤ c.toNat && c.toNat ≤ 122) ||
    c.toNat = 95 || c.toNat = 36

/-- Modelled from the spec: `is_js_identifier_part` from chars.hpp —
"identifier-part" (section 4.1). Restricted to the ASCII subset. -/
def is_js_identifier_part (c : Char) : Bool :=
  is_js_identifier_start c || is_ascii_digit c

/-- Result of `match_block_comment` (declared in js.hpp, shape visible from
use in js.cpp: `length`, `is_terminated`, truthy iff `length != 0`). -/
structure Comment_Result where
  length : Nat
  is_terminated : Bool
  deriving DecidableEq, Repr

/-- Result of `match_string_literal` (`length`, `terminated`, truthy iff
`length != 0`). -/
structure String_Literal_Result where
  length : Nat
  terminated : Bool
  deriving DecidableEq, Repr

/-- Result of `match_digits` (`length`, `erroneous`). -/
structure Digits_Result where
  length : Nat
  erroneous : Bool
  deriving DecidableEq, Repr

/-- Result of `match_numeric_literal`. The source's field `prefix` is called
`radix` here because `prefix` is reserved syntax in Lean; all other names
match the source (`length`, `integer`, `fractional`, `exponent`, `suffix`,
`erroneous`); truthy iff `length != 0`. -/
structure Numeric_Result where
  length : Nat
  radix : Nat
  integer : Nat
  fractional : Nat
  exponent : Nat
  suffix : Nat
  erroneous : Bool
  deriving DecidableEq, Repr

/-- Result of `match_jsx_braced` (`length`, `is_terminated`, truthy iff
`length != 0`). -/
structure JSX_Braced_Result where
  length : Nat
  is_terminated : Bool
  deriving DecidableEq, Repr

/-- Kind of a matched JSX tag (`JSX_Type` in the source). -/
inductive JSX_Type where
  | opening
  | closing
  | self_closing
  | fragment_opening
  | fragment_closing
  deriving DecidableEq, Repr

/-- Result of `match_jsx_tag` (`length`, `type`, truthy iff `length != 0`). -/
structure JSX_Tag_Result where
  length : Nat
  type : JSX_Type
  deriving DecidableEq, Repr

/-- The zero `Numeric_Result`, i.e. `return {}` in the source. -/
def numericNoMatch : Numeric_Result :=
  { length := 0, radix := 0, integer := 0, fractional := 0, exponent := 0,
    suffix := 0, erroneous := false }

/-- The zero `Comment_Result`. -/
def commentNoMatch : Comment_Result := { length := 0, is_terminated := false }

/-- The zero `String_Literal_Result`. -/
def stringNoMatch : String_Literal_Result := { length := 0, terminated := false }

/-- The zero `JSX_Braced_Result`. -/
def bracedNoMatch : JSX_Braced_Result := { length := 0, is_terminated := false }

/-- The zero `JSX_Tag_Result`. -/
def tagNoMatch : JSX_Tag_Result := { length := 0, type := JSX_Type.opening }

/-- Embeds `match_whitespace` (js.cpp:84): length of the maximal leading run
of whitespace code points (`find_if_not`, with `npos` mapped to the whole
length). -/
def match_whitespace (str : List Char) : Nat :=
  (str.takeWhile is_js_whitespace).length

/-- Scan to end-of-line, exclusive: the loop shared by `match_line_comment`
and `match_hashbang_comment` (js.cpp:102 and 138). -/
def scan_to_eol : List Char → Nat
  | [] => 0
  | c :: rest => if c = '\n' then 0 else 1 + scan_to_eol rest

/-- Embeds `match_line_comment` (js.cpp:92): requires the `//`, then
consumes to end-of-line or end-of-input, exclusive of the newline. -/
def match_line_comment (s : List Char) : Nat :=
  if s.take 2 = ['/', '/'] then 2 + scan_to_eol (s.drop 2) else 0

/-- Loop of `match_block_comment` (js.cpp:121): the C++ scans while
`length < s.length() - 1`, i.e. while at least two units remain. `n` is the
accumulated length (the count of units before `rest`). -/
def block_comment_go (n : Nat) : List Char → Comment_Result
  | a :: b :: rest =>
      if a = '*' && b = '/' then { length := n + 2, is_terminated := true }
      else block_comment_go (n + 1) (b :: rest)
  | rest => { length := n + rest.length, is_terminated := false }

/-- Embeds `match_block_comment` (js.cpp:113). -/
def match_block_comment (s : List Char) : Comment_Result :=
  if s.take 2 = ['/', '*'] then block_comment_go 2 (s.drop 2) else commentNoMatch

/-- Embeds `match_hashbang_comment` (js.cpp:131): matches only at start of
file; the scan-to-end-of-line loop is the same as `match_line_comment`'s. -/
def match_hashbang_comment (s : List Char) (is_at_start_of_file : Bool) : Nat :=
  if is_at_start_of_file && s.take 2 = ['#', '!'] then 2 + scan_to_eol (s.drop 2) else 0

/-- Loop of `match_string_literal` (js.cpp:159): escape-aware scan for the
closing `quote`; stops unterminated at a newline or end-of-input. `n` counts
the units before `rest`. -/
def string_literal_go (quote : Char) (n : Nat) (escaped : Bool) :
    List Char → String_Literal_Result
  | [] => { length := n, terminated := false }
  | c :: rest =>
      if escaped then string_literal_go quote (n + 1) false rest
      else if c = '\\' then string_literal_go quote (n + 1) true rest
      else if c = quote then { length := n + 1, terminated := true }
      else if c = '\n' then { length := n, terminated := false }
      else string_literal_go quote (n + 1) false rest

/-- Embeds `match_string_literal` (js.cpp:148). -/
def match_string_literal : List Char → String_Literal_Result
  | [] => stringNoMatch
  | c :: rest =>
      if c = squote || c = '"' then string_literal_go c 1 false rest
      else stringNoMatch

/-- Loop of `match_digits` (js.cpp:271): the `find_if_not` with the stateful
lambda. `prev` is the `previous` variable; the final `erroneous |= previous
== '_'` only sees `'_'` when the scan stopped at end-of-input, because the
lambda also runs on (and records) the first non-matching character. -/
def match_digits_go (base : Nat) (prev : Char) : List Char → Digits_Result
  | [] => { length := 0, erroneous := prev = '_' }
  | c :: rest =>
      if c = '_' then
        let r := match_digits_go base '_' rest
        { length := r.length + 1, erroneous := (prev = '_') || r.erroneous }
      else if is_ascii_digit_base c base then
        let r := match_digits_go base c rest
        { length := r.length + 1, erroneous := r.erroneous }
      else { length := 0, erroneous := false }

/-- Embeds `match_digits` (js.cpp:265); `previous` starts as `'_'`, so a
leading separator is flagged. -/
def match_digits (str : List Char) (base : Nat) : Digits_Result :=
  match_digits_go base '_' str

/-- Exponent-and-suffix tail of `match_numeric_literal` (js.cpp:331-353);
`len` is the length consumed so far. In-bounds reads only: each `getD` is
guarded by `len < str.length`. -/
def numeric_tail (str : List Char) (radix integer fractional : Nat) (err : Bool)
    (len : Nat) : Numeric_Result :=
  let c0 := junk_byte
  let afterExp :=
    if len < str.length && (str.getD len c0 = 'e' || str.getD len c0 = 'E') then
      let e1 : Nat :=
        if len + 1 < str.length &&
            (str.getD (len + 1) c0 = '+' || str.getD (len + 1) c0 = '-') then 2 else 1
      let ed := match_digits (str.drop (len + e1)) 10
      let exponent := e1 + ed.length
      (exponent, ((err || (radix ≠ 0)) || (ed.length = 0)) || ed.erroneous, len + exponent)
    else (0, err, len)
  match afterExp with
  | (exponent, err2, len2) =>
    if len2 < str.length && str.getD len2 c0 = 'n' then
      { length := len2 + 1, radix := radix, integer := integer,
        fractional := fractional, exponent := exponent, suffix := 1,
        erroneous := (err2 || (fractional ≠ 0)) || (exponent ≠ 0) }
    else
      { length := len2, radix := radix, integer := integer,
        fractional := fractional, exponent := exponent, suffix := 0,
        erroneous := err2 }

/-- Embeds `match_numeric_literal` (js.cpp:287), parameterised by the junk
character the C++'s out-of-bounds read `str[length + 1]` (js.cpp:321) would
yield when a leading `.` is the final unit of the span. The source field
`prefix` is `radix` here. -/
def match_numeric_literal_aux (junk : Char) (str : List Char) : Numeric_Result :=
  match str with
  | [] => numericNoMatch
  | _ :: _ =>
    let two := str.take 2
    let base : Nat :=
      if two = ['0', 'b'] || two = ['0', 'B'] then 2
      else if two = ['0', 'o'] || two = ['0', 'O'] then 8
      else if two = ['0', 'x'] || two = ['0', 'X'] then 16
      else 10
    let radix : Nat := if base = 10 then 0 else 2
    let intd := match_digits (str.drop radix) base
    let integer := intd.length
    let len0 := radix + integer
    let err0 := intd.erroneous
    if (str.drop len0).take 1 = ['.'] then
      let fr := match_digits (str.drop (len0 + 1)) 10
      let fractional := 1 + fr.length
      let err1 := ((err0 || (radix ≠ 0)) || (fr.length = 0)) || fr.erroneous
      if radix = 0 && integer = 0 && !is_ascii_digit (str.getD (len0 + 1) junk) then
        numericNoMatch
      else numeric_tail str radix integer fractional err1 (len0 + fractional)
    else
      if len0 = 0 then numericNoMatch
      else numeric_tail str radix integer 0 err0 len0

/-- Embeds `match_numeric_literal` with the junk byte fixed. -/
def match_numeric_literal (str : List Char) : Numeric_Result :=
  match_numeric_literal_aux junk_byte str

/-- Line separator code point (U+2028). -/
def ls_char : Char := Char.ofNat 0x2028

/-- Paragraph separator code point (U+2029). -/
def ps_char : Char := Char.ofNat 0x2029

/-- Embeds `match_line_terminator_sequence` (js.cpp:366). In the code-point
model every terminator has length 1 except CRLF (length 2); the C++ lengths
are UTF-8 byte counts, which agree on the concrete inputs used here. -/
def match_line_terminator_sequence (s : List Char) : Nat :=
  if s.take 1 = ['\n'] then 1
  else if s.take 2 = ['\r', '\n'] then 2
  else if s.take 1 = [ls_char] then 1
  else if s.take 1 = [ps_char] then 1
  else 0

/-- Embeds `match_line_continuation` (js.cpp:381). -/
def match_line_continuation (str : List Char) : Nat :=
  if str.take 1 = ['\\'] then
    let t := match_line_terminator_sequence (str.drop 1)
    if t ≠ 0 then t + 1 else 0
  else 0

/-- The `Name_Type` enumeration (js.cpp:393). -/
inductive Name_Type where
  | identifier
  | jsx_identifier
  | jsx_attribute_name
  | jsx_element_name
  deriving DecidableEq, Repr

/-- The `is_part` predicate of `match_name` (js.cpp:412). -/
def name_is_part (type : Name_Type) (c : Char) : Bool :=
  if is_js_identifier_part c then true
  else match type with
    | Name_Type.identifier => false
    | Name_Type.jsx_identifier => c = '-'
    | Name_Type.jsx_attribute_name => c = '-' || c = ':'
    | Name_Type.jsx_element_name => c = '-' || c = ':' || c = '.'

/-- Embeds `match_name` (js.cpp:400); in the code-point model every decode
has width 1. -/
def match_name (str : List Char) (type : Name_Type) : Nat :=
  match str with
  | [] => 0
  | c :: rest =>
      if is_js_identifier_start c then 1 + (rest.takeWhile (name_is_part type)).length
      else 0

/-- Embeds `match_identifier` (js.cpp:439). -/
def match_identifier (str : List Char) : Nat := match_name str Name_Type.identifier

/-- Embeds `match_jsx_identifier` (js.cpp:445). -/
def match_jsx_identifier (str : List Char) : Nat := match_name str Name_Type.jsx_identifier

/-- Embeds `match_jsx_element_name` (js.cpp:451). -/
def match_jsx_element_name (str : List Char) : Nat := match_name str Name_Type.jsx_element_name

/-- Embeds `match_jsx_attribute_name` (js.cpp:457). -/
def match_jsx_attribute_name (str : List Char) : Nat :=
  match_name str Name_Type.jsx_attribute_name

/-- Embeds `match_private_identifier` (js.cpp:463). -/
def match_private_identifier (str : List Char) : Nat :=
  match str with
  | [] => 0
  | c :: rest =>
      if c = '#' then
        let idl := match_identifier rest
        if idl = 0 then 0 else 1 + idl
      else 0

/-- Events fired at a `JSX_Tag_Consumer` (js.cpp:574) and at the shared
`Whitespace_Comment_Consumer` (js.cpp:476). The terminal `done(JSX_Type)` is
represented by the return value of the tag matcher, not by an event. -/
inductive JSX_Event where
  | ws (n : Nat)
  | block_comment (r : Comment_Result)
  | line_comment (n : Nat)
  | opening_symbol
  | closing_symbol
  | element_name (n : Nat)
  | attribute_name (n : Nat)
  | attribute_equals
  | string_lit (r : String_Literal_Result)
  | braced (b : JSX_Braced_Result)
  deriving DecidableEq, Repr

/-- Loop of `match_whitespace_comment_sequence` (js.cpp:499), producing the
events fired at the consumer together with the total consumed length. The
fuel is structural only; `wsc_events` passes enough for the loop to finish. -/
def wsc_events_go (fuel : Nat) (str : List Char) : List JSX_Event × Nat :=
  match fuel with
  | 0 => ([], 0)
  | fuel + 1 =>
    if str = [] then ([], 0) else
    let w := match_whitespace str
    if w ≠ 0 then
      let (evs, n) := wsc_events_go fuel (str.drop w)
      (JSX_Event.ws w :: evs, w + n)
    else
      let b := match_block_comment str
      if b.length ≠ 0 then
        let (evs, n) := wsc_events_go fuel (str.drop b.length)
        (JSX_Event.block_comment b :: evs, b.length + n)
      else
        let l := match_line_comment str
        if l ≠ 0 then
          let (evs, n) := wsc_events_go fuel (str.drop l)
          (JSX_Event.line_comment l :: evs, l + n)
        else ([], 0)

/-- Events-and-length form of `match_whitespace_comment_sequence`. -/
def wsc_events (str : List Char) : List JSX_Event × Nat :=
  wsc_events_go (str.length + 1) str

/-- Embeds the counting `match_whitespace_comment_sequence` overload
(js.cpp:522): the same loop with the counting consumer. -/
def match_whitespace_comment_sequence (str : List Char) : Nat :=
  (wsc_events str).2

/-- Loop of `match_jsx_braced` (js.cpp:541), parameterised by the junk
character: after the whitespace/comment skip the C++ reads `str[length]`
even when the skip ran to the end of the span, an out-of-bounds read
modelled by `junk`. `len` and `level` are the variables of the same names. -/
def jsx_braced_go (junk : Char) (str : List Char) : Nat → Nat → Nat → JSX_Braced_Result
  | 0, len, _ => { length := len, is_terminated := false }
  | fuel + 1, len, level =>
    if len < str.length then
      let skip := match_whitespace_comment_sequence (str.drop len)
      let len := len + skip
      let c := str.getD len junk
      if c = lbrace then jsx_braced_go junk str fuel (len + 1) (level + 1)
      else if c = rbrace then
        if level = 1 then { length := len + 1, is_terminated := true }
        else jsx_braced_go junk str fuel (len + 1) (level - 1)
      else if c = squote || c = '"' then
        let s := match_string_literal (str.drop len)
        jsx_braced_go junk str fuel (len + (if s.length ≠ 0 then s.length else 1)) level
      else jsx_braced_go junk str fuel (len + 1) level
    else { length := len, is_terminated := false }

/-- Embeds `match_jsx_braced` (js.cpp:531), parameterised by the junk
character of the out-of-bounds read. -/
def match_jsx_braced_aux (junk : Char) (str : List Char) : JSX_Braced_Result :=
  match str with
  | [] => bracedNoMatch
  | c :: _ =>
      if c = lbrace then jsx_braced_go junk str (str.length + 2) 1 1 else bracedNoMatch

/-- Embeds `match_jsx_braced` with the junk byte fixed. -/
def match_jsx_braced (str : List Char) : JSX_Braced_Result :=
  match_jsx_braced_aux junk_byte str

/-- Attribute loop of `match_jsx_tag_impl` (js.cpp:743). Returns the events
fired at the consumer so far plus `some kind` on success (`done(kind)`), or
`none` where the C++ returns `false`; the events are produced even on
failure, exactly as the C++ consumer has already observed them. -/
def jsx_attr_loop (str : List Char) (closing : Bool) (acc : List JSX_Event) :
    Nat → List JSX_Event × Option JSX_Type
  | 0 => (acc, none)
  | fuel + 1 =>
    if str = [] then (acc, none) else
    let ew := wsc_events str
    let acc := acc ++ ew.1
    let str := str.drop ew.2
    if str.take 1 = ['>'] then
      (acc ++ [JSX_Event.closing_symbol],
        some (if closing then JSX_Type.closing else JSX_Type.opening))
    else if str.take 2 = ['/', '>'] then
      if closing then (acc, none)
      else (acc ++ [JSX_Event.closing_symbol, JSX_Event.closing_symbol],
        some JSX_Type.self_closing)
    else
      let spread := match_jsx_braced str
      if spread.length ≠ 0 then
        if spread.is_terminated then
          jsx_attr_loop (str.drop spread.length) closing (acc ++ [JSX_Event.braced spread]) fuel
        else (acc, none)
      else
        let an := match_jsx_attribute_name str
        if an ≠ 0 then
          let acc := acc ++ [JSX_Event.attribute_name an]
          let str := str.drop an
          let ew2 := wsc_events str
          let acc := acc ++ ew2.1
          let str := str.drop ew2.2
          if str.take 1 = ['='] then
            let acc := acc ++ [JSX_Event.attribute_equals]
            let str := str.drop 1
            let ew3 := wsc_events str
            let acc := acc ++ ew3.1
            let str := str.drop ew3.2
            let s := match_string_literal str
            if s.length ≠ 0 then
              jsx_attr_loop (str.drop s.length) closing (acc ++ [JSX_Event.string_lit s]) fuel
            else
              let b := match_jsx_braced str
              if b.length ≠ 0 then
                if b.is_terminated then
                  jsx_attr_loop (str.drop b.length) closing (acc ++ [JSX_Event.braced b]) fuel
                else (acc, none)
              else (acc, none)
          else jsx_attr_loop str closing acc fuel
        else (acc, none)

/-- Element-name step of `match_jsx_tag_impl` (js.cpp:739), then the
attribute loop. -/
def jsx_tag_after_slash (str : List Char) (closing : Bool) (acc : List JSX_Event) :
    List JSX_Event × Option JSX_Type :=
  let n := match_jsx_element_name str
  if n ≠ 0 then
    jsx_attr_loop (str.drop n) closing (acc ++ [JSX_Event.element_name n]) (str.length + 1)
  else jsx_attr_loop str closing acc (str.length + 1)

/-- Embeds `match_jsx_tag_impl` (js.cpp:703) as an event producer: the
events fired at the abstract `JSX_Tag_Consumer`, plus `some kind` when the
parse succeeds and `none` where the C++ returns `false`. `non_closing` is
`subset == JSX_Tag_Subset::non_closing`. -/
def match_jsx_tag_events (str : List Char) (non_closing : Bool) :
    List JSX_Event × Option JSX_Type :=
  if str.take 1 = ['<'] then
    let acc : List JSX_Event := [JSX_Event.opening_symbol]
    let str1 := str.drop 1
    let ew := wsc_events str1
    let acc := acc ++ ew.1
    let str2 := str1.drop ew.2
    if str2.take 1 = ['>'] then
      (acc ++ [JSX_Event.closing_symbol], some JSX_Type.fragment_opening)
    else if str2.take 1 = ['/'] then
      if non_closing then (acc, none)
      else
        let acc := acc ++ [JSX_Event.closing_symbol]
        let str3 := str2.drop 1
        let ew2 := wsc_events str3
        let acc := acc ++ ew2.1
        let str4 := str3.drop ew2.2
        if str4.take 1 = ['>'] then
          (acc ++ [JSX_Event.closing_symbol], some JSX_Type.fragment_closing)
        else jsx_tag_after_slash str4 true acc
    else jsx_tag_after_slash str2 false acc
  else ([], none)

/-- Length contributed by one event at the counting consumer
(`Counting_JSX_Tag_Consumer`, js.cpp:586). -/
def jsx_event_length : JSX_Event → Nat
  | JSX_Event.ws n => n
  | JSX_Event.block_comment r => r.length
  | JSX_Event.line_comment n => n
  | JSX_Event.opening_symbol => 1
  | JSX_Event.closing_symbol => 1
  | JSX_Event.element_name n => n
  | JSX_Event.attribute_name n => n
  | JSX_Event.attribute_equals => 1
  | JSX_Event.string_lit r => r.length
  | JSX_Event.braced b => b.length

/-- Embeds the counting `match_jsx_tag_impl` overload (js.cpp:803): run the
grammar with the counting consumer; `return {}` on failure. -/
def match_jsx_tag_impl (str : List Char) (non_closing : Bool) : JSX_Tag_Result :=
  match match_jsx_tag_events str non_closing with
  | (evs, some t) => { length := (evs.map jsx_event_length).sum, type := t }
  | (_, none) => tagNoMatch

/-- Embeds `match_jsx_tag` (js.cpp:815). -/
def match_jsx_tag (str : List Char) : JSX_Tag_Result :=
  match_jsx_tag_impl str false

/-- Embeds `match_operator_or_punctuation` (js.cpp:822). The C++ returns a
`Token_Type` enumerator; we return its canonical spelling (the registry of
`Token_Type` data is not under `src/`), related to the type by
`js_token_type_by_code`. The branch structure — dispatch on the first byte,
longest spelling first — is transcribed from the source. -/
def match_operator_or_punctuation (str : List Char) : Option String :=
  match str with
  | [] => none
  | c :: _ =>
    if c = '!' then
      some (if str.take 3 = ['!', '=', '='] then "!==" else
        if str.take 2 = ['!', '='] then "!=" else "!")
    else if c = '%' then
      some (if str.take 2 = ['%', '='] then "%=" else "%")
    else if c = '&' then
      some (if str.take 3 = ['&', '&', '='] then "&&=" else
        if str.take 2 = ['&', '&'] then "&&" else
        if str.take 2 = ['&', '='] then "&=" else "&")
    else if c = '(' then some "("
    else if c = ')' then some ")"
    else if c = '*' then
      some (if str.take 3 = ['*', '*', '='] then "**=" else
        if str.take 2 = ['*', '*'] then "**" else
        if str.take 2 = ['*', '='] then "*=" else "*")
    else if c = '+' then
      some (if str.take 2 = ['+', '+'] then "++" else
        if str.take 2 = ['+', '='] then "+=" else "+")
    else if c = ',' then some ","
    else if c = '-' then
      some (if str.take 2 = ['-', '-'] then "--" else
        if str.take 2 = ['-', '='] then "-=" else "-")
    else if c = '.' then
      some (if str.take 3 = ['.', '.', '.'] then "..." else ".")
    else if c = '/' then
      some (if str.take 2 = ['/', '='] then "/=" else "/")
    else if c = ':' then some ":"
    else if c = ';' then some ";"
    else if c = '<' then
      some (if str.take 3 = ['<', '<', '='] then "<<=" else
        if str.take 2 = ['<', '<'] then "<<" else
        if str.take 2 = ['<', '='] then "<=" else "<")
    else if c = '=' then
      some (if str.take 3 = ['=', '=', '='] then "===" else
        if str.take 2 = ['=', '='] then "==" else
        if str.take 2 = ['=', '>'] then "=>" else "=")
    else if c = '>' then
      some (if str.take 4 = ['>', '>', '>', '='] then ">>>=" else
        if str.take 3 = ['>', '>', '>'] then ">>>" else
        if str.take 3 = ['>', '>', '='] then ">>=" else
        if str.take 2 = ['>', '>'] then ">>" else
        if str.take 2 = ['>', '='] then ">=" else ">")
    else if c = '?' then
      some (if str.take 3 = ['?', '?', '='] then "??=" else
        if str.take 2 = ['?', '?'] then "??" else
        if str.take 2 = ['?', '.'] then "?." else "?")
    else if c = '[' then some "["
    else if c = ']' then some "]"
    else if c = '^' then
      some (if str.take 2 = ['^', '='] then "^=" else "^")
    else if c = lbrace then some "\x7b"
    else if c = '|' then
      some (if str.take 3 = ['|', '|', '='] then "||=" else
        if str.take 2 = ['|', '|'] then "||" else
        if str.take 2 = ['|', '='] then "|=" else "|")
    else if c = rbrace then some "\x7d"
    else if c = '~' then some "~"
    else none

/-- Modelled from the spec: the registry table data (the
`ULIGHT_JS_TOKEN_ENUM_DATA` macro expanded at js.cpp:29 lives in
`ulight/impl/js.hpp`, outside `src/`). Section 6 describes it as "an
externally supplied, sorted list of (spelling, highlight_category,
origin_tag) triples, one per keyword/operator/punctuation token type". The
operator and punctuation spellings are exactly those returned by
`match_operator_or_punctuation` in the source; the keyword spellings are the
ECMAScript keyword set; every keyword is categorised `keyword` and every
operator/punctuation mark `sym_op`. The list is sorted by spelling, the
invariant the source's `static_assert(std::ranges::is_sorted(...))`
checks. -/
def token_table : List (String × Highlight_Type) :=
  [("!", Highlight_Type.sym_op), ("!=", Highlight_Type.sym_op),
   ("!==", Highlight_Type.sym_op), ("%", Highlight_Type.sym_op),
   ("%=", Highlight_Type.sym_op), ("&", Highlight_Type.sym_op),
   ("&&", Highlight_Type.sym_op), ("&&=", Highlight_Type.sym_op),
   ("&=", Highlight_Type.sym_op), ("(", Highlight_Type.sym_op),
   (")", Highlight_Type.sym_op), ("*", Highlight_Type.sym_op),
   ("**", Highlight_Type.sym_op), ("**=", Highlight_Type.sym_op),
   ("*=", Highlight_Type.sym_op), ("+", Highlight_Type.sym_op),
   ("++", Highlight_Type.sym_op), ("+=", Highlight_Type.sym_op),
   (",", Highlight_Type.sym_op), ("-", Highlight_Type.sym_op),
   ("--", Highlight_Type.sym_op), ("-=", Highlight_Type.sym_op),
   (".", Highlight_Type.sym_op), ("...", Highlight_Type.sym_op),
   ("/", Highlight_Type.sym_op), ("/=", Highlight_Type.sym_op),
   (":", Highlight_Type.sym_op), (";", Highlight_Type.sym_op),
   ("<", Highlight_Type.sym_op), ("<<", Highlight_Type.sym_op),
   ("<<=", Highlight_Type.sym_op), ("<=", Highlight_Type.sym_op),
   ("=", Highlight_Type.sym_op), ("==", Highlight_Type.sym_op),
   ("===", Highlight_Type.sym_op), ("=>", Highlight_Type.sym_op),
   (">", Highlight_Type.sym_op), (">=", Highlight_Type.sym_op),
   (">>", Highlight_Type.sym_op), (">>=", Highlight_Type.sym_op),
   (">>>", Highlight_Type.sym_op), (">>>=", Highlight_Type.sym_op),
   ("?", Highlight_Type.sym_op), ("?.", Highlight_Type.sym_op),
   ("??", Highlight_Type.sym_op), ("??=", Highlight_Type.sym_op),
   ("[", Highlight_Type.sym_op), ("]", Highlight_Type.sym_op),
   ("^", Highlight_Type.sym_op), ("^=", Highlight_Type.sym_op),
   ("async", Highlight_Type.keyword), ("await", Highlight_Type.keyword),
   ("break", Highlight_Type.keyword), ("case", Highlight_Type.keyword),
   ("catch", Highlight_Type.keyword), ("class", Highlight_Type.keyword),
   ("const", Highlight_Type.keyword), ("continue", Highlight_Type.keyword),
   ("debugger", Highlight_Type.keyword), ("default", Highlight_Type.keyword),
   ("delete", Highlight_Type.keyword), ("do", Highlight_Type.keyword),
   ("else", Highlight_Type.keyword), ("enum", Highlight_Type.keyword),
   ("export", Highlight_Type.keyword), ("extends", Highlight_Type.keyword),
   ("false", Highlight_Type.keyword), ("finally", Highlight_Type.keyword),
   ("for", Highlight_Type.keyword), ("function", Highlight_Type.keyword),
   ("if", Highlight_Type.keyword), ("import", Highlight_Type.keyword),
   ("in", Highlight_Type.keyword), ("instanceof", Highlight_Type.keyword),
   ("let", Highlight_Type.keyword), ("new", Highlight_Type.keyword),
   ("null", Highlight_Type.keyword), ("of", Highlight_Type.keyword),
   ("return", Highlight_Type.keyword), ("static", Highlight_Type.keyword),
   ("super", Highlight_Type.keyword), ("switch", Highlight_Type.keyword),
   ("this", Highlight_Type.keyword), ("throw", Highlight_Type.keyword),
   ("true", Highlight_Type.keyword), ("try", Highlight_Type.keyword),
   ("typeof", Highlight_Type.keyword), ("undefined", Highlight_Type.keyword),
   ("var", Highlight_Type.keyword), ("void", Highlight_Type.keyword),
   ("while", Highlight_Type.keyword), ("with", Highlight_Type.keyword),
   ("yield", Highlight_Type.keyword), ("\x7b", Highlight_Type.sym_op),
   ("|", Highlight_Type.sym_op), ("|=", Highlight_Type.sym_op),
   ("||", Highlight_Type.sym_op), ("||=", Highlight_Type.sym_op),
   ("\x7d", Highlight_Type.sym_op), ("~", Highlight_Type.sym_op)]

/-- Embeds `token_type_codes` (js.cpp:29): the spelling column. -/
def token_type_codes : List String := token_table.map Prod.fst

/-- Embeds `js_token_type_code` (js.cpp:50); a token type is its index into
the table. -/
def js_token_type_code (t : Nat) : String := token_type_codes.getD t ""

/-- Embeds `js_token_type_length` (js.cpp:57). -/
def js_token_type_length (t : Nat) : Nat := (js_token_type_code t).length

/-- Embeds `js_token_type_highlight` (js.cpp:63). -/
def js_token_type_highlight (t : Nat) : Highlight_Type :=
  (token_table.map Prod.snd).getD t Highlight_Type.error

/-- Lexicographic order on code-unit sequences: the `operator<` of
`std::u8string_view` used by `std::ranges::lower_bound` and by the sortedness
assertion on the table. -/
def lex_lt : List Char → List Char → Bool
  | [], [] => false
  | [], _ :: _ => true
  | _ :: _, [] => false
  | a :: as, b :: bs =>
      if a.toNat < b.toNat then true
      else if b.toNat < a.toNat then false
      else lex_lt as bs

/-- The contract of `std::ranges::lower_bound` on a sorted range: the index
of the first element not ordered before `code` (the C++ performs a binary
search; on the sorted table the two agree, and the contract is what
js.cpp:77 relies on). -/
def lower_bound : List String → String → Nat
  | [], _ => 0
  | s :: rest, code => if lex_lt s.data code.data then lower_bound rest code + 1 else 0

/-- Sortedness of a spelling list under `lex_lt`: the property the source's
`static_assert(std::ranges::is_sorted(token_type_codes))` checks. -/
def chain_sorted : List String → Bool
  | [] => true
  | [_] => true
  | a :: b :: rest => lex_lt a.data b.data && chain_sorted (b :: rest)

/-- Embeds `js_token_type_by_code` (js.cpp:75): lower-bound lookup, then the
end/mismatch check. -/
def js_token_type_by_code (code : String) : Option Nat :=
  let i := lower_bound token_type_codes code
  if i < token_type_codes.length then
    if token_type_codes.getD i "" = code then some i else none
  else none

/-- Modelled from the spec: `html::match_character_reference` is an external
collaborator (section 6): "match(span) → consumed_length (0 if no reference
recognized), used only while scanning JSX text children". We model a
reference as `&`, a nonempty alphanumeric name, and `;`. -/
def match_character_reference (str : List Char) : Nat :=
  match str with
  | [] => 0
  | c :: rest =>
    if c = '&' then
      let run := (rest.takeWhile (fun d =>
        is_ascii_digit d || (65 ≤ d.toNat && d.toNat ≤ 90) ||
          (97 ≤ d.toNat && d.toNat ≤ 122))).length
      if run ≠ 0 && (rest.drop run).take 1 = [';'] then run + 2 else 0
    else 0

/-- An emitted token record (`Token` fed to the `Non_Owning_Buffer`):
`begin_idx` is the source's `begin`. -/
structure Token where
  begin_idx : Nat
  length : Nat
  type : Highlight_Type
  deriving DecidableEq, Repr

/-- State of the `Highlighter` (js.cpp:923). `out` stores the emitted
records in reverse: the head is `out.back()` in the C++, so emission
prepends. `coalescing` is `options.coalescing`. The member `jsx_depth` is
declared in the source but never read or written outside its initialiser,
so it is omitted. -/
structure HState where
  source : List Char
  coalescing : Bool
  out : List Token
  index : Nat
  can_be_regex : Bool
  at_start_of_file : Bool
  deriving DecidableEq, Repr

/-- Embeds `Highlighter::emit` (js.cpp:946): coalesce with `out.back()` when
enabled, the categories agree, and the ranges are contiguous; otherwise
append. -/
def emit (s : HState) (b len : Nat) (t : Highlight_Type) : HState :=
  match s.out with
  | last :: rest =>
    if s.coalescing && last.type = t && last.begin_idx + last.length = b then
      { s with out := { last with length := last.length + len } :: rest }
    else { s with out := { begin_idx := b, length := len, type := t } :: last :: rest }
  | [] => { s with out := [{ begin_idx := b, length := len, type := t }] }

/-- Embeds `Highlighter::advance` (js.cpp:970). -/
def advance (s : HState) (amount : Nat) : HState :=
  { s with index := s.index + amount }

/-- Embeds `Highlighter::emit_and_advance` (js.cpp:964). -/
def emit_and_advance (s : HState) (len : Nat) (t : Highlight_Type) : HState :=
  advance (emit s s.index len t) len

/-- Embeds `Highlighter::remainder` (js.cpp:977). -/
def remainder (s : HState) : List Char :=
  s.source.drop s.index

/-- Embeds `Highlighter::consume_error` (js.cpp:1013). -/
def consume_error (s : HState) : HState :=
  { (emit_and_advance s 1 Highlight_Type.error) with can_be_regex := true }

/-- Embeds `Highlighter::expect_whitespace` (js.cpp:1246): advance by the
matched length, succeed iff it was nonzero. -/
def expect_whitespace (s : HState) : Bool × HState :=
  let w := match_whitespace (remainder s)
  (w ≠ 0, advance s w)

/-- Embeds `Highlighter::expect_hashbang_comment` (js.cpp:1253). The flag
passed to the matcher is the state's `at_start_of_file` member at call
time. -/
def expect_hashbang_comment (s : HState) : Bool × HState :=
  let h := match_hashbang_comment (remainder s) s.at_start_of_file
  if h = 0 then (false, s)
  else
    let s1 := emit s s.index 2 Highlight_Type.comment_delimiter
    let s2 := emit s1 (s.index + 2) (h - 2) Highlight_Type.comment
    (true, { s2 with index := s2.index + h })

/-- Embeds `Highlighter::highlight_line_comment` (js.cpp:1277). -/
def highlight_line_comment (s : HState) (length : Nat) : HState :=
  let s1 := emit_and_advance s 2 Highlight_Type.comment_delimiter
  let s2 := if length > 2 then emit_and_advance s1 (length - 2) Highlight_Type.comment else s1
  { s2 with can_be_regex := true }

/-- Embeds `Highlighter::expect_line_comment` (js.cpp:1268). -/
def expect_line_comment (s : HState) : Bool × HState :=
  let l := match_line_comment (remainder s)
  if l ≠ 0 then (true, highlight_line_comment s l) else (false, s)

/-- Embeds `Highlighter::highlight_block_comment` (js.cpp:1295). -/
def highlight_block_comment (s : HState) (r : Comment_Result) : HState :=
  let s1 := emit s s.index 2 Highlight_Type.comment_delimiter
  let s2 := emit s1 (s.index + 2) (r.length - 2 - (if r.is_terminated then 2 else 0))
    Highlight_Type.comment
  let s3 := if r.is_terminated then
    emit s2 (s.index + r.length - 2) 2 Highlight_Type.comment_delimiter else s2
  { (advance s3 r.length) with can_be_regex := true }

/-- Embeds `Highlighter::expect_block_comment` (js.cpp:1286). -/
def expect_block_comment (s : HState) : Bool × HState :=
  let r := match_block_comment (remainder s)
  if r.length ≠ 0 then (true, highlight_block_comment s r) else (false, s)

/-- Embeds `Highlighter::highlight_string_literal` (js.cpp:1319). The
source's `ULIGHT_ASSERT(string.length >= 2)` is modelled as a no-op; for a
result of length 1 the emissions below still take place, exactly as in a
build with assertions disabled. -/
def highlight_string_literal (s : HState) (r : String_Literal_Result) : HState :=
  let s1 := emit_and_advance s 1 Highlight_Type.string_delim
  let s2 := if r.length > 2 then
    emit_and_advance s1 (r.length - 2) Highlight_Type.string else s1
  let s3 := emit_and_advance s2 1 Highlight_Type.string_delim
  { s3 with can_be_regex := false }

/-- Embeds `Highlighter::expect_string_literal` (js.cpp:1310). -/
def expect_string_literal (s : HState) : Bool × HState :=
  let r := match_string_literal (remainder s)
  if r.length ≠ 0 then (true, highlight_string_literal s r) else (false, s)

/-- Unescaped-`/`-terminated scan of `expect_regex` (js.cpp:1418): returns
(`size`, `terminated`); `n` counts the units before `rest`. -/
def regex_scan (n : Nat) (escaped : Bool) : List Char → Nat × Bool
  | [] => (n, false)
  | c :: rest =>
      if escaped then regex_scan (n + 1) false rest
      else if c = '\\' then regex_scan (n + 1) true rest
      else if c = '/' then (n + 1, true)
      else if c = '\n' then (n, false)
      else regex_scan (n + 1) false rest

/-- Embeds `Highlighter::expect_regex` (js.cpp:1405). -/
def expect_regex (s : HState) : Bool × HState :=
  let rem := remainder s
  if !s.can_be_regex || rem.take 1 ≠ ['/'] then (false, s)
  else
    if 1 < rem.length && rem.getD 1 junk_byte ≠ '/' && rem.getD 1 junk_byte ≠ '*' then
      let st := regex_scan 1 false (rem.drop 1)
      if st.2 then
        let size := st.1 + ((rem.drop st.1).takeWhile is_js_identifier_part).length
        (true, { (emit_and_advance s size Highlight_Type.string) with can_be_regex := false })
      else (false, s)
    else (false, s)

/-- Embeds `Highlighter::expect_numeric_literal` (js.cpp:1461). -/
def expect_numeric_literal (s : HState) : Bool × HState :=
  let number := match_numeric_literal (remainder s)
  if number.length = 0 then (false, s)
  else
    let t := if number.erroneous then Highlight_Type.error else Highlight_Type.number
    (true, { (emit_and_advance s number.length t) with can_be_regex := false })

/-- Embeds `Highlighter::expect_private_identifier` (js.cpp:1478). -/
def expect_private_identifier (s : HState) : Bool × HState :=
  let l := match_private_identifier (remainder s)
  if l ≠ 0 then
    (true, { (emit_and_advance s l Highlight_Type.id) with can_be_regex := false })
  else (false, s)

/-- The `expr_keywords` array (js.cpp:1509), by canonical spelling. -/
def expr_keywords : List String :=
  ["return", "throw", "case", "delete", "void", "typeof", "yield", "await",
   "instanceof", "in", "new"]

/-- Embeds `Highlighter::expect_symbols` (js.cpp:1488): match an identifier,
look its spelling up in the registry, emit under the keyword's highlight or
`id`, and set `can_be_regex` iff the keyword is one of `expr_keywords` (the
source compares `Token_Type` enumerators; here membership is by the
corresponding canonical spelling). -/
def expect_symbols (s : HState) : Bool × HState :=
  let idl := match_identifier (remainder s)
  if idl = 0 then (false, s)
  else
    let spelling := String.mk ((remainder s).take idl)
    let kw := js_token_type_by_code spelling
    let s1 := match kw with
      | some t => emit s s.index idl (js_token_type_highlight t)
      | none => emit s s.index idl Highlight_Type.id
    let s2 := { s1 with index := s1.index + idl }
    (true, { s2 with can_be_regex := kw.isSome && expr_keywords.contains spelling })

/-- The `non_regex_ops` array (js.cpp:1530), by canonical spelling. -/
def non_regex_ops : List String := ["++", "--", ")", "]", "\x7d", "+", "-"]

/-- Embeds `Highlighter::expect_operator_or_punctuation` (js.cpp:1518). The
matched spelling stands for the `Token_Type` enumerator; length and
highlight are taken from the registry through `js_token_type_by_code`, as
the source takes them through `js_token_type_length`/`_highlight`. -/
def expect_operator_or_punctuation (s : HState) : Bool × HState :=
  match match_operator_or_punctuation (remainder s) with
  | none => (false, s)
  | some sp =>
    let t := (js_token_type_by_code sp).getD 0
    let s1 := emit_and_advance s (js_token_type_length t) (js_token_type_highlight t)
    (true, { s1 with can_be_regex := !(non_regex_ops.contains sp) })

/-- Embeds `Highlighter::template_loop`'s `flush_chars` (js.cpp:1347). -/
def template_flush (chars : Nat) (s : HState) : HState :=
  if chars ≠ 0 then emit s (s.index - chars) chars Highlight_Type.string else s

/-- Call descriptors for the mutually recursive members of `Highlighter`.
Each constructor is one of the source's functions (or one of its loops, with
the loop-local variables as arguments):
`main` is the loop of `operator()` (js.cpp:984), `dispatch` one iteration of
it, `chain` the `expect_line_comment || ... || expect_operator_or_punctuation`
cascade (js.cpp:995), `jsxInJs` is `expect_jsx_in_js`, `tag` is
`consume_jsx_tag`, `events` its fold over the consumer events, `braced` is
`highlight_jsx_braced`, `consumeJs` the loop of
`consume_js_before_closing_brace` with its `brace_level` (the C++ `int`
never goes negative: `--brace_level < 0` is the `level = 0` test here),
`expectTemplate`/`template`/`templateLoop` are `expect_template`,
`consume_template` and its loop (with `chars`), and `children` is the loop
of `consume_jsx_children_and_closing_tag` with its `depth` and local `rem`
view. -/
inductive HCall where
  | main (s : HState)
  | dispatch (s : HState)
  | chain (s : HState)
  | jsxInJs (s : HState)
  | tag (s : HState)
  | events (evs : List JSX_Event) (s : HState)
  | braced (b : JSX_Braced_Result) (s : HState)
  | consumeJs (level : Nat) (s : HState)
  | expectTemplate (s : HState)
  | template (s : HState)
  | templateLoop (chars : Nat) (s : HState)
  | children (depth : Nat) (rem : List Char) (s : HState)
  deriving DecidableEq, Repr

/-- The recursive core of `Highlighter`, with a structural fuel so that every
run is total and kernel-computable; `none` means the fuel ran out (every
theorem about a complete run supplies enough fuel, and the termination
theorem shows enough fuel always exists). The `Bool` is the return value of
the `expect_*` members; members returning `void`/unconditional `true` yield
`true`. -/
def runHL : Nat → HCall → Option (Bool × HState)
  | 0, _ => none
  | fuel + 1, c =>
    match c with
    | HCall.main s =>
      if s.index < s.source.length then
        match runHL fuel (HCall.dispatch s) with
        | some (_, s1) => runHL fuel (HCall.main s1)
        | none => none
      else some (true, s)
    | HCall.dispatch s =>
      let k := fun (sk : HState) =>
        match runHL fuel (HCall.chain sk) with
        | some (true, s4) => some (true, s4)
        | some (false, s4) => some (true, consume_error s4)
        | none => none
      let pw := expect_whitespace s
      if pw.1 then some (true, pw.2) else
      if pw.2.at_start_of_file then
        let s2 := { pw.2 with at_start_of_file := false }
        let ph := expect_hashbang_comment s2
        if ph.1 then some (true, ph.2) else k ph.2
      else k pw.2
    | HCall.chain s =>
      let p1 := expect_line_comment s
      if p1.1 then some (true, p1.2) else
      let p2 := expect_block_comment p1.2
      if p2.1 then some (true, p2.2) else
      match runHL fuel (HCall.jsxInJs p2.2) with
      | none => none
      | some (b3, s3) =>
        if b3 then some (true, s3) else
        let p4 := expect_string_literal s3
        if p4.1 then some (true, p4.2) else
        match runHL fuel (HCall.expectTemplate p4.2) with
        | none => none
        | some (b5, s5) =>
          if b5 then some (true, s5) else
          let p6 := expect_regex s5
          if p6.1 then some (true, p6.2) else
          let p7 := expect_numeric_literal p6.2
          if p7.1 then some (true, p7.2) else
          let p8 := expect_private_identifier p7.2
          if p8.1 then some (true, p8.2) else
          let p9 := expect_symbols p8.2
          if p9.1 then some (true, p9.2) else
          some (expect_operator_or_punctuation p9.2)
    | HCall.jsxInJs s =>
      let opening := match_jsx_tag_impl (remainder s) true
      if opening.length = 0 then some (false, s) else
      match runHL fuel (HCall.tag s) with
      | none => none
      | some (_, s1) =>
        if opening.type ≠ JSX_Type.self_closing then
          match runHL fuel (HCall.children 0 (remainder s1) s1) with
          | none => none
          | some (_, s2) => some (true, { s2 with can_be_regex := true })
        else some (true, { s1 with can_be_regex := true })
    | HCall.tag s =>
      runHL fuel (HCall.events (match_jsx_tag_events (remainder s) false).1 s)
    | HCall.events evs s =>
      match evs with
      | [] => some (true, s)
      | e :: rest =>
        match e with
        | JSX_Event.ws n => runHL fuel (HCall.events rest (advance s n))
        | JSX_Event.block_comment r =>
          runHL fuel (HCall.events rest (highlight_block_comment s r))
        | JSX_Event.line_comment n =>
          runHL fuel (HCall.events rest (highlight_line_comment s n))
        | JSX_Event.opening_symbol =>
          runHL fuel (HCall.events rest (emit_and_advance s 1 Highlight_Type.sym_punc))
        | JSX_Event.closing_symbol =>
          runHL fuel (HCall.events rest (emit_and_advance s 1 Highlight_Type.sym_punc))
        | JSX_Event.element_name n =>
          runHL fuel (HCall.events rest (emit_and_advance s n Highlight_Type.markup_tag))
        | JSX_Event.attribute_name n =>
          runHL fuel (HCall.events rest (emit_and_advance s n Highlight_Type.markup_tag))
        | JSX_Event.attribute_equals =>
          runHL fuel (HCall.events rest (emit_and_advance s 1 Highlight_Type.sym_punc))
        | JSX_Event.string_lit r =>
          runHL fuel (HCall.events rest (highlight_string_literal s r))
        | JSX_Event.braced b =>
          match runHL fuel (HCall.braced b s) with
          | none => none
          | some (_, s1) => runHL fuel (HCall.events rest s1)
    | HCall.braced b s =>
      let s1 := emit_and_advance s 1 Highlight_Type.sym_brace
      let js_length := b.length - (if b.is_terminated then 2 else 1)
      if js_length ≠ 0 then
        match runHL fuel (HCall.consumeJs 0 s1) with
        | none => none
        | some (_, s2) =>
          some (true, if b.is_terminated then
            emit_and_advance s2 1 Highlight_Type.sym_brace else s2)
      else
        some (true, if b.is_terminated then
          emit_and_advance s1 1 Highlight_Type.sym_brace else s1)
    | HCall.consumeJs level s =>
      if s.index < s.source.length then
        let ch := s.source.getD s.index junk_byte
        if ch = lbrace then
          runHL fuel (HCall.consumeJs (level + 1)
            (emit_and_advance s 1 Highlight_Type.sym_brace))
        else if ch = rbrace then
          if level = 0 then some (true, s)
          else runHL fuel (HCall.consumeJs (level - 1)
            (emit_and_advance s 1 Highlight_Type.sym_brace))
        else
          let pw := expect_whitespace s
          if pw.1 then runHL fuel (HCall.consumeJs level pw.2)
          else
            match runHL fuel (HCall.chain pw.2) with
            | none => none
            | some (true, s2) => runHL fuel (HCall.consumeJs level s2)
            | some (false, s2) => runHL fuel (HCall.consumeJs level (consume_error s2))
      else some (true, s)
    | HCall.expectTemplate s =>
      if (remainder s).take 1 = [backtick] then
        match runHL fuel (HCall.template s) with
        | none => none
        | some (_, s1) => some (true, s1)
      else some (false, s)
    | HCall.template s =>
      runHL fuel (HCall.templateLoop 0 (emit_and_advance s 1 Highlight_Type.string_delim))
    | HCall.templateLoop chars s =>
      if s.index < s.source.length then
        let rem := remainder s
        let ch := rem.getD 0 junk_byte
        if ch = backtick then
          some (true, emit_and_advance (template_flush chars s) 1 Highlight_Type.string_delim)
        else if ch = '$' then
          if rem.take 2 = ['$', lbrace] then
            let s1 := emit_and_advance (template_flush chars s) 2 Highlight_Type.escape
            match runHL fuel (HCall.consumeJs 0 s1) with
            | none => none
            | some (_, s2) =>
              if s2.index < s2.source.length then
                runHL fuel (HCall.templateLoop 0
                  (emit_and_advance s2 1 Highlight_Type.escape))
              else runHL fuel (HCall.templateLoop 0 s2)
          else runHL fuel (HCall.templateLoop (chars + 1) (advance s 1))
        else if ch = '\\' then
          let cl := match_line_continuation rem
          if cl ≠ 0 then
            runHL fuel (HCall.templateLoop (cl - 1)
              (advance (emit_and_advance (template_flush chars s) 1 Highlight_Type.escape)
                (cl - 1)))
          else runHL fuel (HCall.templateLoop (chars + 1) (advance s 1))
        else runHL fuel (HCall.templateLoop (chars + 1) (advance s 1))
      else some (true, template_flush chars s)
    | HCall.children depth rem s =>
      if rem = [] then some (true, s) else
      let safe := rem.findIdx (fun ch =>
        ch = '&' || ch = lbrace || ch = rbrace || ch = '<' || ch = '>')
      if safe = rem.length then some (true, advance s rem.length)
      else
        let s := advance s safe
        let rem := rem.drop safe
        let ch := rem.getD 0 junk_byte
        if ch = '&' then
          let ref := match_character_reference rem
          if ref ≠ 0 then
            runHL fuel (HCall.children depth (rem.drop ref)
              (emit_and_advance s ref Highlight_Type.escape))
          else runHL fuel (HCall.children depth (rem.drop 1) (advance s 1))
        else if ch = '<' then
          let tg := match_jsx_tag rem
          if tg.length = 0 then
            runHL fuel (HCall.children depth (rem.drop 1)
              (emit_and_advance s 1 Highlight_Type.error))
          else
            match runHL fuel (HCall.tag s) with
            | none => none
            | some (_, s1) =>
              let rem1 := rem.drop tg.length
              if tg.type = JSX_Type.opening || tg.type = JSX_Type.fragment_opening then
                runHL fuel (HCall.children (depth + 1) rem1 s1)
              else if tg.type = JSX_Type.closing || tg.type = JSX_Type.fragment_closing then
                if depth = 0 then some (true, s1)
                else runHL fuel (HCall.children (depth - 1) rem1 s1)
              else runHL fuel (HCall.children depth rem1 s1)
        else if ch = '>' then
          runHL fuel (HCall.children depth (rem.drop 1)
            (emit_and_advance s 1 Highlight_Type.error))
        else if ch = lbrace then
          let br := match_jsx_braced rem
          if br.length ≠ 0 then
            match runHL fuel (HCall.braced br s) with
            | none => none
            | some (_, s1) => runHL fuel (HCall.children depth (rem.drop br.length) s1)
          else
            runHL fuel (HCall.children depth (rem.drop 1)
              (emit_and_advance s 1 Highlight_Type.error))
        else
          runHL fuel (HCall.children depth (rem.drop 1)
            (emit_and_advance s 1 Highlight_Type.error))

/-- The loop of `Highlighter::operator()` (js.cpp:982), as a run of the
fueled core. -/
def mainLoop (fuel : Nat) (s : HState) : Option HState :=
  (runHL fuel (HCall.main s)).map Prod.snd

/-- One iteration of the dispatch loop of `Highlighter::operator()`:
whitespace, the one-shot hashbang step, the priority chain, and the
`consume_error` fallback. -/
def dispatch_once (fuel : Nat) (s : HState) : Option HState :=
  (runHL fuel (HCall.dispatch s)).map Prod.snd

/-- The initial `Highlighter` state built by `highlight_javascript`
(js.cpp:1549). -/
def init_state (source : List Char) (coalescing : Bool) : HState :=
  { source := source, coalescing := coalescing, out := [], index := 0,
    can_be_regex := true, at_start_of_file := true }

/-- Embeds `highlight_javascript` (js.cpp:1549): run the highlighter over
the whole source and return the emitted records in emission order. -/
def highlight_javascript (fuel : Nat) (source : List Char) (coalescing : Bool) :
    Option (List Token) :=
  (mainLoop fuel (init_state source coalescing)).map (fun s => s.out.reverse)

/-- Mirrors the loop of `match_jsx_braced` (js.cpp:541) and reports whether
the `str[length]` read after the whitespace/comment skip ever falls at an
index `≥ str.length()`, i.e. out of bounds. In-bounds iterations branch on
the actual character, exactly as `jsx_braced_go` does. -/
def jsx_braced_oob_go (str : List Char) : Nat → Nat → Nat → Bool
  | 0, _, _ => false
  | fuel + 1, len, level =>
    if len < str.length then
      let skip := match_whitespace_comment_sequence (str.drop len)
      let len := len + skip
      if str.length ≤ len then true
      else
        let c := str.getD len junk_byte
        if c = lbrace then jsx_braced_oob_go str fuel (len + 1) (level + 1)
        else if c = rbrace then
          if level = 1 then false
          else jsx_braced_oob_go str fuel (len + 1) (level - 1)
        else if c = squote || c = '"' then
          let s := match_string_literal (str.drop len)
          jsx_braced_oob_go str fuel (len + (if s.length ≠ 0 then s.length else 1)) level
        else jsx_braced_oob_go str fuel (len + 1) level
    else false

/-- True iff running `match_jsx_braced` on `str` performs an out-of-bounds
read. -/
def jsx_braced_reads_oob (str : List Char) : Bool :=
  match str with
  | [] => false
  | c :: _ => if c = lbrace then jsx_braced_oob_go str (str.length + 2) 1 1 else false

/-- Mirrors the fractional-part branch of `match_numeric_literal`
(js.cpp:312-321) and reports whether the read `str[length + 1]` — performed
when the radix prefix and integer part are both empty and the text at
`length` starts with `.` — falls out of bounds. -/
def numeric_literal_reads_oob (str : List Char) : Bool :=
  match str with
  | [] => false
  | _ :: _ =>
    let two := str.take 2
    let base : Nat :=
      if two = ['0', 'b'] || two = ['0', 'B'] then 2
      else if two = ['0', 'o'] || two = ['0', 'O'] then 8
      else if two = ['0', 'x'] || two = ['0', 'X'] then 16
      else 10
    let radix : Nat := if base = 10 then 0 else 2
    let intd := match_digits (str.drop radix) base
    let len0 := radix + intd.length
    ((str.drop len0).take 1 = ['.'] && radix = 0 && intd.length = 0) &&
      str.length ≤ len0 + 1

/-- End offset of the most recently emitted record (0 when none): `out` is
stored in reverse, so this is the head. -/
def headEnd : List Token → Nat
  | [] => 0
  | t :: _ => t.begin_idx + t.length

/-- In-order non-overlap of the reversed record list: each record begins at
or after the end of the record emitted before it. -/
def rev_chained : List Token → Bool
  | [] => true
  | t :: rest => decide (headEnd rest ≤ t.begin_idx) && rev_chained rest

/-- In-order non-overlap of a record list in emission order: every record
begins at or after the end of its predecessor (so ranges are pairwise
disjoint and monotone). -/
def records_ordered : List Token → Bool
  | [] => true
  | [_] => true
  | a :: b :: rest => decide (a.begin_idx + a.length ≤ b.begin_idx) && records_ordered (b :: rest)

/-- Per-position expansion of a record list: the classified positions, each
paired with its highlight category, in record order. -/
def expand (toks : List Token) : List (Nat × Highlight_Type) :=
  toks.flatMap (fun t => (List.range t.length).map (fun k => (t.begin_idx + k, t.type)))

/-- Whether a record list, concatenated in emission order, exactly tiles
`[0, n)` with no gaps and no overlaps: its expanded positions are exactly
`0, 1, ..., n-1` in order. -/
def tiles (toks : List Token) (n : Nat) : Bool :=
  (expand toks).map Prod.fst = List.range n

/-- The highlighter state a call descriptor runs from. -/
def call_state : HCall → HState
  | HCall.main s => s
  | HCall.dispatch s => s
  | HCall.chain s => s
  | HCall.jsxInJs s => s
  | HCall.tag s => s
  | HCall.events _ s => s
  | HCall.braced _ s => s
  | HCall.consumeJs _ s => s
  | HCall.expectTemplate s => s
  | HCall.template s => s
  | HCall.templateLoop _ s => s
  | HCall.children _ _ s => s

/-- Facts every completed call guarantees: the source span and options are
untouched and the cursor is monotone. -/
def base_post (s s' : HState) : Prop :=
  s'.source = s.source ∧ s'.coalescing = s.coalescing ∧ s.index ≤ s'.index

/-- Per-call progress facts: the dispatch iteration always advances the
cursor strictly; an `expect_*` that returns `true` advanced strictly;
`consume_jsx_tag` advances strictly when the text starts with `<` (events
begin with the opening symbol); `highlight_jsx_braced` and
`consume_template` advance strictly. -/
def extra_post : HCall → Bool → HState → Prop
  | HCall.dispatch s, _, s' => s.index < s'.index
  | HCall.chain s, b, s' => b = true → s.index < s'.index
  | HCall.jsxInJs s, b, s' => b = true → s.index < s'.index
  | HCall.tag s, _, s' => (remainder s).take 1 = ['<'] → s.index < s'.index
  | HCall.events evs s, _, s' =>
      evs.head? = some JSX_Event.opening_symbol → s.index < s'.index
  | HCall.braced _ s, _, s' => s.index < s'.index
  | HCall.expectTemplate s, b, s' => b = true → s.index < s'.index
  | HCall.template s, _, s' => s.index < s'.index
  | _, _, _ => True

/-- Order invariant of a highlighter state: the emitted records are
non-overlapping and monotone, and the most recent record ends at or before
the cursor. -/
def ord_inv (s : HState) : Prop :=
  rev_chained s.out = true ∧ headEnd s.out ≤ s.index

/-- Order precondition of a call: `ord_inv` of its state, strengthened for
the template loop, whose pending `chars` units (counted but not yet
flushed) lie between the last record's end and the cursor. -/
def ord_pre : HCall → Prop
  | HCall.templateLoop chars s =>
      rev_chained s.out = true ∧ headEnd s.out + chars ≤ s.index
  | c => ord_inv (call_state c)

/-- Relation between a coalescing-run state and a non-coalescing-run state:
identical but for the output buffer, whose per-position expansions agree. -/
def srel (sc snc : HState) : Prop :=
  sc.source = snc.source ∧ sc.index = snc.index ∧
  sc.can_be_regex = snc.can_be_regex ∧ sc.at_start_of_file = snc.at_start_of_file ∧
  sc.coalescing = true ∧ snc.coalescing = false ∧
  expand sc.out.reverse = expand snc.out.reverse

/-- Replace the state a call descriptor runs from, keeping its other
arguments. -/
def set_state : HCall → HState → HCall
  | HCall.main _, t => HCall.main t
  | HCall.dispatch _, t => HCall.dispatch t
  | HCall.chain _, t => HCall.chain t
  | HCall.jsxInJs _, t => HCall.jsxInJs t
  | HCall.tag _, t => HCall.tag t
  | HCall.events evs _, t => HCall.events evs t
  | HCall.braced b _, t => HCall.braced b t
  | HCall.consumeJs l _, t => HCall.consumeJs l t
  | HCall.expectTemplate _, t => HCall.expectTemplate t
  | HCall.template _, t => HCall.template t
  | HCall.templateLoop c _, t => HCall.templateLoop c t
  | HCall.children d r _, t => HCall.children d r t

/-- Rank of a call for the termination measure: a call may invoke, at the
same cursor position, only calls of strictly smaller rank. -/
def hrank : HCall → Nat
  | HCall.main _ => 12
  | HCall.dispatch _ => 11
  | HCall.consumeJs _ _ => 10
  | HCall.children _ _ _ => 9
  | HCall.chain _ => 8
  | HCall.expectTemplate _ => 7
  | HCall.template _ => 6
  | HCall.templateLoop _ _ => 5
  | HCall.jsxInJs _ => 4
  | HCall.tag _ => 3
  | HCall.events _ _ => 2
  | HCall.braced _ _ => 1

/-- Termination measure: remaining span length (dominant) then rank. -/
def hmeasure (c : HCall) : Nat :=
  ((call_state c).source.length - (call_state c).index) * 16 + hrank c

/-- Totality of a call: some fuel (and hence every larger fuel) completes
it with a fixed result. -/
def totalP (c : HCall) : Prop :=
  ∃ f r, ∀ g, f ≤ g → runHL g c = some r

/-- Well-formedness of a tag-consumer event: the block-comment results the
grammar fires really come from `match_block_comment`, so they are at least
`/*` long and, when terminated, at least `/**\/` long. All other events are
unconstrained. -/
def good_event : JSX_Event → Prop
  | JSX_Event.block_comment r => 2 ≤ r.length ∧ (r.is_terminated = true → 4 ≤ r.length)
  | _ => True

/-- Well-formedness of a call's extra arguments: an `events` call carries
only well-formed events (as the tag grammar produces). -/
def good_call : HCall → Prop
  | HCall.events evs _ => ∀ e ∈ evs, good_event e
  | _ => True

/-! Helper lemmas about the pure state operations and `expect_*` members. -/

theorem emit_spec (s : HState) (b l : Nat) (t : Highlight_Type) :
    (emit s b l t).source = s.source ∧ (emit s b l t).coalescing = s.coalescing ∧
    (emit s b l t).index = s.index ∧ (emit s b l t).can_be_regex = s.can_be_regex ∧
    (emit s b l t).at_start_of_file = s.at_start_of_file := by
  unfold emit
  rcases s.out with _ | ⟨last, rest⟩
  · simp
  · dsimp only
    split <;> simp

@[simp]
theorem emit_source (s : HState) (b l : Nat) (t : Highlight_Type) :
    (emit s b l t).source = s.source := (emit_spec s b l t).1

@[simp]
theorem emit_coalescing (s : HState) (b l : Nat) (t : Highlight_Type) :
    (emit s b l t).coalescing = s.coalescing := (emit_spec s b l t).2.1

@[simp]
theorem emit_index (s : HState) (b l : Nat) (t : Highlight_Type) :
    (emit s b l t).index = s.index := (emit_spec s b l t).2.2.1

@[simp]
theorem emit_can_be_regex (s : HState) (b l : Nat) (t : Highlight_Type) :
    (emit s b l t).can_be_regex = s.can_be_regex := (emit_spec s b l t).2.2.2.1

@[simp]
theorem emit_at_start (s : HState) (b l : Nat) (t : Highlight_Type) :
    (emit s b l t).at_start_of_file = s.at_start_of_file := (emit_spec s b l t).2.2.2.2

theorem emit_and_advance_spec (s : HState) (l : Nat) (t : Highlight_Type) :
    (emit_and_advance s l t).source = s.source ∧
    (emit_and_advance s l t).coalescing = s.coalescing ∧
    (emit_and_advance s l t).index = s.index + l ∧
    (emit_and_advance s l t).can_be_regex = s.can_be_regex ∧
    (emit_and_advance s l t).at_start_of_file = s.at_start_of_file := by
  have h := emit_spec s s.index l t
  unfold emit_and_advance advance
  exact ⟨h.1, h.2.1, by rw [h.2.2.1], h.2.2.2.1, h.2.2.2.2⟩

theorem consume_error_spec (s : HState) :
    (consume_error s).source = s.source ∧ (consume_error s).coalescing = s.coalescing ∧
    (consume_error s).index = s.index + 1 := by
  have h := emit_and_advance_spec s 1 Highlight_Type.error
  unfold consume_error
  exact ⟨h.1, h.2.1, h.2.2.1⟩

theorem expect_whitespace_spec (s : HState) :
    (expect_whitespace s).2.source = s.source ∧
    (expect_whitespace s).2.coalescing = s.coalescing ∧
    s.index ≤ (expect_whitespace s).2.index ∧
    ((expect_whitespace s).1 = true → s.index < (expect_whitespace s).2.index) ∧
    (expect_whitespace s).2.can_be_regex = s.can_be_regex ∧
    (expect_whitespace s).2.at_start_of_file = s.at_start_of_file := by
  unfold expect_whitespace advance
  dsimp only
  refine ⟨rfl, rfl, Nat.le_add_right _ _, ?_, rfl, rfl⟩
  intro h
  simp only [decide_eq_true_eq] at h
  omega

theorem expect_hashbang_comment_spec (s : HState) :
    (expect_hashbang_comment s).2.source = s.source ∧
    (expect_hashbang_comment s).2.coalescing = s.coalescing ∧
    s.index ≤ (expect_hashbang_comment s).2.index ∧
    ((expect_hashbang_comment s).1 = true → s.index < (expect_hashbang_comment s).2.index) := by
  unfold expect_hashbang_comment
  dsimp only
  split
  · exact ⟨rfl, rfl, Nat.le_refl _, by simp⟩
  · rename_i hne
    have h1 := emit_spec s s.index 2 Highlight_Type.comment_delimiter
    have h2 := emit_spec (emit s s.index 2 Highlight_Type.comment_delimiter) (s.index + 2)
      (match_hashbang_comment (remainder s) s.at_start_of_file - 2) Highlight_Type.comment
    refine ⟨by simp [h2.1, h1.1], by simp [h2.2.1, h1.2.1], ?_, ?_⟩
    · simp only [h2.2.2.1, h1.2.2.1]
      exact Nat.le_add_right _ _
    · intro _
      simp only [h2.2.2.1, h1.2.2.1]
      omega

theorem highlight_line_comment_spec (s : HState) (l : Nat) :
    (highlight_line_comment s l).source = s.source ∧
    (highlight_line_comment s l).coalescing = s.coalescing ∧
    s.index < (highlight_line_comment s l).index := by
  unfold highlight_line_comment
  have h1 := emit_and_advance_spec s 2 Highlight_Type.comment_delimiter
  split
  · have h2 := emit_and_advance_spec (emit_and_advance s 2 Highlight_Type.comment_delimiter)
      (l - 2) Highlight_Type.comment
    refine ⟨by simp [h2.1, h1.1], by simp [h2.2.1, h1.2.1], ?_⟩
    simp only [h2.2.2.1, h1.2.2.1]
    omega
  · exact ⟨h1.1, h1.2.1, by simp only [h1.2.2.1]; omega⟩

theorem expect_line_comment_spec (s : HState) :
    (expect_line_comment s).2.source = s.source ∧
    (expect_line_comment s).2.coalescing = s.coalescing ∧
    s.index ≤ (expect_line_comment s).2.index ∧
    ((expect_line_comment s).1 = true → s.index < (expect_line_comment s).2.index) := by
  unfold expect_line_comment
  dsimp only
  split
  · have h := highlight_line_comment_spec s (match_line_comment (remainder s))
    exact ⟨h.1, h.2.1, Nat.le_of_lt h.2.2, fun _ => h.2.2⟩
  · exact ⟨rfl, rfl, Nat.le_refl _, by simp⟩

theorem highlight_block_comment_spec (s : HState) (r : Comment_Result) :
    (highlight_block_comment s r).source = s.source ∧
    (highlight_block_comment s r).coalescing = s.coalescing ∧
    (highlight_block_comment s r).index = s.index + r.length := by
  unfold highlight_block_comment advance
  dsimp only
  split <;> simp

theorem expect_block_comment_spec (s : HState) :
    (expect_block_comment s).2.source = s.source ∧
    (expect_block_comment s).2.coalescing = s.coalescing ∧
    s.index ≤ (expect_block_comment s).2.index ∧
    ((expect_block_comment s).1 = true → s.index < (expect_block_comment s).2.index) := by
  unfold expect_block_comment
  dsimp only
  split
  · rename_i hne
    have h := highlight_block_comment_spec s (match_block_comment (remainder s))
    refine ⟨h.1, h.2.1, by simp only [h.2.2]; omega, fun _ => ?_⟩
    simp only [h.2.2]
    omega
  · exact ⟨rfl, rfl, Nat.le_refl _, by simp⟩

theorem highlight_string_literal_spec (s : HState) (r : String_Literal_Result) :
    (highlight_string_literal s r).source = s.source ∧
    (highlight_string_literal s r).coalescing = s.coalescing ∧
    s.index < (highlight_string_literal s r).index := by
  unfold highlight_string_literal emit_and_advance advance
  dsimp only
  split <;> simp <;> omega

theorem expect_string_literal_spec (s : HState) :
    (expect_string_literal s).2.source = s.source ∧
    (expect_string_literal s).2.coalescing = s.coalescing ∧
    s.index ≤ (expect_string_literal s).2.index ∧
    ((expect_string_literal s).1 = true → s.index < (expect_string_literal s).2.index) := by
  unfold expect_string_literal
  dsimp only
  split
  · have h := highlight_string_literal_spec s (match_string_literal (remainder s))
    exact ⟨h.1, h.2.1, Nat.le_of_lt h.2.2, fun _ => h.2.2⟩
  · exact ⟨rfl, rfl, Nat.le_refl _, by simp⟩

theorem regex_scan_ge (n : Nat) (e : Bool) (l : List Char) : n ≤ (regex_scan n e l).1 := by
  induction l generalizing n e with
  | nil => exact Nat.le_refl _
  | cons c rest ih =>
    unfold regex_scan
    split
    · exact Nat.le_trans (Nat.le_succ n) (ih (n + 1) false)
    · split
      · exact Nat.le_trans (Nat.le_succ n) (ih (n + 1) true)
      · split
        · exact Nat.le_succ n
        · split
          · exact Nat.le_refl n
          · exact Nat.le_trans (Nat.le_succ n) (ih (n + 1) false)

theorem expect_regex_spec (s : HState) :
    (expect_regex s).2.source = s.source ∧
    (expect_regex s).2.coalescing = s.coalescing ∧
    s.index ≤ (expect_regex s).2.index ∧
    ((expect_regex s).1 = true → s.index < (expect_regex s).2.index) := by
  unfold expect_regex
  dsimp only
  split
  · exact ⟨rfl, rfl, Nat.le_refl _, by simp⟩
  · split
    · split
      · rename_i hterm
        set size := (regex_scan 1 false ((remainder s).drop 1)).1 +
          (((remainder s).drop (regex_scan 1 false ((remainder s).drop 1)).1).takeWhile
            is_js_identifier_part).length with hsz
        have h := emit_and_advance_spec s size Highlight_Type.string
        have hge : 1 ≤ (regex_scan 1 false ((remainder s).drop 1)).1 := regex_scan_ge 1 false _
        refine ⟨h.1, h.2.1, ?_, fun _ => ?_⟩
        · simp only [h.2.2.1]; omega
        · simp only [h.2.2.1]; omega
      · exact ⟨rfl, rfl, Nat.le_refl _, by simp⟩
    · exact ⟨rfl, rfl, Nat.le_refl _, by simp⟩

theorem expect_numeric_literal_spec (s : HState) :
    (expect_numeric_literal s).2.source = s.source ∧
    (expect_numeric_literal s).2.coalescing = s.coalescing ∧
    s.index ≤ (expect_numeric_literal s).2.index ∧
    ((expect_numeric_literal s).1 = true → s.index < (expect_numeric_literal s).2.index) := by
  unfold expect_numeric_literal
  dsimp only
  split
  · exact ⟨rfl, rfl, Nat.le_refl _, by simp⟩
  · rename_i hne
    have h := emit_and_advance_spec s (match_numeric_literal (remainder s)).length
      (if (match_numeric_literal (remainder s)).erroneous then Highlight_Type.error
        else Highlight_Type.number)
    refine ⟨h.1, h.2.1, by simp only [h.2.2.1]; omega, fun _ => ?_⟩
    simp only [h.2.2.1]
    omega

theorem expect_private_identifier_spec (s : HState) :
    (expect_private_identifier s).2.source = s.source ∧
    (expect_private_identifier s).2.coalescing = s.coalescing ∧
    s.index ≤ (expect_private_identifier s).2.index ∧
    ((expect_private_identifier s).1 = true →
      s.index < (expect_private_identifier s).2.index) := by
  unfold expect_private_identifier
  dsimp only
  split
  · rename_i hne
    have h := emit_and_advance_spec s (match_private_identifier (remainder s)) Highlight_Type.id
    refine ⟨h.1, h.2.1, by simp only [h.2.2.1]; omega, fun _ => ?_⟩
    simp only [h.2.2.1]
    omega
  · exact ⟨rfl, rfl, Nat.le_refl _, by simp⟩

theorem expect_symbols_spec (s : HState) :
    (expect_symbols s).2.source = s.source ∧
    (expect_symbols s).2.coalescing = s.coalescing ∧
    s.index ≤ (expect_symbols s).2.index ∧
    ((expect_symbols s).1 = true → s.index < (expect_symbols s).2.index) := by
  unfold expect_symbols
  dsimp only
  split
  · exact ⟨rfl, rfl, Nat.le_refl _, by simp⟩
  · rename_i hne
    split <;> simp <;> omega

theorem head_of_prefix {α : Type} (x : α) (pre rest res : List α) (h : res = pre ++ rest)
    (hh : pre.head? = some x) : ∃ u, res = x :: u := by
  cases pre with
  | nil => simp at hh
  | cons a l =>
    simp only [List.head?_cons, Option.some.injEq] at hh
    exact ⟨l ++ rest, by simp [h, hh]⟩

theorem jsx_attr_loop_acc (fuel : Nat) :
    ∀ (str : List Char) (closing : Bool) (acc : List JSX_Event)
      (res : List JSX_Event × Option JSX_Type),
      jsx_attr_loop str closing acc fuel = res → acc <+: res.1 := by
  induction fuel with
  | zero =>
    intro str closing acc res h
    cases h
    exact List.prefix_rfl
  | succ fuel ih =>
    intro str closing acc res h
    unfold jsx_attr_loop at h
    dsimp only at h
    repeat' split at h
    all_goals
      first
        | exact List.IsPrefix.trans
            (by simp [List.prefix_append, List.append_assoc]) (ih _ _ _ _ h)
        | (cases h
           first
             | exact List.prefix_rfl
             | simp [List.prefix_append, List.append_assoc])

theorem jsx_tag_after_slash_acc (str : List Char) (closing : Bool) (acc : List JSX_Event)
    (res : List JSX_Event × Option JSX_Type) (h : jsx_tag_after_slash str closing acc = res) :
    acc <+: res.1 := by
  unfold jsx_tag_after_slash at h
  dsimp only at h
  split at h
  · exact List.IsPrefix.trans
      (by simp [List.prefix_append, List.append_assoc]) (jsx_attr_loop_acc _ _ _ _ _ h)
  · exact jsx_attr_loop_acc _ _ _ _ _ h

theorem match_jsx_tag_events_head (str : List Char) (nc : Bool) (h : str.take 1 = ['<']) :
    ∃ t, (match_jsx_tag_events str nc).1 = JSX_Event.opening_symbol :: t := by
  suffices hp : [JSX_Event.opening_symbol] <+: (match_jsx_tag_events str nc).1 by
    obtain ⟨t, ht⟩ := hp
    exact ⟨t, ht.symm⟩
  rcases hres : match_jsx_tag_events str nc with ⟨evs, ty⟩
  unfold match_jsx_tag_events at hres
  rw [if_pos h] at hres
  dsimp only at hres
  repeat' split at hres
  all_goals
    first
      | exact List.IsPrefix.trans
          (by simp [List.prefix_append, List.append_assoc])
          (jsx_tag_after_slash_acc _ _ _ _ hres)
      | (cases hres
         simp [List.prefix_append, List.append_assoc])

theorem tag_impl_pos_starts (str : List Char) (nc : Bool)
    (h : (match_jsx_tag_impl str nc).length ≠ 0) : str.take 1 = ['<'] := by
  by_contra hq
  unfold match_jsx_tag_impl match_jsx_tag_events at h
  rw [if_neg hq] at h
  simp [tagNoMatch] at h

theorem tok_len_pos (sp : String) :
    1 ≤ js_token_type_length ((js_token_type_by_code sp).getD 0) := by
  have hall : ∀ t, t < token_type_codes.length → 1 ≤ js_token_type_length t := by decide
  unfold js_token_type_by_code
  dsimp only
  split
  · split
    · rename_i hlt heq
      simpa using hall _ hlt
    · simpa using hall 0 (by decide)
  · simpa using hall 0 (by decide)

@[simp]
theorem emit_and_advance_source (s : HState) (l : Nat) (t : Highlight_Type) :
    (emit_and_advance s l t).source = s.source := (emit_and_advance_spec s l t).1

@[simp]
theorem emit_and_advance_coalescing (s : HState) (l : Nat) (t : Highlight_Type) :
    (emit_and_advance s l t).coalescing = s.coalescing := (emit_and_advance_spec s l t).2.1

@[simp]
theorem emit_and_advance_index (s : HState) (l : Nat) (t : Highlight_Type) :
    (emit_and_advance s l t).index = s.index + l := (emit_and_advance_spec s l t).2.2.1

@[simp]
theorem emit_and_advance_regex (s : HState) (l : Nat) (t : Highlight_Type) :
    (emit_and_advance s l t).can_be_regex = s.can_be_regex :=
  (emit_and_advance_spec s l t).2.2.2.1

@[simp]
theorem emit_and_advance_start (s : HState) (l : Nat) (t : Highlight_Type) :
    (emit_and_advance s l t).at_start_of_file = s.at_start_of_file :=
  (emit_and_advance_spec s l t).2.2.2.2

@[simp]
theorem consume_error_source (s : HState) : (consume_error s).source = s.source :=
  (consume_error_spec s).1

@[simp]
theorem consume_error_coalescing (s : HState) : (consume_error s).coalescing = s.coalescing :=
  (consume_error_spec s).2.1

@[simp]
theorem consume_error_index (s : HState) : (consume_error s).index = s.index + 1 :=
  (consume_error_spec s).2.2

@[simp]
theorem highlight_block_comment_source (s : HState) (r : Comment_Result) :
    (highlight_block_comment s r).source = s.source := (highlight_block_comment_spec s r).1

@[simp]
theorem highlight_block_comment_coalescing (s : HState) (r : Comment_Result) :
    (highlight_block_comment s r).coalescing = s.coalescing :=
  (highlight_block_comment_spec s r).2.1

@[simp]
theorem highlight_block_comment_index (s : HState) (r : Comment_Result) :
    (highlight_block_comment s r).index = s.index + r.length :=
  (highlight_block_comment_spec s r).2.2

@[simp]
theorem highlight_line_comment_source (s : HState) (l : Nat) :
    (highlight_line_comment s l).source = s.source := (highlight_line_comment_spec s l).1

@[simp]
theorem highlight_line_comment_coalescing (s : HState) (l : Nat) :
    (highlight_line_comment s l).coalescing = s.coalescing :=
  (highlight_line_comment_spec s l).2.1

@[simp]
theorem highlight_string_literal_source (s : HState) (r : String_Literal_Result) :
    (highlight_string_literal s r).source = s.source := (highlight_string_literal_spec s r).1

@[simp]
theorem highlight_string_literal_coalescing (s : HState) (r : String_Literal_Result) :
    (highlight_string_literal s r).coalescing = s.coalescing :=
  (highlight_string_literal_spec s r).2.1

theorem template_flush_spec (chars : Nat) (s : HState) :
    (template_flush chars s).source = s.source ∧
    (template_flush chars s).coalescing = s.coalescing ∧
    (template_flush chars s).index = s.index := by
  unfold template_flush
  split <;> simp

@[simp]
theorem template_flush_source (chars : Nat) (s : HState) :
    (template_flush chars s).source = s.source := (template_flush_spec chars s).1

@[simp]
theorem template_flush_coalescing (chars : Nat) (s : HState) :
    (template_flush chars s).coalescing = s.coalescing := (template_flush_spec chars s).2.1

@[simp]
theorem template_flush_index (chars : Nat) (s : HState) :
    (template_flush chars s).index = s.index := (template_flush_spec chars s).2.2

theorem expect_operator_or_punctuation_spec (s : HState) :
    (expect_operator_or_punctuation s).2.source = s.source ∧
    (expect_operator_or_punctuation s).2.coalescing = s.coalescing ∧
    s.index ≤ (expect_operator_or_punctuation s).2.index ∧
    ((expect_operator_or_punctuation s).1 = true →
      s.index < (expect_operator_or_punctuation s).2.index) := by
  unfold expect_operator_or_punctuation
  dsimp only
  split
  · exact ⟨rfl, rfl, Nat.le_refl _, by simp⟩
  · rename_i sp hsp
    have h := emit_and_advance_spec s
      (js_token_type_length ((js_token_type_by_code sp).getD 0))
      (js_token_type_highlight ((js_token_type_by_code sp).getD 0))
    have hlen := tok_len_pos sp
    refine ⟨h.1, h.2.1, by simp only [h.2.2.1]; omega, fun _ => ?_⟩
    simp only [h.2.2.1]
    omega

/-! The master postcondition: every completed call preserves the source and
options, moves the cursor monotonically, and satisfies its progress fact. -/

set_option maxHeartbeats 2000000 in
theorem runHL_post (fuel : Nat) :
    ∀ (c : HCall) (b : Bool) (s' : HState), runHL fuel c = some (b, s') →
      base_post (call_state c) s' ∧ extra_post c b s' := by
  induction fuel with
  | zero =>
    intro c b s' h
    simp [runHL] at h
  | succ fuel ih =>
    intro c b s' h
    cases c with
    | main s =>
      simp only [runHL] at h
      simp only [call_state, base_post, extra_post]
      split at h
      · rcases hd : runHL fuel (HCall.dispatch s) with _ | ⟨bd, sd⟩ <;> rw [hd] at h
        · simp at h
        · dsimp only at h
          have h1 := ih _ _ _ hd
          have h2 := ih _ _ _ h
          simp only [call_state, base_post] at h1 h2
          refine ⟨⟨?_, ?_, ?_⟩, trivial⟩
          · rw [h2.1.1, h1.1.1]
          · rw [h2.1.2.1, h1.1.2.1]
          · exact le_trans h1.1.2.2 h2.1.2.2
      · cases h
        exact ⟨⟨rfl, rfl, Nat.le_refl _⟩, trivial⟩
    | dispatch s =>
      simp only [runHL] at h
      try dsimp only at h
      simp only [call_state, base_post, extra_post]
      have hw := expect_whitespace_spec s
      have hk : ∀ (sk : HState) (b : Bool) (s' : HState),
          sk.source = s.source → sk.coalescing = s.coalescing → s.index ≤ sk.index →
          (match runHL fuel (HCall.chain sk) with
            | some (true, s4) => some (true, s4)
            | some (false, s4) => some (true, consume_error s4)
            | none => none) = some (b, s') →
          (s'.source = s.source ∧ s'.coalescing = s.coalescing ∧ s.index ≤ s'.index) ∧
            s.index < s'.index := by
        intro sk b s' hsrc hcoal hle hm
        rcases hc : runHL fuel (HCall.chain sk) with _ | ⟨bc, s4⟩ <;> rw [hc] at hm
        · simp at hm
        · have h1 := ih _ _ _ hc
          simp only [call_state, base_post, extra_post] at h1
          cases bc
          · dsimp only at hm
            cases hm
            have hce := consume_error_spec s4
            refine ⟨⟨by rw [hce.1, h1.1.1, hsrc], by rw [hce.2.1, h1.1.2.1, hcoal], ?_⟩, ?_⟩
            · rw [hce.2.2]; omega
            · rw [hce.2.2]
              have := h1.1.2.2
              omega
          · dsimp only at hm
            cases hm
            have hstrict := h1.2 rfl
            have := h1.1.2.2
            refine ⟨⟨by rw [h1.1.1, hsrc], by rw [h1.1.2.1, hcoal], by omega⟩, by omega⟩
      split at h
      · rename_i hws
        cases h
        exact ⟨⟨hw.1, hw.2.1, hw.2.2.1⟩, hw.2.2.2.1 hws⟩
      · rename_i hws
        split at h
        · split at h
          · rename_i hstart hhb
            cases h
            have hh := expect_hashbang_comment_spec
              { (expect_whitespace s).2 with at_start_of_file := false }
            have hw1 := hw.2.2.1
            have hh1 := hh.2.2.1
            have hh2 := hh.2.2.2 hhb
            dsimp only at hh1 hh2 ⊢
            refine ⟨⟨?_, ?_, by omega⟩, by omega⟩
            · have := hh.1
              dsimp only at this ⊢
              rw [this]
              exact hw.1
            · have := hh.2.1
              dsimp only at this ⊢
              rw [this]
              exact hw.2.1
          · rename_i hstart hhb
            have hh := expect_hashbang_comment_spec
              { (expect_whitespace s).2 with at_start_of_file := false }
            have hw1 := hw.2.2.1
            have hh1 := hh.2.2.1
            dsimp only at hh1
            have hr := hk _ _ _ (by have := hh.1; dsimp only at this; rw [this]; exact hw.1)
              (by have := hh.2.1; dsimp only at this; rw [this]; exact hw.2.1)
              (by omega) h
            exact ⟨hr.1, hr.2⟩
        · have hr := hk _ _ _ hw.1 hw.2.1 hw.2.2.1 h
          exact ⟨hr.1, hr.2⟩
    | chain s =>
      simp only [runHL] at h
      try dsimp only at h
      simp only [call_state, base_post, extra_post]
      have e1 := expect_line_comment_spec s
      split at h
      · rename_i hb1
        cases h
        exact ⟨⟨e1.1, e1.2.1, e1.2.2.1⟩, fun _ => e1.2.2.2 hb1⟩
      · have e2 := expect_block_comment_spec (expect_line_comment s).2
        split at h
        · rename_i hb2
          cases h
          refine ⟨⟨by rw [e2.1, e1.1], by rw [e2.2.1, e1.2.1], ?_⟩, fun _ => ?_⟩
          · exact le_trans e1.2.2.1 e2.2.2.1
          · exact lt_of_le_of_lt e1.2.2.1 (e2.2.2.2 hb2)
        · rcases hj : runHL fuel (HCall.jsxInJs (expect_block_comment
            (expect_line_comment s).2).2) with _ | ⟨b3, s3⟩ <;> rw [hj] at h
          · simp at h
          · have e3 := ih _ _ _ hj
            simp only [call_state, base_post, extra_post] at e3
            have base3 : s3.source = s.source ∧ s3.coalescing = s.coalescing ∧
                s.index ≤ s3.index := by
              refine ⟨by rw [e3.1.1, e2.1, e1.1], by rw [e3.1.2.1, e2.2.1, e1.2.1], ?_⟩
              exact le_trans e1.2.2.1 (le_trans e2.2.2.1 e3.1.2.2)
            try dsimp only at h
            split at h
            · rename_i hb3
              cases h
              refine ⟨base3, fun _ => ?_⟩
              have := e3.2 hb3
              have := e1.2.2.1
              have := e2.2.2.1
              omega
            · rename_i hb3
              have e4 := expect_string_literal_spec s3
              split at h
              · rename_i hb4
                cases h
                refine ⟨⟨by rw [e4.1, base3.1], by rw [e4.2.1, base3.2.1], ?_⟩, fun _ => ?_⟩
                · exact le_trans base3.2.2 e4.2.2.1
                · exact lt_of_le_of_lt base3.2.2 (e4.2.2.2 hb4)
              · rcases ht : runHL fuel (HCall.expectTemplate
                  (expect_string_literal s3).2) with _ | ⟨b5, s5⟩ <;> rw [ht] at h
                · simp at h
                · have e5 := ih _ _ _ ht
                  simp only [call_state, base_post, extra_post] at e5
                  have base5 : s5.source = s.source ∧ s5.coalescing = s.coalescing ∧
                      s.index ≤ s5.index := by
                    refine ⟨by rw [e5.1.1, e4.1, base3.1],
                      by rw [e5.1.2.1, e4.2.1, base3.2.1], ?_⟩
                    exact le_trans base3.2.2 (le_trans e4.2.2.1 e5.1.2.2)
                  try dsimp only at h
                  split at h
                  · rename_i hb5
                    cases h
                    refine ⟨base5, fun _ => ?_⟩
                    have := e5.2 hb5
                    have := base3.2.2
                    have := e4.2.2.1
                    omega
                  · rename_i hb5
                    have e6 := expect_regex_spec s5
                    split at h
                    · rename_i hb6
                      cases h
                      refine ⟨⟨by rw [e6.1, base5.1], by rw [e6.2.1, base5.2.1], ?_⟩,
                        fun _ => ?_⟩
                      · exact le_trans base5.2.2 e6.2.2.1
                      · exact lt_of_le_of_lt base5.2.2 (e6.2.2.2 hb6)
                    · have e7 := expect_numeric_literal_spec (expect_regex s5).2
                      have base6 : (expect_regex s5).2.source = s.source ∧
                          (expect_regex s5).2.coalescing = s.coalescing ∧
                          s.index ≤ (expect_regex s5).2.index :=
                        ⟨by rw [e6.1, base5.1], by rw [e6.2.1, base5.2.1],
                          le_trans base5.2.2 e6.2.2.1⟩
                      split at h
                      · rename_i hb7
                        cases h
                        refine ⟨⟨by rw [e7.1, base6.1], by rw [e7.2.1, base6.2.1], ?_⟩,
                          fun _ => ?_⟩
                        · exact le_trans base6.2.2 e7.2.2.1
                        · exact lt_of_le_of_lt base6.2.2 (e7.2.2.2 hb7)
                      · have e8 := expect_private_identifier_spec
                          (expect_numeric_literal (expect_regex s5).2).2
                        have base7 : (expect_numeric_literal (expect_regex s5).2).2.source
                              = s.source ∧
                            (expect_numeric_literal (expect_regex s5).2).2.coalescing
                              = s.coalescing ∧
                            s.index ≤ (expect_numeric_literal (expect_regex s5).2).2.index :=
                          ⟨by rw [e7.1, base6.1], by rw [e7.2.1, base6.2.1],
                            le_trans base6.2.2 e7.2.2.1⟩
                        split at h
                        · rename_i hb8
                          cases h
                          refine ⟨⟨by rw [e8.1, base7.1], by rw [e8.2.1, base7.2.1], ?_⟩,
                            fun _ => ?_⟩
                          · exact le_trans base7.2.2 e8.2.2.1
                          · exact lt_of_le_of_lt base7.2.2 (e8.2.2.2 hb8)
                        · have e9 := expect_symbols_spec (expect_private_identifier
                            (expect_numeric_literal (expect_regex s5).2).2).2
                          have base8 : (expect_private_identifier (expect_numeric_literal
                                (expect_regex s5).2).2).2.source = s.source ∧
                              (expect_private_identifier (expect_numeric_literal
                                (expect_regex s5).2).2).2.coalescing = s.coalescing ∧
                              s.index ≤ (expect_private_identifier (expect_numeric_literal
                                (expect_regex s5).2).2).2.index :=
                            ⟨by rw [e8.1, base7.1], by rw [e8.2.1, base7.2.1],
                              le_trans base7.2.2 e8.2.2.1⟩
                          split at h
                          · rename_i hb9
                            cases h
                            refine ⟨⟨by rw [e9.1, base8.1], by rw [e9.2.1, base8.2.1], ?_⟩,
                              fun _ => ?_⟩
                            · exact le_trans base8.2.2 e9.2.2.1
                            · exact lt_of_le_of_lt base8.2.2 (e9.2.2.2 hb9)
                          · have e10 := expect_operator_or_punctuation_spec
                              (expect_symbols (expect_private_identifier
                                (expect_numeric_literal (expect_regex s5).2).2).2).2
                            have base9 : (expect_symbols (expect_private_identifier
                                  (expect_numeric_literal (expect_regex s5).2).2).2).2.source
                                  = s.source ∧
                                (expect_symbols (expect_private_identifier
                                  (expect_numeric_literal
                                    (expect_regex s5).2).2).2).2.coalescing = s.coalescing ∧
                                s.index ≤ (expect_symbols (expect_private_identifier
                                  (expect_numeric_literal (expect_regex s5).2).2).2).2.index :=
                              ⟨by rw [e9.1, base8.1], by rw [e9.2.1, base8.2.1],
                                le_trans base8.2.2 e9.2.2.1⟩
                            have hx := Option.some.inj h
                            have hb' : (expect_operator_or_punctuation (expect_symbols
                                (expect_private_identifier (expect_numeric_literal
                                  (expect_regex s5).2).2).2).2).1 = b := by rw [hx]
                            have hs' : (expect_operator_or_punctuation (expect_symbols
                                (expect_private_identifier (expect_numeric_literal
                                  (expect_regex s5).2).2).2).2).2 = s' := by rw [hx]
                            rw [← hs']
                            refine ⟨⟨by rw [e10.1, base9.1], by rw [e10.2.1, base9.2.1], ?_⟩,
                              fun hb10 => ?_⟩
                            · exact le_trans base9.2.2 e10.2.2.1
                            · exact lt_of_le_of_lt base9.2.2 (e10.2.2.2 (by rw [hb', hb10]))
    | jsxInJs s =>
      simp only [runHL] at h
      try dsimp only at h
      simp only [call_state, base_post, extra_post]
      split at h
      · cases h
        exact ⟨⟨rfl, rfl, Nat.le_refl _⟩, by simp⟩
      · rename_i hop
        have hstarts : (remainder s).take 1 = ['<'] := tag_impl_pos_starts _ _ hop
        rcases htg : runHL fuel (HCall.tag s) with _ | ⟨bt, s1⟩ <;> rw [htg] at h
        · simp at h
        · have h1 := ih _ _ _ htg
          simp only [call_state, base_post, extra_post] at h1
          have hstrict1 := h1.2 hstarts
          try dsimp only at h
          split at h
          · rcases hch : runHL fuel (HCall.children 0 (remainder s1) s1) with
              _ | ⟨bc, s2⟩ <;> rw [hch] at h
            · simp at h
            · have h2 := ih _ _ _ hch
              simp only [call_state, base_post, extra_post] at h2
              try dsimp only at h
              cases h
              refine ⟨⟨?_, ?_, ?_⟩, fun _ => ?_⟩
              · show s2.source = s.source
                rw [h2.1.1, h1.1.1]
              · show s2.coalescing = s.coalescing
                rw [h2.1.2.1, h1.1.2.1]
              · show s.index ≤ s2.index
                exact le_trans h1.1.2.2 h2.1.2.2
              · show s.index < s2.index
                exact lt_of_lt_of_le hstrict1 h2.1.2.2
          · cases h
            exact ⟨⟨h1.1.1, h1.1.2.1, h1.1.2.2⟩, fun _ => hstrict1⟩
    | tag s =>
      simp only [runHL] at h
      simp only [call_state, base_post, extra_post]
      have h1 := ih _ _ _ h
      simp only [call_state, base_post, extra_post] at h1
      refine ⟨h1.1, fun hs => ?_⟩
      obtain ⟨t, hev⟩ := match_jsx_tag_events_head (remainder s) false hs
      have := h1.2
      rw [hev] at this
      exact this rfl
    | events evs s =>
      simp only [call_state, base_post, extra_post]
      cases evs with
      | nil =>
        simp only [runHL] at h
        cases h
        exact ⟨⟨rfl, rfl, Nat.le_refl _⟩, by simp⟩
      | cons e rest =>
        simp only [runHL] at h
        cases e with
        | ws n =>
          have h1 := ih _ _ _ h
          simp only [call_state, base_post, extra_post] at h1
          refine ⟨⟨by simpa [advance] using h1.1.1, by simpa [advance] using h1.1.2.1, ?_⟩,
            by simp⟩
          have := h1.1.2.2
          simp only [advance] at this
          omega
        | block_comment r =>
          have h1 := ih _ _ _ h
          simp only [call_state, base_post, extra_post] at h1
          refine ⟨⟨by simpa using h1.1.1, by simpa using h1.1.2.1, ?_⟩, by simp⟩
          have := h1.1.2.2
          simp only [highlight_block_comment_index] at this
          omega
        | line_comment n =>
          have h1 := ih _ _ _ h
          simp only [call_state, base_post, extra_post] at h1
          have hl := highlight_line_comment_spec s n
          refine ⟨⟨by rw [h1.1.1, hl.1], by rw [h1.1.2.1, hl.2.1], ?_⟩, by simp⟩
          exact le_trans (Nat.le_of_lt hl.2.2) h1.1.2.2
        | opening_symbol =>
          have h1 := ih _ _ _ h
          simp only [call_state, base_post, extra_post] at h1
          have hida := h1.1.2.2
          simp only [emit_and_advance_index] at hida
          refine ⟨⟨by simpa using h1.1.1, by simpa using h1.1.2.1, by omega⟩, fun _ => ?_⟩
          omega
        | closing_symbol =>
          have h1 := ih _ _ _ h
          simp only [call_state, base_post, extra_post] at h1
          have hida := h1.1.2.2
          simp only [emit_and_advance_index] at hida
          refine ⟨⟨by simpa using h1.1.1, by simpa using h1.1.2.1, by omega⟩, by simp⟩
        | element_name n =>
          have h1 := ih _ _ _ h
          simp only [call_state, base_post, extra_post] at h1
          have hida := h1.1.2.2
          simp only [emit_and_advance_index] at hida
          refine ⟨⟨by simpa using h1.1.1, by simpa using h1.1.2.1, by omega⟩, by simp⟩
        | attribute_name n =>
          have h1 := ih _ _ _ h
          simp only [call_state, base_post, extra_post] at h1
          have hida := h1.1.2.2
          simp only [emit_and_advance_index] at hida
          refine ⟨⟨by simpa using h1.1.1, by simpa using h1.1.2.1, by omega⟩, by simp⟩
        | attribute_equals =>
          have h1 := ih _ _ _ h
          simp only [call_state, base_post, extra_post] at h1
          have hida := h1.1.2.2
          simp only [emit_and_advance_index] at hida
          refine ⟨⟨by simpa using h1.1.1, by simpa using h1.1.2.1, by omega⟩, by simp⟩
        | string_lit r =>
          have h1 := ih _ _ _ h
          simp only [call_state, base_post, extra_post] at h1
          have hs := highlight_string_literal_spec s r
          refine ⟨⟨by rw [h1.1.1, hs.1], by rw [h1.1.2.1, hs.2.1], ?_⟩, by simp⟩
          exact le_trans (Nat.le_of_lt hs.2.2) h1.1.2.2
        | braced bb =>
          dsimp only at h
          rcases hbr : runHL fuel (HCall.braced bb s) with _ | ⟨b1, s1⟩ <;> rw [hbr] at h
          · simp at h
          · dsimp only at h
            have h1 := ih _ _ _ hbr
            have h2 := ih _ _ _ h
            simp only [call_state, base_post, extra_post] at h1 h2
            refine ⟨⟨by rw [h2.1.1, h1.1.1], by rw [h2.1.2.1, h1.1.2.1], ?_⟩, by simp⟩
            exact le_trans h1.1.2.2 h2.1.2.2
    | braced bb s =>
      simp only [runHL] at h
      try dsimp only at h
      simp only [call_state, base_post, extra_post]
      rcases hterm : bb.is_terminated <;> simp only [hterm] at h <;>
        simp only [Bool.false_eq_true, if_false, if_true, ite_true, ite_false] at h <;>
        split at h
      case false.isTrue =>
        rcases hcj : runHL fuel (HCall.consumeJs 0
          (emit_and_advance s 1 Highlight_Type.sym_brace)) with _ | ⟨bc, s2⟩ <;> rw [hcj] at h
        · simp at h
        · try dsimp only at h
          cases h
          have h1 := ih _ _ _ hcj
          simp only [call_state, base_post, extra_post] at h1
          have hidx := h1.1.2.2
          simp only [emit_and_advance_index] at hidx
          refine ⟨⟨by simpa using h1.1.1, by simpa using h1.1.2.1, by omega⟩, by omega⟩
      case false.isFalse =>
        cases h
        exact ⟨⟨by simp, by simp, by simp <;> omega⟩, by simp <;> omega⟩
      case true.isTrue =>
        rcases hcj : runHL fuel (HCall.consumeJs 0
          (emit_and_advance s 1 Highlight_Type.sym_brace)) with _ | ⟨bc, s2⟩ <;> rw [hcj] at h
        · simp at h
        · try dsimp only at h
          cases h
          have h1 := ih _ _ _ hcj
          simp only [call_state, base_post, extra_post] at h1
          have hidx := h1.1.2.2
          simp only [emit_and_advance_index] at hidx
          refine ⟨⟨by simpa using h1.1.1, by simpa using h1.1.2.1, by simp; omega⟩, ?_⟩
          simp
          omega
      case true.isFalse =>
        cases h
        exact ⟨⟨by simp, by simp, by simp <;> omega⟩, by simp <;> omega⟩
    | consumeJs level s =>
      simp only [runHL] at h
      try dsimp only at h
      simp only [call_state, base_post, extra_post]
      split at h
      · split at h
        · have h1 := ih _ _ _ h
          simp only [call_state, base_post, extra_post] at h1
          have hidx := h1.1.2.2
          simp only [emit_and_advance_index] at hidx
          exact ⟨⟨by simpa using h1.1.1, by simpa using h1.1.2.1, by omega⟩, trivial⟩
        · split at h
          · split at h
            · cases h
              exact ⟨⟨rfl, rfl, Nat.le_refl _⟩, trivial⟩
            · have h1 := ih _ _ _ h
              simp only [call_state, base_post, extra_post] at h1
              have hidx := h1.1.2.2
              simp only [emit_and_advance_index] at hidx
              exact ⟨⟨by simpa using h1.1.1, by simpa using h1.1.2.1, by omega⟩, trivial⟩
          · have hw := expect_whitespace_spec s
            split at h
            · have h1 := ih _ _ _ h
              simp only [call_state, base_post, extra_post] at h1
              refine ⟨⟨by rw [h1.1.1, hw.1], by rw [h1.1.2.1, hw.2.1], ?_⟩, trivial⟩
              exact le_trans hw.2.2.1 h1.1.2.2
            · rcases hc : runHL fuel (HCall.chain (expect_whitespace s).2) with
                _ | ⟨bc, s2⟩ <;> rw [hc] at h
              · simp at h
              · have h1 := ih _ _ _ hc
                simp only [call_state, base_post, extra_post] at h1
                cases bc
                · dsimp only at h
                  have h2 := ih _ _ _ h
                  simp only [call_state, base_post, extra_post] at h2
                  have hce := consume_error_spec s2
                  refine ⟨⟨?_, ?_, ?_⟩, trivial⟩
                  · rw [h2.1.1, hce.1, h1.1.1, hw.1]
                  · rw [h2.1.2.1, hce.2.1, h1.1.2.1, hw.2.1]
                  · have ha := hw.2.2.1
                    have hb := h1.1.2.2
                    have hc2 := h2.1.2.2
                    rw [hce.2.2] at hc2
                    omega
                · dsimp only at h
                  have h2 := ih _ _ _ h
                  simp only [call_state, base_post, extra_post] at h2
                  refine ⟨⟨?_, ?_, ?_⟩, trivial⟩
                  · rw [h2.1.1, h1.1.1, hw.1]
                  · rw [h2.1.2.1, h1.1.2.1, hw.2.1]
                  · exact le_trans hw.2.2.1 (le_trans h1.1.2.2 h2.1.2.2)
      · cases h
        exact ⟨⟨rfl, rfl, Nat.le_refl _⟩, trivial⟩
    | expectTemplate s =>
      simp only [runHL] at h
      try dsimp only at h
      simp only [call_state, base_post, extra_post]
      split at h
      · rcases ht : runHL fuel (HCall.template s) with _ | ⟨bt, s1⟩ <;> rw [ht] at h
        · simp at h
        · dsimp only at h
          cases h
          have h1 := ih _ _ _ ht
          simp only [call_state, base_post, extra_post] at h1
          exact ⟨h1.1, fun _ => h1.2⟩
      · cases h
        exact ⟨⟨rfl, rfl, Nat.le_refl _⟩, by simp⟩
    | template s =>
      simp only [runHL] at h
      simp only [call_state, base_post, extra_post]
      have h1 := ih _ _ _ h
      simp only [call_state, base_post, extra_post] at h1
      have hidx := h1.1.2.2
      simp only [emit_and_advance_index] at hidx
      exact ⟨⟨by simpa using h1.1.1, by simpa using h1.1.2.1, by omega⟩, by omega⟩
    | templateLoop chars s =>
      simp only [runHL] at h
      try dsimp only at h
      simp only [call_state, base_post, extra_post]
      split at h
      · split at h
        · cases h
          refine ⟨⟨by simp, by simp, by simp⟩, trivial⟩
        · split at h
          · split at h
            · rcases hcj : runHL fuel (HCall.consumeJs 0
                (emit_and_advance (template_flush chars s) 2 Highlight_Type.escape)) with
                _ | ⟨bc, s2⟩ <;> rw [hcj] at h
              · simp at h
              · dsimp only at h
                have h1 := ih _ _ _ hcj
                simp only [call_state, base_post, extra_post] at h1
                have hidx := h1.1.2.2
                simp only [emit_and_advance_index, template_flush_index] at hidx
                split at h
                · have h2 := ih _ _ _ h
                  simp only [call_state, base_post, extra_post] at h2
                  have hidx2 := h2.1.2.2
                  simp only [emit_and_advance_index] at hidx2
                  refine ⟨⟨?_, ?_, ?_⟩, trivial⟩
                  · rw [h2.1.1]; simp [h1.1.1]
                  · rw [h2.1.2.1]; simp [h1.1.2.1]
                  · omega
                · have h2 := ih _ _ _ h
                  simp only [call_state, base_post, extra_post] at h2
                  refine ⟨⟨?_, ?_, ?_⟩, trivial⟩
                  · rw [h2.1.1]; simp [h1.1.1]
                  · rw [h2.1.2.1]; simp [h1.1.2.1]
                  · have := h2.1.2.2
                    omega
            · have h1 := ih _ _ _ h
              simp only [call_state, base_post, extra_post] at h1
              have hidx := h1.1.2.2
              simp only [advance] at hidx
              exact ⟨⟨by simpa [advance] using h1.1.1,
                by simpa [advance] using h1.1.2.1, by omega⟩, trivial⟩
          · split at h
            · split at h
              · have h1 := ih _ _ _ h
                simp only [call_state, base_post, extra_post] at h1
                have hidx := h1.1.2.2
                simp only [advance, emit_and_advance_index, template_flush_index] at hidx
                refine ⟨⟨?_, ?_, ?_⟩, trivial⟩
                · have := h1.1.1; simp [advance] at this; simpa using this
                · have := h1.1.2.1; simp [advance] at this; simpa using this
                · omega
              · have h1 := ih _ _ _ h
                simp only [call_state, base_post, extra_post] at h1
                have hidx := h1.1.2.2
                simp only [advance] at hidx
                exact ⟨⟨by simpa [advance] using h1.1.1,
                  by simpa [advance] using h1.1.2.1, by omega⟩, trivial⟩
            · have h1 := ih _ _ _ h
              simp only [call_state, base_post, extra_post] at h1
              have hidx := h1.1.2.2
              simp only [advance] at hidx
              exact ⟨⟨by simpa [advance] using h1.1.1,
                by simpa [advance] using h1.1.2.1, by omega⟩, trivial⟩
      · cases h
        exact ⟨⟨by simp, by simp, by simp⟩, trivial⟩
    | children depth rem s =>
      simp only [runHL] at h
      try dsimp only at h
      simp only [call_state, base_post, extra_post]
      split at h
      · cases h
        exact ⟨⟨rfl, rfl, Nat.le_refl _⟩, trivial⟩
      · split at h
        · cases h
          exact ⟨⟨by simp [advance], by simp [advance], by simp [advance]⟩, trivial⟩
        · have hcomp : ∀ (nm : Nat) (t : Highlight_Type) (dd : Nat) (rr : List Char),
              runHL fuel (HCall.children dd rr
                (emit_and_advance (advance s (rem.findIdx fun ch =>
                  ch = '&' || ch = lbrace || ch = rbrace || ch = '<' || ch = '>')) nm t))
                = some (b, s') →
              (s'.source = s.source ∧ s'.coalescing = s.coalescing ∧ s.index ≤ s'.index) ∧
                True := by
            intro nm t dd rr hx
            have h1 := ih _ _ _ hx
            simp only [call_state, base_post, extra_post] at h1
            have hidx := h1.1.2.2
            simp only [emit_and_advance_index, advance] at hidx
            exact ⟨⟨by simpa [advance] using h1.1.1,
              by simpa [advance] using h1.1.2.1, by omega⟩, trivial⟩
          have hadv : ∀ (k : Nat) (dd : Nat) (rr : List Char),
              runHL fuel (HCall.children dd rr
                (advance (advance s (rem.findIdx fun ch =>
                  ch = '&' || ch = lbrace || ch = rbrace || ch = '<' || ch = '>')) k))
                = some (b, s') →
              (s'.source = s.source ∧ s'.coalescing = s.coalescing ∧ s.index ≤ s'.index) ∧
                True := by
            intro k dd rr hx
            have h1 := ih _ _ _ hx
            simp only [call_state, base_post, extra_post] at h1
            have hidx := h1.1.2.2
            simp only [advance] at hidx
            exact ⟨⟨by simpa [advance] using h1.1.1,
              by simpa [advance] using h1.1.2.1, by omega⟩, trivial⟩
          split at h
          · split at h
            · exact hcomp _ _ _ _ h
            · exact hadv _ _ _ h
          · split at h
            · split at h
              · exact hcomp _ _ _ _ h
              · rcases htg : runHL fuel (HCall.tag (advance s (rem.findIdx fun ch =>
                  ch = '&' || ch = lbrace || ch = rbrace || ch = '<' || ch = '>'))) with
                  _ | ⟨bt, s1⟩ <;> rw [htg] at h
                · simp at h
                · have h1 := ih _ _ _ htg
                  simp only [call_state, base_post, extra_post] at h1
                  have hbase1 : s1.source = s.source ∧ s1.coalescing = s.coalescing ∧
                      s.index ≤ s1.index := by
                    have hidx := h1.1.2.2
                    simp only [advance] at hidx
                    exact ⟨by simpa [advance] using h1.1.1,
                      by simpa [advance] using h1.1.2.1, by omega⟩
                  try dsimp only at h
                  split at h
                  · have h2 := ih _ _ _ h
                    simp only [call_state, base_post, extra_post] at h2
                    refine ⟨⟨by rw [h2.1.1, hbase1.1], by rw [h2.1.2.1, hbase1.2.1], ?_⟩,
                      trivial⟩
                    exact le_trans hbase1.2.2 h2.1.2.2
                  · split at h
                    · split at h
                      · cases h
                        exact ⟨hbase1, trivial⟩
                      · have h2 := ih _ _ _ h
                        simp only [call_state, base_post, extra_post] at h2
                        refine ⟨⟨by rw [h2.1.1, hbase1.1], by rw [h2.1.2.1, hbase1.2.1], ?_⟩,
                          trivial⟩
                        exact le_trans hbase1.2.2 h2.1.2.2
                    · have h2 := ih _ _ _ h
                      simp only [call_state, base_post, extra_post] at h2
                      refine ⟨⟨by rw [h2.1.1, hbase1.1], by rw [h2.1.2.1, hbase1.2.1], ?_⟩,
                        trivial⟩
                      exact le_trans hbase1.2.2 h2.1.2.2
            · split at h
              · exact hcomp _ _ _ _ h
              · split at h
                · split at h
                  · rcases hbr : runHL fuel (HCall.braced (match_jsx_braced (rem.drop
                      (rem.findIdx fun ch => ch = '&' || ch = lbrace || ch = rbrace ||
                        ch = '<' || ch = '>')))
                      (advance s (rem.findIdx fun ch => ch = '&' || ch = lbrace ||
                        ch = rbrace || ch = '<' || ch = '>'))) with _ | ⟨bb, s1⟩ <;>
                      rw [hbr] at h
                    · simp at h
                    · have h1 := ih _ _ _ hbr
                      simp only [call_state, base_post, extra_post] at h1
                      have hbase1 : s1.source = s.source ∧ s1.coalescing = s.coalescing ∧
                          s.index ≤ s1.index := by
                        have hidx := h1.1.2.2
                        simp only [advance] at hidx
                        exact ⟨by simpa [advance] using h1.1.1,
                          by simpa [advance] using h1.1.2.1, by omega⟩
                      try dsimp only at h
                      have h2 := ih _ _ _ h
                      simp only [call_state, base_post, extra_post] at h2
                      refine ⟨⟨by rw [h2.1.1, hbase1.1], by rw [h2.1.2.1, hbase1.2.1], ?_⟩,
                        trivial⟩
                      exact le_trans hbase1.2.2 h2.1.2.2
                  · exact hcomp _ _ _ _ h
                · exact hcomp _ _ _ _ h

/-! Claim theorems. -/

/-- C1: for every finite input span, every iteration of the Highlighter's
dispatch loop strictly increases the cursor (each successful `expect_*`
consumes a non-zero length and the mandatory `consume_error` fallback
advances by exactly one unit), so the scan terminates for every input. -/
theorem claim1_dispatch_progress (fuel : Nat) (s : HState) (b : Bool) (s1 : HState)
    (hlt : s.index < s.source.length)
    (h : runHL fuel (HCall.dispatch s) = some (b, s1)) :
    s.index < s1.index :=
  (runHL_post fuel _ _ _ h).2

/-- Witness for C1 at the concrete one-character input `a`. -/
theorem claim1_dispatch_progress_witness :
    (init_state ['a'] false).index <
      ({ source := ['a'], coalescing := false,
         out := [{ begin_idx := 0, length := 1, type := Highlight_Type.id }], index := 1,
         can_be_regex := false, at_start_of_file := false } : HState).index :=
  claim1_dispatch_progress 8 (init_state ['a'] false) true _ (by decide) (by decide)

set_option maxRecDepth 8000 in
/-- C3: after an identifier the `can_be_regex` flag is false, so `a/b`
tokenizes `/` as the division operator (a one-unit operator record, not a
string/regex record); after the keyword `return` the flag is true, so
`return /x/.test(s)` tokenizes the span `/x/` (offsets 7-9) as a single
regex-literal record (emitted under the `string` highlight). -/
theorem claim3_regex_vs_division :
    highlight_javascript 64 ['a', '/', 'b'] false =
      some [{ begin_idx := 0, length := 1, type := Highlight_Type.id },
        { begin_idx := 1, length := 1, type := Highlight_Type.sym_op },
        { begin_idx := 2, length := 1, type := Highlight_Type.id }] ∧
    highlight_javascript 128
      ['r', 'e', 't', 'u', 'r', 'n', ' ', '/', 'x', '/', '.', 't', 'e', 's', 't',
        '(', 's', ')'] false =
      some [{ begin_idx := 0, length := 6, type := Highlight_Type.keyword },
        { begin_idx := 7, length := 3, type := Highlight_Type.string },
        { begin_idx := 10, length := 1, type := Highlight_Type.sym_op },
        { begin_idx := 11, length := 4, type := Highlight_Type.id },
        { begin_idx := 15, length := 1, type := Highlight_Type.sym_op },
        { begin_idx := 16, length := 1, type := Highlight_Type.id },
        { begin_idx := 17, length := 1, type := Highlight_Type.sym_op }] := by
  constructor
  · decide
  · decide

set_option maxRecDepth 8000 in
/-- C4 (code bug): the hashbang production itself matches `#!x` at start of
file, but the dispatch loop clears `at_start_of_file` before
`expect_hashbang_comment` reads it, so the scan never emits the
comment-delimiter/comment records the claim (and spec section 4.5 step 2)
describe: `#!x` is scanned as an error byte, the `!` operator and an
identifier instead. -/
theorem claim4_hashbang_never_recognized :
    match_hashbang_comment ['#', '!', 'x'] true = 3 ∧
    highlight_javascript 64 ['#', '!', 'x'] false =
      some [{ begin_idx := 0, length := 1, type := Highlight_Type.error },
        { begin_idx := 1, length := 1, type := Highlight_Type.sym_op },
        { begin_idx := 2, length := 1, type := Highlight_Type.id }] := by
  constructor
  · decide
  · decide

set_option maxRecDepth 8000 in
/-- C6 (code bug): on the input consisting of a single quote character,
`match_string_literal` reports a truthy partial match of length 1, which
violates `highlight_string_literal`'s own assertion
`ULIGHT_ASSERT(string.length >= 2)` (js.cpp:1321); with assertions disabled
the two delimiter emissions still fire, producing a second record `[1, 2)`
that lies beyond the 1-unit source instead of a string token covering the
quote. -/
theorem claim6_single_quote_breaks_string_path :
    (match_string_literal [squote]).length = 1 ∧
    (match_string_literal [squote]).length ≠ 0 ∧
    ¬ 2 ≤ (match_string_literal [squote]).length ∧
    highlight_javascript 8 [squote] false =
      some [{ begin_idx := 0, length := 1, type := Highlight_Type.string_delim },
        { begin_idx := 1, length := 1, type := Highlight_Type.string_delim }] := by
  refine ⟨by decide, by decide, by decide, by decide⟩

/-- Stopping equation of the `match_jsx_braced` loop: once `len` reaches the
span length the loop exits with the accumulated length, for any fuel. -/
theorem jsx_braced_go_stop (junk : Char) (str : List Char) (fuel len level : Nat)
    (h : ¬ len < str.length) :
    jsx_braced_go junk str fuel len level = { length := len, is_terminated := false } := by
  cases fuel <;> simp [jsx_braced_go, h]

/-- C5 (code bug): on the two-unit span `{ ` the whitespace skip inside
`match_jsx_braced` runs to the end of the span, the following `str[length]`
read is out of bounds, and the returned `consumed_length` is 3 — strictly
greater than the span length 2 — whatever byte that read yields (quantified
over every possible junk value), violating the claimed invariant
`consumed_length ≤ span length`. -/
theorem claim5_consumed_length_exceeds_span (junk : Char) :
    List.length [lbrace, ' '] < (match_jsx_braced_aux junk [lbrace, ' ']).length := by
  have h3 : (match_jsx_braced_aux junk [lbrace, ' ']).length = 3 := by
    have h2 : match_whitespace_comment_sequence (List.drop 1 [lbrace, ' ']) = 1 := by decide
    have hs : (match_string_literal (List.drop (1 + 1) [lbrace, ' '])).length = 0 := by decide
    unfold match_jsx_braced_aux
    dsimp only
    rw [if_pos rfl]
    unfold jsx_braced_go
    rw [if_pos (by decide)]
    simp only [h2, hs]
    split
    · rw [jsx_braced_go_stop] <;> decide
    · split
      · simp
      · split
        · rw [jsx_braced_go_stop] <;> decide
        · rw [jsx_braced_go_stop] <;> decide
  rw [h3]
  decide

/-- C7: `0x1F` is a hexadecimal numeric literal (radix prefix 2, two integer
digits) with the erroneous flag clear; `1__0` is a numeric literal with the
erroneous flag set (adjacent separators); `1n` is a BigInt literal (suffix 1)
with the erroneous flag clear; `1.5n` has the erroneous flag set (fractional
part combined with the BigInt suffix). -/
theorem claim7_numeric_edge_cases :
    match_numeric_literal ['0', 'x', '1', 'F'] =
      { length := 4, radix := 2, integer := 2, fractional := 0, exponent := 0,
        suffix := 0, erroneous := false } ∧
    match_numeric_literal ['1', '_', '_', '0'] =
      { length := 4, radix := 0, integer := 4, fractional := 0, exponent := 0,
        suffix := 0, erroneous := true } ∧
    match_numeric_literal ['1', 'n'] =
      { length := 2, radix := 0, integer := 1, fractional := 0, exponent := 0,
        suffix := 1, erroneous := false } ∧
    match_numeric_literal ['1', '.', '5', 'n'] =
      { length := 4, radix := 0, integer := 1, fractional := 2, exponent := 0,
        suffix := 1, erroneous := true } := by
  refine ⟨by decide, by decide, by decide, by decide⟩

theorem lex_lt_irrefl : ∀ l : List Char, lex_lt l l = false := by
  intro l
  induction l with
  | nil => rfl
  | cons a as ih => simp [lex_lt, ih]

theorem lex_lt_trans : ∀ a b c : List Char,
    lex_lt a b = true → lex_lt b c = true → lex_lt a c = true := by
  intro a
  induction a with
  | nil =>
    intro b c hab hbc
    cases b with
    | nil => exact hbc
    | cons y ys =>
      cases c with
      | nil => simp [lex_lt] at hbc
      | cons z zs => rfl
  | cons x xs ih =>
    intro b c hab hbc
    cases b with
    | nil => simp [lex_lt] at hab
    | cons y ys =>
      cases c with
      | nil => simp [lex_lt] at hbc
      | cons z zs =>
        unfold lex_lt at hab hbc ⊢
        split_ifs at hab hbc ⊢ <;>
          first
            | rfl
            | omega
            | exact ih ys zs hab hbc
            | simp_all

theorem chain_head_rel {R : String → String → Prop}
    (htrans : ∀ a b c, R a b → R b c → R a c) :
    ∀ (s : String) (rest : List String), List.Chain R s rest → ∀ x ∈ rest, R s x := by
  intro s rest
  induction rest generalizing s with
  | nil =>
    intro _ x hx
    simp at hx
  | cons y ys ih =>
    intro hch x hx
    rcases List.chain_cons.mp hch with ⟨hsy, hch2⟩
    rcases List.mem_cons.mp hx with hxy | hxys
    · rw [hxy]
      exact hsy
    · exact htrans _ _ _ hsy (ih y hch2 x hxys)

theorem chain'_of_chain_sorted :
    ∀ l : List String, chain_sorted l = true →
      List.Chain' (fun a b => lex_lt a.data b.data = true) l := by
  intro l
  induction l with
  | nil =>
    intro _
    exact List.chain'_nil
  | cons a rest ih =>
    cases rest with
    | nil =>
      intro _
      simp
    | cons b rest2 =>
      intro h
      simp only [chain_sorted, Bool.and_eq_true] at h
      exact List.chain'_cons.mpr ⟨h.1, ih h.2⟩

/-- Characterization of the lower-bound lookup on a sorted list: a spelling
is a member exactly when the lower-bound index is in range and holds that
spelling. -/
theorem lower_bound_mem (l : List String)
    (hs : List.Chain' (fun a b => lex_lt a.data b.data = true) l) (code : String) :
    code ∈ l ↔ (lower_bound l code < l.length ∧ l.getD (lower_bound l code) "" = code) := by
  induction l with
  | nil => simp [lower_bound]
  | cons s rest ih =>
    have hchain : List.Chain (fun a b => lex_lt a.data b.data = true) s rest := hs
    have htail : List.Chain' (fun a b => lex_lt a.data b.data = true) rest := hs.tail
    unfold lower_bound
    by_cases hlt : lex_lt s.data code.data = true
    · rw [if_pos hlt]
      have hne : code ≠ s := by
        intro he
        rw [he] at hlt
        rw [lex_lt_irrefl] at hlt
        cases hlt
      constructor
      · intro hm
        rcases List.mem_cons.mp hm with he | hm2
        · exact absurd he hne
        · have hr := (ih htail).mp hm2
          refine ⟨by simp only [List.length_cons]; omega, ?_⟩
          simpa [List.getD_cons_succ] using hr.2
      · rintro ⟨hlen, hget⟩
        simp only [List.length_cons] at hlen
        have : code ∈ rest := by
          refine (ih htail).mpr ⟨by omega, ?_⟩
          simpa [List.getD_cons_succ] using hget
        exact List.mem_cons_of_mem _ this
    · rw [if_neg hlt]
      constructor
      · intro hm
        rcases List.mem_cons.mp hm with he | hm2
        · refine ⟨by simp, ?_⟩
          simp [List.getD_cons_zero, he]
        · have hrel := chain_head_rel (fun a b c => lex_lt_trans a.data b.data c.data)
            s rest hchain code hm2
          exact absurd hrel hlt
      · rintro ⟨_, hget⟩
        simp only [List.getD_cons_zero] at hget
        rw [← hget]
        exact List.mem_cons_self s rest

/-- C9: `js_token_type_by_code` returns a token type exactly when the
spelling occurs in the (lexicographically sorted) registry table, and the
returned type's canonical spelling is the looked-up string; for every
spelling not present — in particular every ordinary identifier — it returns
no match. -/
theorem claim9_registry_lookup (code : String) :
    ((js_token_type_by_code code).isSome ↔ code ∈ token_type_codes) ∧
    (∀ t, js_token_type_by_code code = some t → js_token_type_code t = code) := by
  have hsorted : List.Chain' (fun a b => lex_lt a.data b.data = true) token_type_codes :=
    chain'_of_chain_sorted token_type_codes (by decide)
  have hmem := lower_bound_mem token_type_codes hsorted code
  constructor
  · unfold js_token_type_by_code
    dsimp only
    split
    · split
      · rename_i hlen hget
        simp only [Option.isSome_some, true_iff]
        exact hmem.mpr ⟨hlen, hget⟩
      · rename_i hlen hget
        simp only [Option.isSome_none, Bool.false_eq_true, false_iff]
        intro hm
        exact hget (hmem.mp hm).2
    · rename_i hlen
      simp only [Option.isSome_none, Bool.false_eq_true, false_iff]
      intro hm
      exact hlen (hmem.mp hm).1
  · intro t ht
    unfold js_token_type_by_code at ht
    dsimp only at ht
    split at ht
    · split at ht
      · rename_i hlen hget
        cases ht
        exact hget
      · cases ht
    · cases ht

/-- Witness for C9 at the concrete keyword `return` (present: index 78) and
at the ordinary identifier `a` (absent). -/
theorem claim9_registry_lookup_witness :
    js_token_type_by_code "return" = some 78 ∧ js_token_type_code 78 = "return" ∧
    js_token_type_by_code "a" = none := by
  refine ⟨by decide, (claim9_registry_lookup "return").2 78 (by decide), by decide⟩

/-- C10 (code bug): on the two-unit span `{ ` the read `str[length]`
performed by `match_jsx_braced` after the whitespace/comment skip falls at
index 2 = length, and on the one-unit span `.` the read `str[length + 1]`
performed by `match_numeric_literal` after a leading dot falls at index
1 = length: both indexing accesses reach the span's length, contradicting
the claim that every access is at an index strictly below it. -/
theorem claim10_oob_reads :
    jsx_braced_reads_oob [lbrace, ' '] = true ∧
    numeric_literal_reads_oob ['.'] = true := by
  refine ⟨by decide, by decide⟩

/-! Termination: every call completes under sufficient fuel, by strong
induction on `hmeasure` (remaining span, then rank), with inner structural
inductions over the event list and the children-loop view. -/

theorem succ_of_le {f g : Nat} (h : f + 1 ≤ g) : ∃ g2, g = g2 + 1 ∧ f ≤ g2 :=
  ⟨g - 1, by omega, by omega⟩

theorem take_one_mem_lt {l : List Char} {i : Nat} {c : Char}
    (h : (l.drop i).take 1 = [c]) : i < l.length := by
  by_contra hq
  rw [List.drop_eq_nil_of_le (by omega)] at h
  simp at h

set_option maxHeartbeats 4000000 in
theorem runHL_total_aux :
    ∀ (n : Nat) (c : HCall), hmeasure c < n → totalP c := by
  intro n
  induction n with
  | zero =>
    intro c hc
    omega
  | succ n ih =>
    intro c hc
    cases c with
    | main s =>
      by_cases hidx : s.index < s.source.length
      · have hd : hmeasure (HCall.dispatch s) < n := by
          simp only [hmeasure, call_state, hrank] at hc ⊢
          omega
        obtain ⟨f1, ⟨b1, s1⟩, h1⟩ := ih (HCall.dispatch s) hd
        have hp := runHL_post f1 _ _ _ (h1 f1 (Nat.le_refl _))
        simp only [call_state, base_post, extra_post] at hp
        have hm2 : hmeasure (HCall.main s1) < n := by
          simp only [hmeasure, call_state, hrank] at hc ⊢
          rw [hp.1.1]
          have := hp.2
          omega
        obtain ⟨f2, r, h2⟩ := ih (HCall.main s1) hm2
        refine ⟨max f1 f2 + 1, r, fun g hg => ?_⟩
        obtain ⟨g2, rfl, hg2⟩ := succ_of_le hg
        simp only [runHL]
        rw [if_pos hidx, h1 g2 (by omega)]
        exact h2 g2 (by omega)
      · refine ⟨1, (true, s), fun g hg => ?_⟩
        obtain ⟨g2, rfl, hg2⟩ := succ_of_le hg
        simp only [runHL]
        rw [if_neg hidx]
    | dispatch s =>
      have hk : ∀ sk : HState, sk.source = s.source → s.index ≤ sk.index →
          ∃ f r, ∀ g, f ≤ g →
            (match runHL g (HCall.chain sk) with
              | some (true, s4) => some (true, s4)
              | some (false, s4) => some (true, consume_error s4)
              | none => none) = some r := by
        intro sk hsrc hle
        have hm : hmeasure (HCall.chain sk) < n := by
          simp only [hmeasure, call_state, hrank] at hc ⊢
          rw [hsrc]
          omega
        obtain ⟨f1, ⟨bc, s4⟩, h1⟩ := ih _ hm
        cases bc
        · exact ⟨f1, (true, consume_error s4), fun g hg => by rw [h1 g hg]⟩
        · exact ⟨f1, (true, s4), fun g hg => by rw [h1 g hg]⟩
      have hws := expect_whitespace_spec s
      by_cases hw : (expect_whitespace s).1 = true
      · refine ⟨1, (true, (expect_whitespace s).2), fun g hg => ?_⟩
        obtain ⟨g2, rfl, hg2⟩ := succ_of_le hg
        simp only [runHL]
        try dsimp only
        rw [if_pos hw]
      · by_cases hst : (expect_whitespace s).2.at_start_of_file = true
        · have hhb2 := expect_hashbang_comment_spec
            { source := (expect_whitespace s).2.source,
              coalescing := (expect_whitespace s).2.coalescing,
              out := (expect_whitespace s).2.out,
              index := (expect_whitespace s).2.index,
              can_be_regex := (expect_whitespace s).2.can_be_regex,
              at_start_of_file := false }
          by_cases hhb : (expect_hashbang_comment
              { source := (expect_whitespace s).2.source,
                coalescing := (expect_whitespace s).2.coalescing,
                out := (expect_whitespace s).2.out,
                index := (expect_whitespace s).2.index,
                can_be_regex := (expect_whitespace s).2.can_be_regex,
                at_start_of_file := false }).1 = true
          · refine ⟨1, (true, (expect_hashbang_comment
              { source := (expect_whitespace s).2.source,
                coalescing := (expect_whitespace s).2.coalescing,
                out := (expect_whitespace s).2.out,
                index := (expect_whitespace s).2.index,
                can_be_regex := (expect_whitespace s).2.can_be_regex,
                at_start_of_file := false }).2), fun g hg => ?_⟩
            obtain ⟨g2, rfl, hg2⟩ := succ_of_le hg
            simp only [runHL]
            try dsimp only
            rw [if_neg hw, if_pos hst, if_pos hhb]
          · obtain ⟨f1, r, h1⟩ := hk _ (by rw [hhb2.1]; exact hws.1)
              (le_trans hws.2.2.1 hhb2.2.2.1)
            refine ⟨f1 + 1, r, fun g hg => ?_⟩
            obtain ⟨g2, rfl, hg2⟩ := succ_of_le hg
            simp only [runHL]
            try dsimp only
            rw [if_neg hw, if_pos hst, if_neg hhb]
            exact h1 g2 hg2
        · obtain ⟨f1, r, h1⟩ := hk _ hws.1 hws.2.2.1
          refine ⟨f1 + 1, r, fun g hg => ?_⟩
          obtain ⟨g2, rfl, hg2⟩ := succ_of_le hg
          simp only [runHL]
          try dsimp only
          rw [if_neg hw, if_neg hst]
          exact h1 g2 hg2
    | chain s =>
      have e1 := expect_line_comment_spec s
      by_cases hp1 : (expect_line_comment s).1 = true
      · refine ⟨1, (true, (expect_line_comment s).2), fun g hg => ?_⟩
        obtain ⟨g2, rfl, hg2⟩ := succ_of_le hg
        simp only [runHL]
        try dsimp only
        rw [if_pos hp1]
      · have e2 := expect_block_comment_spec (expect_line_comment s).2
        by_cases hp2 : (expect_block_comment (expect_line_comment s).2).1 = true
        · refine ⟨1, (true, (expect_block_comment (expect_line_comment s).2).2),
            fun g hg => ?_⟩
          obtain ⟨g2, rfl, hg2⟩ := succ_of_le hg
          simp only [runHL]
          try dsimp only
          rw [if_neg hp1, if_pos hp2]
        · have hmj : hmeasure (HCall.jsxInJs
              (expect_block_comment (expect_line_comment s).2).2) < n := by
            simp only [hmeasure, call_state, hrank] at hc ⊢
            rw [e2.1, e1.1]
            have := e1.2.2.1
            have := e2.2.2.1
            omega
          obtain ⟨f1, ⟨b3, s3⟩, h1⟩ := ih _ hmj
          have hp3 := runHL_post f1 _ _ _ (h1 f1 (Nat.le_refl _))
          simp only [call_state, base_post, extra_post] at hp3
          cases b3
          · -- jsx failed: continue with the string literal and the rest
            have e4 := expect_string_literal_spec s3
            by_cases hp4 : (expect_string_literal s3).1 = true
            · refine ⟨f1 + 1, (true, (expect_string_literal s3).2), fun g hg => ?_⟩
              obtain ⟨g2, rfl, hg2⟩ := succ_of_le hg
              simp only [runHL]
              try dsimp only
              rw [if_neg hp1, if_neg hp2, h1 g2 hg2]
              try dsimp only
              rw [if_neg Bool.false_ne_true, if_pos hp4]
            · have hmt : hmeasure (HCall.expectTemplate (expect_string_literal s3).2) < n := by
                simp only [hmeasure, call_state, hrank] at hc ⊢
                rw [e4.1, hp3.1.1, e2.1, e1.1]
                have := e1.2.2.1
                have := e2.2.2.1
                have := hp3.1.2.2
                have := e4.2.2.1
                omega
              obtain ⟨f2, ⟨b5, s5⟩, h2⟩ := ih _ hmt
              have hrest : ∀ g, max f1 f2 ≤ g →
                  runHL (g + 1) (HCall.chain s) =
                    (if (expect_string_literal s3).1 = true
                      then some (true, (expect_string_literal s3).2)
                      else
                        match runHL g (HCall.expectTemplate (expect_string_literal s3).2) with
                        | none => none
                        | some (b5, s5) =>
                          if b5 = true then some (true, s5)
                          else
                            if (expect_regex s5).1 = true then some (true, (expect_regex s5).2)
                            else
                              if (expect_numeric_literal (expect_regex s5).2).1 = true then
                                some (true, (expect_numeric_literal (expect_regex s5).2).2)
                              else
                                if (expect_private_identifier
                                    (expect_numeric_literal (expect_regex s5).2).2).1 = true then
                                  some (true, (expect_private_identifier
                                    (expect_numeric_literal (expect_regex s5).2).2).2)
                                else
                                  if (expect_symbols (expect_private_identifier
                                      (expect_numeric_literal
                                        (expect_regex s5).2).2).2).1 = true then
                                    some (true, (expect_symbols (expect_private_identifier
                                      (expect_numeric_literal (expect_regex s5).2).2).2).2)
                                  else
                                    some (expect_operator_or_punctuation
                                      (expect_symbols (expect_private_identifier
                                        (expect_numeric_literal
                                          (expect_regex s5).2).2).2).2)) := by
                intro g hg
                simp only [runHL]
                try dsimp only
                rw [if_neg hp1, if_neg hp2, h1 g (by omega)]
                try dsimp only
                rw [if_neg Bool.false_ne_true]
              by_cases hb5 : b5 = true
              · refine ⟨max f1 f2 + 1, (true, s5), fun g hg => ?_⟩
                obtain ⟨g2, rfl, hg2⟩ := succ_of_le hg
                rw [hrest g2 hg2, if_neg hp4, h2 g2 (by omega)]
                try dsimp only
                rw [if_pos hb5]
              · by_cases hp6 : (expect_regex s5).1 = true
                · refine ⟨max f1 f2 + 1, (true, (expect_regex s5).2), fun g hg => ?_⟩
                  obtain ⟨g2, rfl, hg2⟩ := succ_of_le hg
                  rw [hrest g2 hg2, if_neg hp4, h2 g2 (by omega)]
                  try dsimp only
                  rw [if_neg hb5, if_pos hp6]
                · by_cases hp7 : (expect_numeric_literal (expect_regex s5).2).1 = true
                  · refine ⟨max f1 f2 + 1,
                      (true, (expect_numeric_literal (expect_regex s5).2).2), fun g hg => ?_⟩
                    obtain ⟨g2, rfl, hg2⟩ := succ_of_le hg
                    rw [hrest g2 hg2, if_neg hp4, h2 g2 (by omega)]
                    try dsimp only
                    rw [if_neg hb5, if_neg hp6, if_pos hp7]
                  · by_cases hp8 : (expect_private_identifier
                        (expect_numeric_literal (expect_regex s5).2).2).1 = true
                    · refine ⟨max f1 f2 + 1, (true, (expect_private_identifier
                        (expect_numeric_literal (expect_regex s5).2).2).2), fun g hg => ?_⟩
                      obtain ⟨g2, rfl, hg2⟩ := succ_of_le hg
                      rw [hrest g2 hg2, if_neg hp4, h2 g2 (by omega)]
                      try dsimp only
                      rw [if_neg hb5, if_neg hp6, if_neg hp7, if_pos hp8]
                    · by_cases hp9 : (expect_symbols (expect_private_identifier
                          (expect_numeric_literal (expect_regex s5).2).2).2).1 = true
                      · refine ⟨max f1 f2 + 1, (true, (expect_symbols
                          (expect_private_identifier (expect_numeric_literal
                            (expect_regex s5).2).2).2).2), fun g hg => ?_⟩
                        obtain ⟨g2, rfl, hg2⟩ := succ_of_le hg
                        rw [hrest g2 hg2, if_neg hp4, h2 g2 (by omega)]
                        try dsimp only
                        rw [if_neg hb5, if_neg hp6, if_neg hp7, if_neg hp8, if_pos hp9]
                      · refine ⟨max f1 f2 + 1, (expect_operator_or_punctuation
                          (expect_symbols (expect_private_identifier (expect_numeric_literal
                            (expect_regex s5).2).2).2).2), fun g hg => ?_⟩
                        obtain ⟨g2, rfl, hg2⟩ := succ_of_le hg
                        rw [hrest g2 hg2, if_neg hp4, h2 g2 (by omega)]
                        try dsimp only
                        rw [if_neg hb5, if_neg hp6, if_neg hp7, if_neg hp8, if_neg hp9]
          · -- jsx succeeded
            refine ⟨f1 + 1, (true, s3), fun g hg => ?_⟩
            obtain ⟨g2, rfl, hg2⟩ := succ_of_le hg
            simp only [runHL]
            try dsimp only
            rw [if_neg hp1, if_neg hp2, h1 g2 hg2]
            try dsimp only
            rw [if_pos rfl]
    | jsxInJs s =>
      by_cases hop : (match_jsx_tag_impl (remainder s) true).length = 0
      · refine ⟨1, (false, s), fun g hg => ?_⟩
        obtain ⟨g2, rfl, hg2⟩ := succ_of_le hg
        simp only [runHL]
        try dsimp only
        rw [if_pos hop]
      · have hstarts := tag_impl_pos_starts _ _ hop
        have hlt : s.index < s.source.length := take_one_mem_lt hstarts
        have hmt : hmeasure (HCall.tag s) < n := by
          simp only [hmeasure, call_state, hrank] at hc ⊢
          omega
        obtain ⟨f1, ⟨bt, s1⟩, h1⟩ := ih _ hmt
        have hp1 := runHL_post f1 _ _ _ (h1 f1 (Nat.le_refl _))
        simp only [call_state, base_post, extra_post] at hp1
        have hstrict := hp1.2 hstarts
        by_cases hsc : (match_jsx_tag_impl (remainder s) true).type ≠ JSX_Type.self_closing
        · have hmc : hmeasure (HCall.children 0 (remainder s1) s1) < n := by
            simp only [hmeasure, call_state, hrank] at hc ⊢
            rw [hp1.1.1]
            omega
          obtain ⟨f2, ⟨bc, s2⟩, h2⟩ := ih _ hmc
          refine ⟨max f1 f2 + 1, (true, { s2 with can_be_regex := true }), fun g hg => ?_⟩
          obtain ⟨g2, rfl, hg2⟩ := succ_of_le hg
          simp only [runHL]
          try dsimp only
          rw [if_neg hop, h1 g2 (by omega)]
          try dsimp only
          rw [if_pos hsc, h2 g2 (by omega)]
        · refine ⟨f1 + 1, (true, { s1 with can_be_regex := true }), fun g hg => ?_⟩
          obtain ⟨g2, rfl, hg2⟩ := succ_of_le hg
          simp only [runHL]
          try dsimp only
          rw [if_neg hop, h1 g2 hg2]
          try dsimp only
          rw [if_neg hsc]
    | tag s =>
      have hme : hmeasure (HCall.events (match_jsx_tag_events (remainder s) false).1 s) < n := by
        simp only [hmeasure, call_state, hrank] at hc ⊢
        omega
      obtain ⟨f1, r, h1⟩ := ih _ hme
      refine ⟨f1 + 1, r, fun g hg => ?_⟩
      obtain ⟨g2, rfl, hg2⟩ := succ_of_le hg
      simp only [runHL]
      exact h1 g2 hg2
    | events evs0 s =>
      have hev : ∀ (evs : List JSX_Event) (t : HState), t.source = s.source →
          s.index ≤ t.index → totalP (HCall.events evs t) := by
        intro evs
        induction evs with
        | nil =>
          intro t hsrc hle
          refine ⟨1, (true, t), fun g hg => ?_⟩
          obtain ⟨g2, rfl, hg2⟩ := succ_of_le hg
          simp only [runHL]
        | cons e rest ihe =>
          intro t hsrc hle
          have hwrap : ∀ (t2 : HState), t2.source = t.source → t.index ≤ t2.index →
              ∃ f r, ∀ g, f ≤ g → runHL g (HCall.events rest t2) = some r := by
            intro t2 h1 h2
            exact ihe t2 (by rw [h1, hsrc]) (le_trans hle h2)
          cases e with
          | ws nn =>
            obtain ⟨f1, r, h1⟩ := hwrap (advance t nn) rfl (by simp [advance])
            refine ⟨f1 + 1, r, fun g hg => ?_⟩
            obtain ⟨g2, rfl, hg2⟩ := succ_of_le hg
            simp only [runHL]
            exact h1 g2 hg2
          | block_comment rr =>
            obtain ⟨f1, r, h1⟩ := hwrap (highlight_block_comment t rr) (by simp)
              (by simp)
            refine ⟨f1 + 1, r, fun g hg => ?_⟩
            obtain ⟨g2, rfl, hg2⟩ := succ_of_le hg
            simp only [runHL]
            exact h1 g2 hg2
          | line_comment nn =>
            have hl := highlight_line_comment_spec t nn
            obtain ⟨f1, r, h1⟩ := hwrap (highlight_line_comment t nn) hl.1
              (Nat.le_of_lt hl.2.2)
            refine ⟨f1 + 1, r, fun g hg => ?_⟩
            obtain ⟨g2, rfl, hg2⟩ := succ_of_le hg
            simp only [runHL]
            exact h1 g2 hg2
          | opening_symbol =>
            obtain ⟨f1, r, h1⟩ := hwrap (emit_and_advance t 1 Highlight_Type.sym_punc)
              (by simp) (by simp)
            refine ⟨f1 + 1, r, fun g hg => ?_⟩
            obtain ⟨g2, rfl, hg2⟩ := succ_of_le hg
            simp only [runHL]
            exact h1 g2 hg2
          | closing_symbol =>
            obtain ⟨f1, r, h1⟩ := hwrap (emit_and_advance t 1 Highlight_Type.sym_punc)
              (by simp) (by simp)
            refine ⟨f1 + 1, r, fun g hg => ?_⟩
            obtain ⟨g2, rfl, hg2⟩ := succ_of_le hg
            simp only [runHL]
            exact h1 g2 hg2
          | element_name nn =>
            obtain ⟨f1, r, h1⟩ := hwrap (emit_and_advance t nn Highlight_Type.markup_tag)
              (by simp) (by simp)
            refine ⟨f1 + 1, r, fun g hg => ?_⟩
            obtain ⟨g2, rfl, hg2⟩ := succ_of_le hg
            simp only [runHL]
            exact h1 g2 hg2
          | attribute_name nn =>
            obtain ⟨f1, r, h1⟩ := hwrap (emit_and_advance t nn Highlight_Type.markup_tag)
              (by simp) (by simp)
            refine ⟨f1 + 1, r, fun g hg => ?_⟩
            obtain ⟨g2, rfl, hg2⟩ := succ_of_le hg
            simp only [runHL]
            exact h1 g2 hg2
          | attribute_equals =>
            obtain ⟨f1, r, h1⟩ := hwrap (emit_and_advance t 1 Highlight_Type.sym_punc)
              (by simp) (by simp)
            refine ⟨f1 + 1, r, fun g hg => ?_⟩
            obtain ⟨g2, rfl, hg2⟩ := succ_of_le hg
            simp only [runHL]
            exact h1 g2 hg2
          | string_lit rr =>
            have hl := highlight_string_literal_spec t rr
            obtain ⟨f1, r, h1⟩ := hwrap (highlight_string_literal t rr) hl.1
              (Nat.le_of_lt hl.2.2)
            refine ⟨f1 + 1, r, fun g hg => ?_⟩
            obtain ⟨g2, rfl, hg2⟩ := succ_of_le hg
            simp only [runHL]
            exact h1 g2 hg2
          | braced bb =>
            have hmb : hmeasure (HCall.braced bb t) < n := by
              simp only [hmeasure, call_state, hrank] at hc ⊢
              rw [hsrc]
              omega
            obtain ⟨f1, ⟨b1, t1⟩, h1⟩ := ih _ hmb
            have hp1 := runHL_post f1 _ _ _ (h1 f1 (Nat.le_refl _))
            simp only [call_state, base_post, extra_post] at hp1
            obtain ⟨f2, r, h2⟩ := hwrap t1 hp1.1.1 hp1.1.2.2
            refine ⟨max f1 f2 + 1, r, fun g hg => ?_⟩
            obtain ⟨g2, rfl, hg2⟩ := succ_of_le hg
            simp only [runHL]
            try dsimp only
            rw [h1 g2 (by omega)]
            try dsimp only
            exact h2 g2 (by omega)
      exact hev evs0 s rfl (Nat.le_refl _)
    | braced bb s =>
      by_cases hjs : bb.length - (if bb.is_terminated = true then 2 else 1) ≠ 0
      · by_cases hin : (emit_and_advance s 1 Highlight_Type.sym_brace).index <
            (emit_and_advance s 1 Highlight_Type.sym_brace).source.length
        · have hmc : hmeasure (HCall.consumeJs 0
              (emit_and_advance s 1 Highlight_Type.sym_brace)) < n := by
            simp only [hmeasure, call_state, hrank] at hc ⊢
            simp only [emit_and_advance_index, emit_and_advance_source] at hin ⊢
            omega
          obtain ⟨f1, ⟨b1, s2⟩, h1⟩ := ih _ hmc
          refine ⟨f1 + 1, (true, if bb.is_terminated then
            emit_and_advance s2 1 Highlight_Type.sym_brace else s2), fun g hg => ?_⟩
          obtain ⟨g2, rfl, hg2⟩ := succ_of_le hg
          simp only [runHL]
          try dsimp only
          rw [if_pos hjs, h1 g2 hg2]
        · have hcj : ∀ g, 1 ≤ g → runHL g (HCall.consumeJs 0
              (emit_and_advance s 1 Highlight_Type.sym_brace)) =
              some (true, emit_and_advance s 1 Highlight_Type.sym_brace) := by
            intro g hg
            obtain ⟨g2, rfl, hg2⟩ := succ_of_le hg
            simp only [runHL]
            rw [if_neg hin]
          refine ⟨2, (true, if bb.is_terminated then
            emit_and_advance (emit_and_advance s 1 Highlight_Type.sym_brace) 1
              Highlight_Type.sym_brace
            else emit_and_advance s 1 Highlight_Type.sym_brace), fun g hg => ?_⟩
          obtain ⟨g2, rfl, hg2⟩ := succ_of_le hg
          simp only [runHL]
          try dsimp only
          rw [if_pos hjs, hcj g2 (by omega)]
      · refine ⟨1, (true, if bb.is_terminated then
          emit_and_advance (emit_and_advance s 1 Highlight_Type.sym_brace) 1
            Highlight_Type.sym_brace
          else emit_and_advance s 1 Highlight_Type.sym_brace), fun g hg => ?_⟩
        obtain ⟨g2, rfl, hg2⟩ := succ_of_le hg
        simp only [runHL]
        try dsimp only
        rw [if_neg hjs]
    | consumeJs level s =>
      by_cases hidx : s.index < s.source.length
      · by_cases hc1 : s.source.getD s.index junk_byte = lbrace
        · have hm2 : hmeasure (HCall.consumeJs (level + 1)
              (emit_and_advance s 1 Highlight_Type.sym_brace)) < n := by
            simp only [hmeasure, call_state, hrank] at hc ⊢
            simp only [emit_and_advance_index, emit_and_advance_source]
            omega
          obtain ⟨f1, r, h1⟩ := ih _ hm2
          refine ⟨f1 + 1, r, fun g hg => ?_⟩
          obtain ⟨g2, rfl, hg2⟩ := succ_of_le hg
          simp only [runHL]
          try dsimp only
          rw [if_pos hidx, if_pos hc1]
          exact h1 g2 hg2
        · by_cases hc2 : s.source.getD s.index junk_byte = rbrace
          · by_cases hlev : level = 0
            · refine ⟨1, (true, s), fun g hg => ?_⟩
              obtain ⟨g2, rfl, hg2⟩ := succ_of_le hg
              simp only [runHL]
              try dsimp only
              rw [if_pos hidx, if_neg hc1, if_pos hc2, if_pos hlev]
            · have hm2 : hmeasure (HCall.consumeJs (level - 1)
                  (emit_and_advance s 1 Highlight_Type.sym_brace)) < n := by
                simp only [hmeasure, call_state, hrank] at hc ⊢
                simp only [emit_and_advance_index, emit_and_advance_source]
                omega
              obtain ⟨f1, r, h1⟩ := ih _ hm2
              refine ⟨f1 + 1, r, fun g hg => ?_⟩
              obtain ⟨g2, rfl, hg2⟩ := succ_of_le hg
              simp only [runHL]
              try dsimp only
              rw [if_pos hidx, if_neg hc1, if_pos hc2, if_neg hlev]
              exact h1 g2 hg2
          · have hws := expect_whitespace_spec s
            by_cases hw : (expect_whitespace s).1 = true
            · have hm2 : hmeasure (HCall.consumeJs level (expect_whitespace s).2) < n := by
                simp only [hmeasure, call_state, hrank] at hc ⊢
                rw [hws.1]
                have := hws.2.2.2.1 hw
                omega
              obtain ⟨f1, r, h1⟩ := ih _ hm2
              refine ⟨f1 + 1, r, fun g hg => ?_⟩
              obtain ⟨g2, rfl, hg2⟩ := succ_of_le hg
              simp only [runHL]
              try dsimp only
              rw [if_pos hidx, if_neg hc1, if_neg hc2, if_pos hw]
              exact h1 g2 hg2
            · have hmch : hmeasure (HCall.chain (expect_whitespace s).2) < n := by
                simp only [hmeasure, call_state, hrank] at hc ⊢
                rw [hws.1]
                have := hws.2.2.1
                omega
              obtain ⟨f1, ⟨bc, s2⟩, h1⟩ := ih _ hmch
              have hpc := runHL_post f1 _ _ _ (h1 f1 (Nat.le_refl _))
              simp only [call_state, base_post, extra_post] at hpc
              cases bc
              · -- fallback consume_error then loop
                have hm2 : hmeasure (HCall.consumeJs level (consume_error s2)) < n := by
                  simp only [hmeasure, call_state, hrank] at hc ⊢
                  simp only [consume_error_source, consume_error_index]
                  rw [hpc.1.1, hws.1]
                  have := hpc.1.2.2
                  have := hws.2.2.1
                  omega
                obtain ⟨f2, r, h2⟩ := ih _ hm2
                refine ⟨max f1 f2 + 1, r, fun g hg => ?_⟩
                obtain ⟨g2, rfl, hg2⟩ := succ_of_le hg
                simp only [runHL]
                try dsimp only
                rw [if_pos hidx, if_neg hc1, if_neg hc2, if_neg hw, h1 g2 (by omega)]
                try dsimp only
                exact h2 g2 (by omega)
              · have hstrict := hpc.2 rfl
                have hm2 : hmeasure (HCall.consumeJs level s2) < n := by
                  simp only [hmeasure, call_state, hrank] at hc ⊢
                  rw [hpc.1.1, hws.1]
                  have := hws.2.2.1
                  omega
                obtain ⟨f2, r, h2⟩ := ih _ hm2
                refine ⟨max f1 f2 + 1, r, fun g hg => ?_⟩
                obtain ⟨g2, rfl, hg2⟩ := succ_of_le hg
                simp only [runHL]
                try dsimp only
                rw [if_pos hidx, if_neg hc1, if_neg hc2, if_neg hw, h1 g2 (by omega)]
                try dsimp only
                exact h2 g2 (by omega)
      · refine ⟨1, (true, s), fun g hg => ?_⟩
        obtain ⟨g2, rfl, hg2⟩ := succ_of_le hg
        simp only [runHL]
        rw [if_neg hidx]
    | expectTemplate s =>
      by_cases hbt : (remainder s).take 1 = [backtick]
      · have hmt : hmeasure (HCall.template s) < n := by
          simp only [hmeasure, call_state, hrank] at hc ⊢
          omega
        obtain ⟨f1, ⟨bt, s1⟩, h1⟩ := ih _ hmt
        refine ⟨f1 + 1, (true, s1), fun g hg => ?_⟩
        obtain ⟨g2, rfl, hg2⟩ := succ_of_le hg
        simp only [runHL]
        try dsimp only
        rw [if_pos hbt, h1 g2 hg2]
      · refine ⟨1, (false, s), fun g hg => ?_⟩
        obtain ⟨g2, rfl, hg2⟩ := succ_of_le hg
        simp only [runHL]
        try dsimp only
        rw [if_neg hbt]
    | template s =>
      have hmt : hmeasure (HCall.templateLoop 0
          (emit_and_advance s 1 Highlight_Type.string_delim)) < n := by
        simp only [hmeasure, call_state, hrank] at hc ⊢
        simp only [emit_and_advance_index, emit_and_advance_source]
        omega
      obtain ⟨f1, r, h1⟩ := ih _ hmt
      refine ⟨f1 + 1, r, fun g hg => ?_⟩
      obtain ⟨g2, rfl, hg2⟩ := succ_of_le hg
      simp only [runHL]
      exact h1 g2 hg2
    | templateLoop chars s =>
      by_cases hidx : s.index < s.source.length
      · by_cases hc1 : (remainder s).getD 0 junk_byte = backtick
        · refine ⟨1, (true, emit_and_advance (template_flush chars s) 1
            Highlight_Type.string_delim), fun g hg => ?_⟩
          obtain ⟨g2, rfl, hg2⟩ := succ_of_le hg
          simp only [runHL]
          try dsimp only
          rw [if_pos hidx, if_pos hc1]
        · by_cases hc2 : (remainder s).getD 0 junk_byte = '$'
          · by_cases hsub : (remainder s).take 2 = ['$', lbrace]
            · have hmc : hmeasure (HCall.consumeJs 0 (emit_and_advance
                  (template_flush chars s) 2 Highlight_Type.escape)) < n := by
                simp only [hmeasure, call_state, hrank] at hc ⊢
                simp only [emit_and_advance_index, emit_and_advance_source,
                  template_flush_index, template_flush_source]
                omega
              obtain ⟨f1, ⟨b1, s2⟩, h1⟩ := ih _ hmc
              have hpc := runHL_post f1 _ _ _ (h1 f1 (Nat.le_refl _))
              simp only [call_state, base_post, extra_post] at hpc
              have hsrc2 : s2.source = s.source := by
                rw [hpc.1.1]
                simp
              have hidx2 : s.index + 2 ≤ s2.index := by
                have := hpc.1.2.2
                simpa using this
              by_cases hin2 : s2.index < s2.source.length
              · have hm2 : hmeasure (HCall.templateLoop 0
                    (emit_and_advance s2 1 Highlight_Type.escape)) < n := by
                  simp only [hmeasure, call_state, hrank] at hc ⊢
                  simp only [emit_and_advance_index, emit_and_advance_source]
                  rw [hsrc2]
                  omega
                obtain ⟨f2, r, h2⟩ := ih _ hm2
                refine ⟨max f1 f2 + 1, r, fun g hg => ?_⟩
                obtain ⟨g2, rfl, hg2⟩ := succ_of_le hg
                simp only [runHL]
                try dsimp only
                rw [if_pos hidx, if_neg hc1, if_pos hc2, if_pos hsub, h1 g2 (by omega)]
                try dsimp only
                rw [if_pos hin2]
                exact h2 g2 (by omega)
              · have hm2 : hmeasure (HCall.templateLoop 0 s2) < n := by
                  simp only [hmeasure, call_state, hrank] at hc ⊢
                  rw [hsrc2]
                  omega
                obtain ⟨f2, r, h2⟩ := ih _ hm2
                refine ⟨max f1 f2 + 1, r, fun g hg => ?_⟩
                obtain ⟨g2, rfl, hg2⟩ := succ_of_le hg
                simp only [runHL]
                try dsimp only
                rw [if_pos hidx, if_neg hc1, if_pos hc2, if_pos hsub, h1 g2 (by omega)]
                try dsimp only
                rw [if_neg hin2]
                exact h2 g2 (by omega)
            · have hm2 : hmeasure (HCall.templateLoop (chars + 1) (advance s 1)) < n := by
                simp only [hmeasure, call_state, hrank, advance] at hc ⊢
                omega
              obtain ⟨f1, r, h1⟩ := ih _ hm2
              refine ⟨f1 + 1, r, fun g hg => ?_⟩
              obtain ⟨g2, rfl, hg2⟩ := succ_of_le hg
              simp only [runHL]
              try dsimp only
              rw [if_pos hidx, if_neg hc1, if_pos hc2, if_neg hsub]
              exact h1 g2 hg2
          · by_cases hc3 : (remainder s).getD 0 junk_byte = '\\'
            · by_cases hcl : match_line_continuation (remainder s) ≠ 0
              · have hm2 : hmeasure (HCall.templateLoop
                    (match_line_continuation (remainder s) - 1)
                    (advance (emit_and_advance (template_flush chars s) 1
                      Highlight_Type.escape) (match_line_continuation (remainder s) - 1)))
                    < n := by
                  simp only [hmeasure, call_state, hrank, advance] at hc ⊢
                  simp only [emit_and_advance_index, emit_and_advance_source,
                    template_flush_index, template_flush_source]
                  omega
                obtain ⟨f1, r, h1⟩ := ih _ hm2
                refine ⟨f1 + 1, r, fun g hg => ?_⟩
                obtain ⟨g2, rfl, hg2⟩ := succ_of_le hg
                simp only [runHL]
                try dsimp only
                rw [if_pos hidx, if_neg hc1, if_neg hc2, if_pos hc3, if_pos hcl]
                exact h1 g2 hg2
              · have hm2 : hmeasure (HCall.templateLoop (chars + 1) (advance s 1)) < n := by
                  simp only [hmeasure, call_state, hrank, advance] at hc ⊢
                  omega
                obtain ⟨f1, r, h1⟩ := ih _ hm2
                refine ⟨f1 + 1, r, fun g hg => ?_⟩
                obtain ⟨g2, rfl, hg2⟩ := succ_of_le hg
                simp only [runHL]
                try dsimp only
                rw [if_pos hidx, if_neg hc1, if_neg hc2, if_pos hc3, if_neg hcl]
                exact h1 g2 hg2
            · have hm2 : hmeasure (HCall.templateLoop (chars + 1) (advance s 1)) < n := by
                simp only [hmeasure, call_state, hrank, advance] at hc ⊢
                omega
              obtain ⟨f1, r, h1⟩ := ih _ hm2
              refine ⟨f1 + 1, r, fun g hg => ?_⟩
              obtain ⟨g2, rfl, hg2⟩ := succ_of_le hg
              simp only [runHL]
              try dsimp only
              rw [if_pos hidx, if_neg hc1, if_neg hc2, if_neg hc3]
              exact h1 g2 hg2
      · refine ⟨1, (true, template_flush chars s), fun g hg => ?_⟩
        obtain ⟨g2, rfl, hg2⟩ := succ_of_le hg
        simp only [runHL]
        rw [if_neg hidx]
    | children depth0 rem0 s =>
      have hchild : ∀ (k : Nat) (rem : List Char) (d : Nat) (t : HState),
          rem.length ≤ k → t.source = s.source → s.index ≤ t.index →
          totalP (HCall.children d rem t) := by
        intro k
        induction k with
        | zero =>
          intro rem d t hlen hsrc hle
          have hnil : rem = [] := List.length_eq_zero.mp (by omega)
          refine ⟨1, (true, t), fun g hg => ?_⟩
          obtain ⟨g2, rfl, hg2⟩ := succ_of_le hg
          simp only [runHL]
          rw [if_pos hnil]
        | succ k ihk =>
          intro rem d t hlen hsrc hle
          by_cases hnil : rem = []
          · refine ⟨1, (true, t), fun g hg => ?_⟩
            obtain ⟨g2, rfl, hg2⟩ := succ_of_le hg
            simp only [runHL]
            rw [if_pos hnil]
          · by_cases hsafe : (rem.findIdx fun ch =>
                ch = '&' || ch = lbrace || ch = rbrace || ch = '<' || ch = '>') = rem.length
            · refine ⟨1, (true, advance t rem.length), fun g hg => ?_⟩
              obtain ⟨g2, rfl, hg2⟩ := succ_of_le hg
              simp only [runHL]
              rw [if_neg hnil]
              try dsimp only
              rw [if_pos hsafe]
            · have hdroplen : ∀ m : Nat, 1 ≤ m →
                  ((rem.drop (rem.findIdx fun ch =>
                    ch = '&' || ch = lbrace || ch = rbrace || ch = '<' || ch = '>')).drop
                      m).length ≤ k := by
                intro m hm
                simp only [List.length_drop]
                omega
              have hrumble : ∀ (m : Nat) (d2 : Nat) (t2 : HState), 1 ≤ m →
                  t2.source = s.source → t.index ≤ t2.index →
                  totalP (HCall.children d2 ((rem.drop (rem.findIdx fun ch =>
                    ch = '&' || ch = lbrace || ch = rbrace || ch = '<' || ch = '>')).drop m)
                    t2) := by
                intro m d2 t2 hm hs2 hi2
                exact ihk _ d2 t2 (hdroplen m hm) hs2 (le_trans hle hi2)
              set j := rem.findIdx fun ch =>
                ch = '&' || ch = lbrace || ch = rbrace || ch = '<' || ch = '>' with hj
              set rem2 := rem.drop j with hrem2
              by_cases hamp : rem2.getD 0 junk_byte = '&'
              · by_cases href : match_character_reference rem2 ≠ 0
                · obtain ⟨f1, r, h1⟩ := hrumble (match_character_reference rem2) d
                    (emit_and_advance (advance t j) (match_character_reference rem2)
                      Highlight_Type.escape) (by omega) (by simp [advance, hsrc])
                    (by simp only [emit_and_advance_index, advance]; omega)
                  refine ⟨f1 + 1, r, fun g hg => ?_⟩
                  obtain ⟨g2, rfl, hg2⟩ := succ_of_le hg
                  simp only [runHL]
                  rw [if_neg hnil]
                  try dsimp only
                  rw [← hj, ← hrem2]
                  rw [if_neg hsafe, if_pos hamp, if_pos href]
                  exact h1 g2 hg2
                · obtain ⟨f1, r, h1⟩ := hrumble 1 d (advance (advance t j) 1)
                    (Nat.le_refl _) (by simp [advance, hsrc])
                    (by simp only [advance]; omega)
                  refine ⟨f1 + 1, r, fun g hg => ?_⟩
                  obtain ⟨g2, rfl, hg2⟩ := succ_of_le hg
                  simp only [runHL]
                  rw [if_neg hnil]
                  try dsimp only
                  rw [← hj, ← hrem2]
                  rw [if_neg hsafe, if_pos hamp, if_neg href]
                  exact h1 g2 hg2
              · by_cases hlt2 : rem2.getD 0 junk_byte = '<'
                · by_cases htg : (match_jsx_tag rem2).length = 0
                  · obtain ⟨f1, r, h1⟩ := hrumble 1 d (emit_and_advance (advance t j) 1
                      Highlight_Type.error) (Nat.le_refl _) (by simp [advance, hsrc])
                      (by simp only [emit_and_advance_index, advance]; omega)
                    refine ⟨f1 + 1, r, fun g hg => ?_⟩
                    obtain ⟨g2, rfl, hg2⟩ := succ_of_le hg
                    simp only [runHL]
                    rw [if_neg hnil]
                    try dsimp only
                    rw [← hj, ← hrem2]
                    rw [if_neg hsafe, if_neg hamp, if_pos hlt2, if_pos htg]
                    exact h1 g2 hg2
                  · have hmt : hmeasure (HCall.tag (advance t j)) < n := by
                      simp only [hmeasure, call_state, hrank, advance] at hc ⊢
                      rw [hsrc]
                      omega
                    obtain ⟨f1, ⟨bt, t1⟩, h1⟩ := ih _ hmt
                    have hpt := runHL_post f1 _ _ _ (h1 f1 (Nat.le_refl _))
                    simp only [call_state, base_post, extra_post] at hpt
                    have hsrc1 : t1.source = s.source := by
                      rw [hpt.1.1]
                      simp [advance, hsrc]
                    have hidx1 : t.index ≤ t1.index := by
                      have hup := hpt.1.2.2
                      simp only [advance] at hup
                      omega
                    have hcont : ∀ d2 : Nat, totalP (HCall.children d2
                        (rem2.drop (match_jsx_tag rem2).length) t1) := by
                      intro d2
                      exact hrumble (match_jsx_tag rem2).length d2 t1 (by omega) hsrc1 hidx1
                    by_cases hop2 : (decide ((match_jsx_tag rem2).type = JSX_Type.opening) ||
                        decide ((match_jsx_tag rem2).type = JSX_Type.fragment_opening)) = true
                    · obtain ⟨f2, r, h2⟩ := hcont (d + 1)
                      refine ⟨max f1 f2 + 1, r, fun g hg => ?_⟩
                      obtain ⟨g2, rfl, hg2⟩ := succ_of_le hg
                      simp only [runHL]
                      rw [if_neg hnil]
                      try dsimp only
                      rw [← hj, ← hrem2]
                      rw [if_neg hsafe, if_neg hamp, if_pos hlt2, if_neg htg,
                        h1 g2 (by omega)]
                      try dsimp only
                      rw [if_pos hop2]
                      exact h2 g2 (by omega)
                    · by_cases hcl2 : (decide ((match_jsx_tag rem2).type = JSX_Type.closing) ||
                          decide ((match_jsx_tag rem2).type = JSX_Type.fragment_closing)) = true
                      · by_cases hd0 : d = 0
                        · refine ⟨f1 + 1, (true, t1), fun g hg => ?_⟩
                          obtain ⟨g2, rfl, hg2⟩ := succ_of_le hg
                          simp only [runHL]
                          rw [if_neg hnil]
                          try dsimp only
                          rw [← hj, ← hrem2]
                          rw [if_neg hsafe, if_neg hamp, if_pos hlt2, if_neg htg,
                            h1 g2 hg2]
                          try dsimp only
                          rw [if_neg hop2, if_pos hcl2, if_pos hd0]
                        · obtain ⟨f2, r, h2⟩ := hcont (d - 1)
                          refine ⟨max f1 f2 + 1, r, fun g hg => ?_⟩
                          obtain ⟨g2, rfl, hg2⟩ := succ_of_le hg
                          simp only [runHL]
                          rw [if_neg hnil]
                          try dsimp only
                          rw [← hj, ← hrem2]
                          rw [if_neg hsafe, if_neg hamp, if_pos hlt2, if_neg htg,
                            h1 g2 (by omega)]
                          try dsimp only
                          rw [if_neg hop2, if_pos hcl2, if_neg hd0]
                          exact h2 g2 (by omega)
                      · obtain ⟨f2, r, h2⟩ := hcont d
                        refine ⟨max f1 f2 + 1, r, fun g hg => ?_⟩
                        obtain ⟨g2, rfl, hg2⟩ := succ_of_le hg
                        simp only [runHL]
                        rw [if_neg hnil]
                        try dsimp only
                        rw [← hj, ← hrem2]
                        rw [if_neg hsafe, if_neg hamp, if_pos hlt2, if_neg htg,
                          h1 g2 (by omega)]
                        try dsimp only
                        rw [if_neg hop2, if_neg hcl2]
                        exact h2 g2 (by omega)
                · by_cases hgt : rem2.getD 0 junk_byte = '>'
                  · obtain ⟨f1, r, h1⟩ := hrumble 1 d (emit_and_advance (advance t j) 1
                      Highlight_Type.error) (Nat.le_refl _) (by simp [advance, hsrc])
                      (by simp only [emit_and_advance_index, advance]; omega)
                    refine ⟨f1 + 1, r, fun g hg => ?_⟩
                    obtain ⟨g2, rfl, hg2⟩ := succ_of_le hg
                    simp only [runHL]
                    rw [if_neg hnil]
                    try dsimp only
                    rw [← hj, ← hrem2]
                    rw [if_neg hsafe, if_neg hamp, if_neg hlt2, if_pos hgt]
                    exact h1 g2 hg2
                  · by_cases hbr : rem2.getD 0 junk_byte = lbrace
                    · by_cases hbl : (match_jsx_braced rem2).length ≠ 0
                      · have hmb : hmeasure (HCall.braced (match_jsx_braced rem2)
                            (advance t j)) < n := by
                          simp only [hmeasure, call_state, hrank, advance] at hc ⊢
                          rw [hsrc]
                          omega
                        obtain ⟨f1, ⟨b1, t1⟩, h1⟩ := ih _ hmb
                        have hpb := runHL_post f1 _ _ _ (h1 f1 (Nat.le_refl _))
                        simp only [call_state, base_post, extra_post] at hpb
                        have hsrc1 : t1.source = s.source := by
                          rw [hpb.1.1]
                          simp [advance, hsrc]
                        have hidx1 : t.index ≤ t1.index := by
                          have hup := hpb.1.2.2
                          simp only [advance] at hup
                          omega
                        obtain ⟨f2, r, h2⟩ := hrumble (match_jsx_braced rem2).length d t1
                          (by omega) hsrc1 hidx1
                        refine ⟨max f1 f2 + 1, r, fun g hg => ?_⟩
                        obtain ⟨g2, rfl, hg2⟩ := succ_of_le hg
                        simp only [runHL]
                        rw [if_neg hnil]
                        try dsimp only
                        rw [← hj, ← hrem2]
                        rw [if_neg hsafe, if_neg hamp, if_neg hlt2, if_neg hgt, if_pos hbr,
                          if_pos hbl, h1 g2 (by omega)]
                        try dsimp only
                        exact h2 g2 (by omega)
                      · obtain ⟨f1, r, h1⟩ := hrumble 1 d (emit_and_advance (advance t j) 1
                          Highlight_Type.error) (Nat.le_refl _) (by simp [advance, hsrc])
                          (by simp only [emit_and_advance_index, advance]; omega)
                        refine ⟨f1 + 1, r, fun g hg => ?_⟩
                        obtain ⟨g2, rfl, hg2⟩ := succ_of_le hg
                        simp only [runHL]
                        rw [if_neg hnil]
                        try dsimp only
                        rw [← hj, ← hrem2]
                        rw [if_neg hsafe, if_neg hamp, if_neg hlt2, if_neg hgt, if_pos hbr,
                          if_neg hbl]
                        exact h1 g2 hg2
                    · obtain ⟨f1, r, h1⟩ := hrumble 1 d (emit_and_advance (advance t j) 1
                        Highlight_Type.error) (Nat.le_refl _) (by simp [advance, hsrc])
                        (by simp only [emit_and_advance_index, advance]; omega)
                      refine ⟨f1 + 1, r, fun g hg => ?_⟩
                      obtain ⟨g2, rfl, hg2⟩ := succ_of_le hg
                      simp only [runHL]
                      rw [if_neg hnil]
                      try dsimp only
                      rw [← hj, ← hrem2]
                      rw [if_neg hsafe, if_neg hamp, if_neg hlt2, if_neg hgt, if_neg hbr]
                      exact h1 g2 hg2
      exact hchild (rem0.length) rem0 depth0 s (Nat.le_refl _) rfl (Nat.le_refl _)

theorem runHL_total (c : HCall) : totalP c :=
  runHL_total_aux (hmeasure c + 1) c (Nat.lt_succ_self _)

/-! Ordering: every run preserves the record-order invariant, so the emitted
records are pairwise disjoint and monotone in emission order. -/

theorem headEnd_nil : headEnd [] = 0 := rfl

theorem headEnd_cons (t : Token) (l : List Token) :
    headEnd (t :: l) = t.begin_idx + t.length := rfl

theorem rev_chained_nil : rev_chained [] = true := rfl

theorem rev_chained_cons (t : Token) (l : List Token) :
    rev_chained (t :: l) = (decide (headEnd l ≤ t.begin_idx) && rev_chained l) := rfl

theorem emit_ord (s : HState) (b l : Nat) (t : Highlight_Type)
    (h1 : rev_chained s.out = true) (h2 : headEnd s.out ≤ b) :
    rev_chained (emit s b l t).out = true ∧ headEnd (emit s b l t).out = b + l := by
  unfold emit
  rcases hout : s.out with _ | ⟨last, rest⟩ <;> rw [hout] at h1 h2 <;> dsimp only
  · simp [rev_chained_cons, rev_chained_nil, headEnd_cons, headEnd_nil]
  · split
    · next hcond =>
      simp only [Bool.and_eq_true, decide_eq_true_eq] at hcond
      obtain ⟨⟨hco, hty⟩, hb⟩ := hcond
      rw [rev_chained_cons, Bool.and_eq_true, decide_eq_true_eq] at h1
      constructor
      · rw [rev_chained_cons, Bool.and_eq_true, decide_eq_true_eq]
        exact ⟨h1.1, h1.2⟩
      · rw [headEnd_cons]
        dsimp only
        omega
    · constructor
      · rw [rev_chained_cons, Bool.and_eq_true, decide_eq_true_eq]
        exact ⟨h2, h1⟩
      · rw [headEnd_cons]

theorem advance_ord (s : HState) (n : Nat) (h : ord_inv s) : ord_inv (advance s n) := by
  obtain ⟨hc, hi⟩ := h
  unfold ord_inv advance
  dsimp only
  exact ⟨hc, by omega⟩

theorem emit_and_advance_ord (s : HState) (l : Nat) (t : Highlight_Type) (h : ord_inv s) :
    ord_inv (emit_and_advance s l t) ∧
    headEnd (emit_and_advance s l t).out = s.index + l ∧
    (emit_and_advance s l t).index = s.index + l := by
  unfold emit_and_advance
  have he := emit_ord s s.index l t h.1 h.2
  unfold ord_inv advance
  dsimp only
  rw [he.2, emit_index]
  exact ⟨⟨he.1, by omega⟩, rfl, rfl⟩

theorem consume_error_ord (s : HState) (h : ord_inv s) : ord_inv (consume_error s) := by
  unfold consume_error
  exact (emit_and_advance_ord s 1 Highlight_Type.error h).1

theorem template_flush_ord (chars : Nat) (s : HState)
    (h1 : rev_chained s.out = true) (h2 : headEnd s.out + chars ≤ s.index) :
    ord_inv (template_flush chars s) ∧
    (template_flush chars s).index = s.index := by
  unfold template_flush
  split
  · have he := emit_ord s (s.index - chars) chars Highlight_Type.string h1 (by omega)
    refine ⟨⟨he.1, ?_⟩, by rw [emit_index]⟩
    rw [he.2, emit_index]
    omega
  · exact ⟨⟨h1, by omega⟩, rfl⟩

theorem block_comment_go_wf :
    ∀ (k : Nat) (l : List Char) (n : Nat), l.length ≤ k →
      n ≤ (block_comment_go n l).length ∧
      ((block_comment_go n l).is_terminated = true → n + 2 ≤ (block_comment_go n l).length) := by
  intro k
  induction k with
  | zero =>
    intro l n hl
    have : l = [] := List.length_eq_zero.mp (by omega)
    subst this
    simp [block_comment_go]
  | succ k ihk =>
    intro l n hl
    match l with
    | [] => simp [block_comment_go]
    | [a] => simp [block_comment_go]
    | a :: b :: rest =>
      rw [block_comment_go]
      split
      · dsimp only
        exact ⟨by omega, fun ht => by omega⟩
      · obtain ⟨w1, w2⟩ := ihk (b :: rest) (n + 1)
          (by simp only [List.length_cons] at hl ⊢; omega)
        exact ⟨by omega, fun ht => by have := w2 ht; omega⟩

theorem match_block_comment_wf (str : List Char)
    (h : (match_block_comment str).length ≠ 0) :
    2 ≤ (match_block_comment str).length ∧
    ((match_block_comment str).is_terminated = true → 4 ≤ (match_block_comment str).length) := by
  by_cases hcond : str.take 2 = ['/', '*']
  · unfold match_block_comment
    rw [if_pos hcond]
    obtain ⟨w1, w2⟩ := block_comment_go_wf (str.drop 2).length (str.drop 2) 2 (Nat.le_refl _)
    exact ⟨w1, fun ht => by have := w2 ht; omega⟩
  · unfold match_block_comment at h
    rw [if_neg hcond] at h
    simp [commentNoMatch] at h

theorem expect_hashbang_comment_of_not_start (s : HState)
    (h : s.at_start_of_file = false) : expect_hashbang_comment s = (false, s) := by
  unfold expect_hashbang_comment match_hashbang_comment
  rw [h]
  simp

theorem highlight_line_comment_ord (s : HState) (l : Nat) (h : ord_inv s) :
    ord_inv (highlight_line_comment s l) := by
  unfold highlight_line_comment
  dsimp only
  have h1 := emit_and_advance_ord s 2 Highlight_Type.comment_delimiter h
  split
  · exact (emit_and_advance_ord _ (l - 2) Highlight_Type.comment h1.1).1
  · exact h1.1

theorem highlight_block_comment_ord (s : HState) (r : Comment_Result)
    (hwf : 2 ≤ r.length ∧ (r.is_terminated = true → 4 ≤ r.length))
    (h : ord_inv s) : ord_inv (highlight_block_comment s r) := by
  unfold highlight_block_comment
  dsimp only
  have h1 := emit_ord s s.index 2 Highlight_Type.comment_delimiter h.1 h.2
  have h2 := emit_ord (emit s s.index 2 Highlight_Type.comment_delimiter) (s.index + 2)
    (r.length - 2 - (if r.is_terminated then 2 else 0)) Highlight_Type.comment h1.1
    (by rw [h1.2])
  unfold ord_inv advance
  dsimp only
  split
  · next hterm =>
    have h4 := hwf.2 hterm
    rw [if_pos hterm] at h2
    have h3 := emit_ord _ (s.index + r.length - 2) 2 Highlight_Type.comment_delimiter h2.1
      (by rw [h2.2]; omega)
    simp only [emit_index] at h3 ⊢
    rw [h3.2]
    exact ⟨h3.1, by omega⟩
  · next hterm =>
    rw [if_neg hterm] at h2
    simp only [emit_index] at h2 ⊢
    rw [h2.2]
    exact ⟨h2.1, by omega⟩

theorem highlight_string_literal_ord (s : HState) (r : String_Literal_Result)
    (h : ord_inv s) : ord_inv (highlight_string_literal s r) := by
  unfold highlight_string_literal
  dsimp only
  have h1 := emit_and_advance_ord s 1 Highlight_Type.string_delim h
  split
  · exact (emit_and_advance_ord _ 1 Highlight_Type.string_delim
      (emit_and_advance_ord _ (r.length - 2) Highlight_Type.string h1.1).1).1
  · exact (emit_and_advance_ord _ 1 Highlight_Type.string_delim h1.1).1

theorem expect_whitespace_ord (s : HState) (h : ord_inv s) :
    ord_inv (expect_whitespace s).2 := by
  unfold expect_whitespace
  exact advance_ord s _ h

theorem expect_line_comment_ord (s : HState) (h : ord_inv s) :
    ord_inv (expect_line_comment s).2 := by
  unfold expect_line_comment
  dsimp only
  split
  · exact highlight_line_comment_ord s _ h
  · exact h

theorem expect_block_comment_ord (s : HState) (h : ord_inv s) :
    ord_inv (expect_block_comment s).2 := by
  unfold expect_block_comment
  dsimp only
  split
  · next hne => exact highlight_block_comment_ord s _ (match_block_comment_wf _ hne) h
  · exact h

theorem expect_string_literal_ord (s : HState) (h : ord_inv s) :
    ord_inv (expect_string_literal s).2 := by
  unfold expect_string_literal
  dsimp only
  split
  · exact highlight_string_literal_ord s _ h
  · exact h

theorem expect_regex_ord (s : HState) (h : ord_inv s) : ord_inv (expect_regex s).2 := by
  unfold expect_regex
  dsimp only
  split
  · exact h
  · split
    · split
      · exact (emit_and_advance_ord _ _ Highlight_Type.string h).1
      · exact h
    · exact h

theorem expect_numeric_literal_ord (s : HState) (h : ord_inv s) :
    ord_inv (expect_numeric_literal s).2 := by
  unfold expect_numeric_literal
  dsimp only
  split
  · exact h
  · exact (emit_and_advance_ord _ _ _ h).1

theorem expect_private_identifier_ord (s : HState) (h : ord_inv s) :
    ord_inv (expect_private_identifier s).2 := by
  unfold expect_private_identifier
  dsimp only
  split
  · exact (emit_and_advance_ord _ _ Highlight_Type.id h).1
  · exact h

theorem expect_symbols_ord (s : HState) (h : ord_inv s) : ord_inv (expect_symbols s).2 := by
  obtain ⟨hc, hi⟩ := h
  unfold expect_symbols
  dsimp only
  split
  · exact ⟨hc, hi⟩
  · unfold ord_inv
    rcases hkw : js_token_type_by_code (String.mk ((remainder s).take
        (match_identifier (remainder s)))) with _ | t <;> dsimp only
    · have he := emit_ord s s.index (match_identifier (remainder s)) Highlight_Type.id hc hi
      refine ⟨he.1, ?_⟩
      rw [he.2, emit_index]
    · have he := emit_ord s s.index (match_identifier (remainder s))
        (js_token_type_highlight t) hc hi
      refine ⟨he.1, ?_⟩
      rw [he.2, emit_index]

theorem expect_operator_or_punctuation_ord (s : HState) (h : ord_inv s) :
    ord_inv (expect_operator_or_punctuation s).2 := by
  unfold expect_operator_or_punctuation
  rcases match_operator_or_punctuation (remainder s) with _ | sp
  · exact h
  · exact (emit_and_advance_ord _ _ _ h).1

theorem good_append {a b : List JSX_Event} (ha : ∀ e ∈ a, good_event e)
    (hb : ∀ e ∈ b, good_event e) : ∀ e ∈ a ++ b, good_event e := by
  intro e he
  rcases List.mem_append.mp he with h | h
  · exact ha e h
  · exact hb e h

theorem good_single (e0 : JSX_Event) (h0 : good_event e0) : ∀ e ∈ [e0], good_event e := by
  intro e he
  rw [List.mem_singleton.mp he]
  exact h0

theorem good_pair (e0 e1 : JSX_Event) (h0 : good_event e0) (h1 : good_event e1) :
    ∀ e ∈ [e0, e1], good_event e := by
  intro e he
  rcases List.mem_cons.mp he with h | h
  · rw [h]
    exact h0
  · rw [List.mem_singleton.mp h]
    exact h1

theorem wsc_events_go_good :
    ∀ (fuel : Nat) (str : List Char), ∀ e ∈ (wsc_events_go fuel str).1, good_event e := by
  intro fuel
  induction fuel with
  | zero =>
    intro str e he
    simp [wsc_events_go] at he
  | succ fuel ih =>
    intro str e he
    rw [wsc_events_go] at he
    by_cases h0 : str = []
    · rw [if_pos h0] at he
      simp at he
    · rw [if_neg h0] at he
      try dsimp only at he
      by_cases hw : match_whitespace str ≠ 0
      · rw [if_pos hw] at he
        rcases hgo : wsc_events_go fuel (str.drop (match_whitespace str)) with ⟨evs, n⟩
        rw [hgo] at he
        try dsimp only at he
        rcases List.mem_cons.mp he with h | h
        · subst h
          trivial
        · exact ih _ e (by rw [hgo]; exact h)
      · rw [if_neg hw] at he
        try dsimp only at he
        by_cases hb : (match_block_comment str).length ≠ 0
        · rw [if_pos hb] at he
          rcases hgo : wsc_events_go fuel (str.drop (match_block_comment str).length) with
            ⟨evs, n⟩
          rw [hgo] at he
          try dsimp only at he
          rcases List.mem_cons.mp he with h | h
          · subst h
            exact match_block_comment_wf str hb
          · exact ih _ e (by rw [hgo]; exact h)
        · rw [if_neg hb] at he
          try dsimp only at he
          by_cases hl : match_line_comment str ≠ 0
          · rw [if_pos hl] at he
            rcases hgo : wsc_events_go fuel (str.drop (match_line_comment str)) with ⟨evs, n⟩
            rw [hgo] at he
            try dsimp only at he
            rcases List.mem_cons.mp he with h | h
            · subst h
              trivial
            · exact ih _ e (by rw [hgo]; exact h)
          · rw [if_neg hl] at he
            simp at he

theorem wsc_events_good (str : List Char) : ∀ e ∈ (wsc_events str).1, good_event e :=
  wsc_events_go_good _ _

theorem jsx_attr_loop_good :
    ∀ (fuel : Nat) (str : List Char) (closing : Bool) (acc : List JSX_Event),
      (∀ e0 ∈ acc, good_event e0) →
      ∀ e0 ∈ (jsx_attr_loop str closing acc fuel).1, good_event e0 := by
  intro fuel
  induction fuel with
  | zero =>
    intro str closing acc hacc e0 he
    exact hacc e0 he
  | succ fuel ih =>
    intro str closing acc hacc e0 he
    rw [jsx_attr_loop] at he
    dsimp only at he
    have hg1 : ∀ e1 ∈ acc ++ (wsc_events str).1, good_event e1 :=
      good_append hacc (wsc_events_good str)
    split at he
    · exact hacc e0 he
    · split at he
      · exact good_append hg1 (good_single _ (by trivial)) e0 he
      · split at he
        · split at he
          · exact hg1 e0 he
          · exact good_append hg1 (good_pair _ _ (by trivial) (by trivial)) e0 he
        · split at he
          · split at he
            · exact ih _ _ _ (good_append hg1 (good_single _ (by trivial)))
                e0 he
            · exact hg1 e0 he
          · split at he
            · split at he
              · split at he
                · exact ih _ _ _ (good_append (good_append (good_append (good_append
                    (good_append hg1 (good_single _ (by trivial))) (wsc_events_good _))
                    (good_single _ (by trivial))) (wsc_events_good _))
                    (good_single _ (by trivial))) e0 he
                · split at he
                  · split at he
                    · exact ih _ _ _ (good_append (good_append (good_append (good_append
                        (good_append hg1 (good_single _ (by trivial))) (wsc_events_good _))
                        (good_single _ (by trivial))) (wsc_events_good _))
                        (good_single _ (by trivial))) e0 he
                    · exact good_append (good_append (good_append (good_append hg1
                        (good_single _ (by trivial))) (wsc_events_good _))
                        (good_single _ (by trivial))) (wsc_events_good _) e0 he
                  · exact good_append (good_append (good_append (good_append hg1
                      (good_single _ (by trivial))) (wsc_events_good _))
                      (good_single _ (by trivial))) (wsc_events_good _) e0 he
              · exact ih _ _ _ (good_append (good_append hg1 (good_single _ (by trivial)))
                  (wsc_events_good _)) e0 he
            · exact hg1 e0 he

theorem jsx_tag_after_slash_good (str : List Char) (closing : Bool) (acc : List JSX_Event)
    (hacc : ∀ e0 ∈ acc, good_event e0) :
    ∀ e0 ∈ (jsx_tag_after_slash str closing acc).1, good_event e0 := by
  unfold jsx_tag_after_slash
  dsimp only
  split
  · exact jsx_attr_loop_good _ _ _ _
      (good_append hacc (good_single _ (by trivial)))
  · exact jsx_attr_loop_good _ _ _ _ hacc

theorem match_jsx_tag_events_good (str : List Char) (nc : Bool) :
    ∀ e0 ∈ (match_jsx_tag_events str nc).1, good_event e0 := by
  unfold match_jsx_tag_events
  dsimp only
  split
  · have hg1 : ∀ e1 ∈ [JSX_Event.opening_symbol] ++ (wsc_events (str.drop 1)).1,
        good_event e1 :=
      good_append (good_single _ (by trivial)) (wsc_events_good _)
    split
    · exact good_append hg1 (good_single _ (by trivial))
    · split
      · split
        · exact hg1
        · have hg2 : ∀ e1 ∈ ([JSX_Event.opening_symbol] ++ (wsc_events (str.drop 1)).1 ++
              [JSX_Event.closing_symbol]) ++
              (wsc_events (((str.drop 1).drop (wsc_events (str.drop 1)).2).drop 1)).1,
              good_event e1 :=
            good_append (good_append hg1 (good_single _ (by trivial)))
              (wsc_events_good _)
          split
          · exact good_append hg2 (good_single _ (by trivial))
          · exact jsx_tag_after_slash_good _ _ _ hg2
      · exact jsx_tag_after_slash_good _ _ _ hg1
  · intro e0 he
    simp at he

theorem records_ordered_rev_aux :
    ∀ (l acc : List Token), rev_chained l = true →
      (∀ a, acc.head? = some a → headEnd l ≤ a.begin_idx) →
      records_ordered acc = true →
      records_ordered (l.reverse ++ acc) = true := by
  intro l
  induction l with
  | nil =>
    intro acc h1 h2 h3
    simpa using h3
  | cons t rest ih =>
    intro acc h1 h2 h3
    rw [rev_chained_cons, Bool.and_eq_true, decide_eq_true_eq] at h1
    have hstep : records_ordered (t :: acc) = true := by
      cases acc with
      | nil => rfl
      | cons a acc2 =>
        have hta : t.begin_idx + t.length ≤ a.begin_idx := by
          have := h2 a rfl
          rw [headEnd_cons] at this
          exact this
        rw [records_ordered, Bool.and_eq_true, decide_eq_true_eq]
        exact ⟨hta, h3⟩
    have hmain := ih (t :: acc) h1.2
      (fun a ha => by
        simp only [List.head?_cons, Option.some.injEq] at ha
        rw [← ha]
        exact h1.1) hstep
    rw [List.reverse_cons, List.append_assoc]
    simpa using hmain

theorem records_ordered_of_rev_chained (l : List Token) (h : rev_chained l = true) :
    records_ordered l.reverse = true := by
  have hmain := records_ordered_rev_aux l [] h (by intro a ha; simp at ha) rfl
  simpa using hmain

set_option maxHeartbeats 2000000 in
theorem runHL_ord (fuel : Nat) :
    ∀ (c : HCall) (b : Bool) (s' : HState), runHL fuel c = some (b, s') →
      ord_pre c → good_call c → ord_inv s' := by
  induction fuel with
  | zero =>
    intro c b s' h _ _
    simp [runHL] at h
  | succ fuel ih =>
    intro c b s' h hpre hgood
    cases c with
    | main s =>
      simp only [runHL] at h
      dsimp only [ord_pre, call_state] at hpre
      split at h
      · rcases hd : runHL fuel (HCall.dispatch s) with _ | ⟨bd, sd⟩ <;> rw [hd] at h
        · simp at h
        · dsimp only at h
          have h1 := ih _ _ _ hd hpre True.intro
          exact ih _ _ _ h h1 True.intro
      · cases h
        exact hpre
    | dispatch s =>
      simp only [runHL] at h
      try dsimp only at h
      dsimp only [ord_pre, call_state] at hpre
      have how := expect_whitespace_ord s hpre
      have hk : ∀ (sk : HState) (b2 : Bool) (s2 : HState), ord_inv sk →
          (match runHL fuel (HCall.chain sk) with
            | some (true, s4) => some (true, s4)
            | some (false, s4) => some (true, consume_error s4)
            | none => none) = some (b2, s2) → ord_inv s2 := by
        intro sk b2 s2 hsk hm
        rcases hc2 : runHL fuel (HCall.chain sk) with _ | ⟨bc, s4⟩ <;> rw [hc2] at hm
        · simp at hm
        · have h1 := ih _ _ _ hc2 hsk True.intro
          cases bc
          · dsimp only at hm
            cases hm
            exact consume_error_ord s4 h1
          · dsimp only at hm
            cases hm
            exact h1
      split at h
      · cases h
        exact how
      · split at h
        · have hefs := expect_hashbang_comment_of_not_start
            { (expect_whitespace s).2 with at_start_of_file := false } rfl
          split at h
          · rename_i hstart hhb
            rw [hefs] at hhb
            simp at hhb
          · exact hk _ _ _ (by rw [hefs]; exact how) h
        · exact hk _ _ _ how h
    | chain s =>
      simp only [runHL] at h
      try dsimp only at h
      dsimp only [ord_pre, call_state] at hpre
      have o1 := expect_line_comment_ord s hpre
      split at h
      · cases h
        exact o1
      · have o2 := expect_block_comment_ord _ o1
        split at h
        · cases h
          exact o2
        · rcases hj : runHL fuel (HCall.jsxInJs (expect_block_comment
            (expect_line_comment s).2).2) with _ | ⟨b3, s3⟩ <;> rw [hj] at h
          · simp at h
          · have o3 := ih _ _ _ hj o2 True.intro
            try dsimp only at h
            split at h
            · cases h
              exact o3
            · have o4 := expect_string_literal_ord s3 o3
              split at h
              · cases h
                exact o4
              · rcases ht2 : runHL fuel (HCall.expectTemplate
                  (expect_string_literal s3).2) with _ | ⟨b5, s5⟩ <;> rw [ht2] at h
                · simp at h
                · have o5 := ih _ _ _ ht2 o4 True.intro
                  try dsimp only at h
                  split at h
                  · cases h
                    exact o5
                  · have o6 := expect_regex_ord s5 o5
                    split at h
                    · cases h
                      exact o6
                    · have o7 := expect_numeric_literal_ord _ o6
                      split at h
                      · cases h
                        exact o7
                      · have o8 := expect_private_identifier_ord _ o7
                        split at h
                        · cases h
                          exact o8
                        · have o9 := expect_symbols_ord _ o8
                          split at h
                          · cases h
                            exact o9
                          · have o10 := expect_operator_or_punctuation_ord _ o9
                            have hx := Option.some.inj h
                            have hs2 : (expect_operator_or_punctuation (expect_symbols
                                (expect_private_identifier (expect_numeric_literal
                                  (expect_regex s5).2).2).2).2).2 = s' := by rw [hx]
                            rw [← hs2]
                            exact o10
    | jsxInJs s =>
      simp only [runHL] at h
      try dsimp only at h
      dsimp only [ord_pre, call_state] at hpre
      split at h
      · cases h
        exact hpre
      · rcases htg : runHL fuel (HCall.tag s) with _ | ⟨bt, s1⟩ <;> rw [htg] at h
        · simp at h
        · have o1 := ih _ _ _ htg hpre True.intro
          try dsimp only at h
          split at h
          · rcases hch : runHL fuel (HCall.children 0 (remainder s1) s1) with
              _ | ⟨bc, s2⟩ <;> rw [hch] at h
            · simp at h
            · have o2 := ih _ _ _ hch o1 True.intro
              try dsimp only at h
              cases h
              exact o2
          · cases h
            exact o1
    | tag s =>
      simp only [runHL] at h
      dsimp only [ord_pre, call_state] at hpre
      exact ih _ _ _ h hpre (match_jsx_tag_events_good (remainder s) false)
    | events evs s =>
      dsimp only [ord_pre, call_state] at hpre
      cases evs with
      | nil =>
        simp only [runHL] at h
        cases h
        exact hpre
      | cons e rest =>
        simp only [runHL] at h
        have hrest : ∀ e1 ∈ rest, good_event e1 :=
          fun e1 he1 => hgood e1 (List.mem_cons_of_mem _ he1)
        cases e with
        | ws n => exact ih _ _ _ h (advance_ord s n hpre) hrest
        | block_comment r =>
          exact ih _ _ _ h (highlight_block_comment_ord s r
            (hgood _ (List.mem_cons_self _ _)) hpre) hrest
        | line_comment n =>
          exact ih _ _ _ h (highlight_line_comment_ord s n hpre) hrest
        | opening_symbol =>
          exact ih _ _ _ h (emit_and_advance_ord s 1 Highlight_Type.sym_punc hpre).1 hrest
        | closing_symbol =>
          exact ih _ _ _ h (emit_and_advance_ord s 1 Highlight_Type.sym_punc hpre).1 hrest
        | element_name n =>
          exact ih _ _ _ h (emit_and_advance_ord s n Highlight_Type.markup_tag hpre).1 hrest
        | attribute_name n =>
          exact ih _ _ _ h (emit_and_advance_ord s n Highlight_Type.markup_tag hpre).1 hrest
        | attribute_equals =>
          exact ih _ _ _ h (emit_and_advance_ord s 1 Highlight_Type.sym_punc hpre).1 hrest
        | string_lit r =>
          exact ih _ _ _ h (highlight_string_literal_ord s r hpre) hrest
        | braced bb =>
          dsimp only at h
          rcases hbr : runHL fuel (HCall.braced bb s) with _ | ⟨b1, s1⟩ <;> rw [hbr] at h
          · simp at h
          · dsimp only at h
            have o1 := ih _ _ _ hbr hpre True.intro
            exact ih _ _ _ h o1 hrest
    | braced bb s =>
      simp only [runHL] at h
      try dsimp only at h
      dsimp only [ord_pre, call_state] at hpre
      rcases hterm : bb.is_terminated <;> simp only [hterm] at h <;>
        simp only [Bool.false_eq_true, if_false, if_true, ite_true, ite_false] at h <;>
        split at h
      case false.isTrue =>
        rcases hcj : runHL fuel (HCall.consumeJs 0
          (emit_and_advance s 1 Highlight_Type.sym_brace)) with _ | ⟨bc, s2⟩ <;> rw [hcj] at h
        · simp at h
        · try dsimp only at h
          cases h
          exact ih _ _ _ hcj (emit_and_advance_ord s 1 Highlight_Type.sym_brace hpre).1
            True.intro
      case false.isFalse =>
        cases h
        exact (emit_and_advance_ord s 1 Highlight_Type.sym_brace hpre).1
      case true.isTrue =>
        rcases hcj : runHL fuel (HCall.consumeJs 0
          (emit_and_advance s 1 Highlight_Type.sym_brace)) with _ | ⟨bc, s2⟩ <;> rw [hcj] at h
        · simp at h
        · try dsimp only at h
          cases h
          have o2 := ih _ _ _ hcj (emit_and_advance_ord s 1 Highlight_Type.sym_brace hpre).1
            True.intro
          exact (emit_and_advance_ord s2 1 Highlight_Type.sym_brace o2).1
      case true.isFalse =>
        cases h
        exact (emit_and_advance_ord (emit_and_advance s 1 Highlight_Type.sym_brace) 1
          Highlight_Type.sym_brace (emit_and_advance_ord s 1 Highlight_Type.sym_brace
            hpre).1).1
    | consumeJs level s =>
      simp only [runHL] at h
      try dsimp only at h
      dsimp only [ord_pre, call_state] at hpre
      split at h
      · split at h
        · exact ih _ _ _ h (emit_and_advance_ord s 1 Highlight_Type.sym_brace hpre).1
            True.intro
        · split at h
          · split at h
            · cases h
              exact hpre
            · exact ih _ _ _ h (emit_and_advance_ord s 1 Highlight_Type.sym_brace hpre).1
                True.intro
          · split at h
            · exact ih _ _ _ h (expect_whitespace_ord s hpre) True.intro
            · rcases hc2 : runHL fuel (HCall.chain (expect_whitespace s).2) with
                _ | ⟨bc, s2⟩ <;> rw [hc2] at h
              · simp at h
              · have o1 := ih _ _ _ hc2 (expect_whitespace_ord s hpre) True.intro
                cases bc
                · dsimp only at h
                  exact ih _ _ _ h (consume_error_ord s2 o1) True.intro
                · dsimp only at h
                  exact ih _ _ _ h o1 True.intro
      · cases h
        exact hpre
    | expectTemplate s =>
      simp only [runHL] at h
      try dsimp only at h
      dsimp only [ord_pre, call_state] at hpre
      split at h
      · rcases ht2 : runHL fuel (HCall.template s) with _ | ⟨bt, s1⟩ <;> rw [ht2] at h
        · simp at h
        · dsimp only at h
          cases h
          exact ih _ _ _ ht2 hpre True.intro
      · cases h
        exact hpre
    | template s =>
      simp only [runHL] at h
      dsimp only [ord_pre, call_state] at hpre
      have o1 := emit_and_advance_ord s 1 Highlight_Type.string_delim hpre
      refine ih _ _ _ h ⟨o1.1.1, ?_⟩ True.intro
      have := o1.1.2
      omega
    | templateLoop chars s =>
      simp only [runHL] at h
      try dsimp only at h
      dsimp only [ord_pre] at hpre
      split at h
      · split at h
        · cases h
          exact (emit_and_advance_ord _ 1 Highlight_Type.string_delim
            (template_flush_ord chars s hpre.1 hpre.2).1).1
        · split at h
          · split at h
            · rcases hcj : runHL fuel (HCall.consumeJs 0
                (emit_and_advance (template_flush chars s) 2 Highlight_Type.escape)) with
                _ | ⟨bc, s2⟩ <;> rw [hcj] at h
              · simp at h
              · dsimp only at h
                have o1 := emit_and_advance_ord (template_flush chars s) 2
                  Highlight_Type.escape (template_flush_ord chars s hpre.1 hpre.2).1
                have o2 := ih _ _ _ hcj o1.1 True.intro
                split at h
                · have o3 := emit_and_advance_ord s2 1 Highlight_Type.escape o2
                  refine ih _ _ _ h ⟨o3.1.1, ?_⟩ True.intro
                  have := o3.1.2
                  omega
                · refine ih _ _ _ h ⟨o2.1, ?_⟩ True.intro
                  have := o2.2
                  omega
            · refine ih _ _ _ h ⟨hpre.1, ?_⟩ True.intro
              simp only [advance]
              have := hpre.2
              omega
          · split at h
            · split at h
              · have oflush := template_flush_ord chars s hpre.1 hpre.2
                have o1 := emit_and_advance_ord (template_flush chars s) 1
                  Highlight_Type.escape oflush.1
                refine ih _ _ _ h ⟨o1.1.1, ?_⟩ True.intro
                simp only [advance]
                have ha := o1.2.1
                have hb := o1.2.2
                omega
              · refine ih _ _ _ h ⟨hpre.1, ?_⟩ True.intro
                simp only [advance]
                have := hpre.2
                omega
            · refine ih _ _ _ h ⟨hpre.1, ?_⟩ True.intro
              simp only [advance]
              have := hpre.2
              omega
      · cases h
        exact (template_flush_ord chars s hpre.1 hpre.2).1
    | children depth rem s =>
      simp only [runHL] at h
      try dsimp only at h
      dsimp only [ord_pre, call_state] at hpre
      split at h
      · cases h
        exact hpre
      · split at h
        · cases h
          exact advance_ord s _ hpre
        · have hcomp : ∀ (nm : Nat) (t : Highlight_Type) (dd : Nat) (rr : List Char),
              runHL fuel (HCall.children dd rr
                (emit_and_advance (advance s (rem.findIdx fun ch =>
                  ch = '&' || ch = lbrace || ch = rbrace || ch = '<' || ch = '>')) nm t))
                = some (b, s') → ord_inv s' := by
            intro nm t dd rr hx
            exact ih _ _ _ hx (emit_and_advance_ord _ nm t (advance_ord s _ hpre)).1
              True.intro
          have hadv : ∀ (k2 : Nat) (dd : Nat) (rr : List Char),
              runHL fuel (HCall.children dd rr
                (advance (advance s (rem.findIdx fun ch =>
                  ch = '&' || ch = lbrace || ch = rbrace || ch = '<' || ch = '>')) k2))
                = some (b, s') → ord_inv s' := by
            intro k2 dd rr hx
            exact ih _ _ _ hx (advance_ord _ k2 (advance_ord s _ hpre)) True.intro
          split at h
          · split at h
            · exact hcomp _ _ _ _ h
            · exact hadv _ _ _ h
          · split at h
            · split at h
              · exact hcomp _ _ _ _ h
              · rcases htg : runHL fuel (HCall.tag (advance s (rem.findIdx fun ch =>
                  ch = '&' || ch = lbrace || ch = rbrace || ch = '<' || ch = '>'))) with
                  _ | ⟨bt, s1⟩ <;> rw [htg] at h
                · simp at h
                · have o1 := ih _ _ _ htg (advance_ord s _ hpre) True.intro
                  try dsimp only at h
                  split at h
                  · exact ih _ _ _ h o1 True.intro
                  · split at h
                    · split at h
                      · cases h
                        exact o1
                      · exact ih _ _ _ h o1 True.intro
                    · exact ih _ _ _ h o1 True.intro
            · split at h
              · exact hcomp _ _ _ _ h
              · split at h
                · split at h
                  · rcases hbr : runHL fuel (HCall.braced (match_jsx_braced (rem.drop
                      (rem.findIdx fun ch => ch = '&' || ch = lbrace || ch = rbrace ||
                        ch = '<' || ch = '>')))
                      (advance s (rem.findIdx fun ch => ch = '&' || ch = lbrace ||
                        ch = rbrace || ch = '<' || ch = '>'))) with _ | ⟨bb2, s1⟩ <;>
                      rw [hbr] at h
                    · simp at h
                    · try dsimp only at h
                      have o1 := ih _ _ _ hbr (advance_ord s _ hpre) True.intro
                      exact ih _ _ _ h o1 True.intro
                  · exact hcomp _ _ _ _ h
                · exact hcomp _ _ _ _ h

/-- C2 (corrected statement): for every finite input span the scan
terminates — some fuel completes the run — and the emitted records are
pairwise disjoint and monotone in emission order. (The claim's further
assertion that the records tile `[0, length(source))` with no gaps is
refuted by `claim2_tiling_counterexample`.) -/
theorem claim2_termination_and_order :
    ∀ (source : List Char) (coalescing : Bool), ∃ (fuel : Nat) (toks : List Token),
      highlight_javascript fuel source coalescing = some toks ∧
      records_ordered toks = true := by
  intro source coalescing
  obtain ⟨f, ⟨b, sfin⟩, hf⟩ := runHL_total (HCall.main (init_state source coalescing))
  refine ⟨f, sfin.out.reverse, ?_, ?_⟩
  · unfold highlight_javascript mainLoop
    rw [hf f (Nat.le_refl _)]
    rfl
  · have hor := runHL_ord f (HCall.main (init_state source coalescing)) b sfin
      (hf f (Nat.le_refl _)) ⟨rfl, Nat.le_refl 0⟩ True.intro
    exact records_ordered_of_rev_chained _ hor.1

/-! Coalescing refinement: a coalescing run and a non-coalescing run of the
same source stay in lock-step, and their outputs have the same per-position
expansion. -/

theorem expand_single (tok : Token) :
    expand [tok] = (List.range tok.length).map (fun k => (tok.begin_idx + k, tok.type)) := by
  simp [expand]

theorem expand_append (xs ys : List Token) :
    expand (xs ++ ys) = expand xs ++ expand ys := by
  simp [expand]

theorem expand_emit (s : HState) (p l : Nat) (t : Highlight_Type) :
    expand (emit s p l t).out.reverse =
      expand s.out.reverse ++ (List.range l).map (fun k => (p + k, t)) := by
  unfold emit
  rcases hout : s.out with _ | ⟨last, rest⟩ <;> dsimp only
  · simp [expand]
  · split
    · next hcond =>
      simp only [Bool.and_eq_true, decide_eq_true_eq] at hcond
      obtain ⟨⟨hco, hty⟩, hb⟩ := hcond
      rw [List.reverse_cons, List.reverse_cons, expand_append, expand_append,
        expand_single, expand_single]
      dsimp only
      rw [List.append_assoc]
      congr 1
      rw [List.range_add, List.map_append, List.map_map]
      congr 1
      apply List.map_congr_left
      intro k hk
      simp only [Function.comp_apply]
      exact Prod.ext (by omega) hty
    · rw [List.reverse_cons, expand_append, expand_single]

theorem srel_remainder {a b : HState} (h : srel a b) : remainder a = remainder b := by
  unfold remainder
  rw [h.1, h.2.1]

theorem srel_advance {a b : HState} (h : srel a b) (n : Nat) :
    srel (advance a n) (advance b n) := by
  obtain ⟨h1, h2, h3, h4, h5, h6, h7⟩ := h
  exact ⟨h1, by show _ + n = _ + n; rw [h2], h3, h4, h5, h6, h7⟩

theorem srel_emit {a b : HState} (h : srel a b) (p l : Nat) (t : Highlight_Type) :
    srel (emit a p l t) (emit b p l t) := by
  obtain ⟨h1, h2, h3, h4, h5, h6, h7⟩ := h
  refine ⟨?_, ?_, ?_, ?_, ?_, ?_, ?_⟩
  · rw [emit_source, emit_source, h1]
  · rw [emit_index, emit_index, h2]
  · rw [emit_can_be_regex, emit_can_be_regex, h3]
  · rw [emit_at_start, emit_at_start, h4]
  · rw [emit_coalescing, h5]
  · rw [emit_coalescing, h6]
  · rw [expand_emit, expand_emit, h7]

theorem srel_emit_and_advance {a b : HState} (h : srel a b) (l : Nat) (t : Highlight_Type) :
    srel (emit_and_advance a l t) (emit_and_advance b l t) := by
  unfold emit_and_advance
  have h2 := h.2.1
  rw [← h2]
  exact srel_advance (srel_emit h a.index l t) l

theorem srel_set_regex {a b : HState} (h : srel a b) (v : Bool) :
    srel { a with can_be_regex := v } { b with can_be_regex := v } :=
  ⟨h.1, h.2.1, rfl, h.2.2.2.1, h.2.2.2.2.1, h.2.2.2.2.2.1, h.2.2.2.2.2.2⟩

theorem srel_set_start {a b : HState} (h : srel a b) (v : Bool) :
    srel { a with at_start_of_file := v } { b with at_start_of_file := v } :=
  ⟨h.1, h.2.1, h.2.2.1, rfl, h.2.2.2.2.1, h.2.2.2.2.2.1, h.2.2.2.2.2.2⟩

theorem srel_set_index {a b : HState} (h : srel a b) (va vb : Nat) (hv : va = vb) :
    srel { a with index := va } { b with index := vb } :=
  ⟨h.1, hv, h.2.2.1, h.2.2.2.1, h.2.2.2.2.1, h.2.2.2.2.2.1, h.2.2.2.2.2.2⟩

theorem srel_consume_error {a b : HState} (h : srel a b) :
    srel (consume_error a) (consume_error b) := by
  unfold consume_error
  exact srel_set_regex (srel_emit_and_advance h 1 Highlight_Type.error) true

theorem srel_highlight_line_comment {a b : HState} (h : srel a b) (l : Nat) :
    srel (highlight_line_comment a l) (highlight_line_comment b l) := by
  unfold highlight_line_comment
  dsimp only
  by_cases hc : l > 2
  · simp only [if_pos hc]
    exact srel_set_regex (srel_emit_and_advance (srel_emit_and_advance h 2
      Highlight_Type.comment_delimiter) (l - 2) Highlight_Type.comment) true
  · simp only [if_neg hc]
    exact srel_set_regex (srel_emit_and_advance h 2 Highlight_Type.comment_delimiter) true

theorem srel_highlight_block_comment {a b : HState} (h : srel a b) (r : Comment_Result) :
    srel (highlight_block_comment a r) (highlight_block_comment b r) := by
  unfold highlight_block_comment
  dsimp only
  have h2 := h.2.1
  rw [← h2]
  by_cases hc : r.is_terminated = true
  · simp only [if_pos hc]
    exact srel_set_regex (srel_advance (srel_emit (srel_emit (srel_emit h _ _ _) _ _ _)
      _ _ _) _) true
  · simp only [if_neg hc]
    exact srel_set_regex (srel_advance (srel_emit (srel_emit h _ _ _) _ _ _) _) true

theorem srel_highlight_string_literal {a b : HState} (h : srel a b)
    (r : String_Literal_Result) :
    srel (highlight_string_literal a r) (highlight_string_literal b r) := by
  unfold highlight_string_literal
  dsimp only
  by_cases hc : r.length > 2
  · simp only [if_pos hc]
    exact srel_set_regex (srel_emit_and_advance (srel_emit_and_advance
      (srel_emit_and_advance h 1 Highlight_Type.string_delim) (r.length - 2)
        Highlight_Type.string) 1 Highlight_Type.string_delim) false
  · simp only [if_neg hc]
    exact srel_set_regex (srel_emit_and_advance (srel_emit_and_advance h 1
      Highlight_Type.string_delim) 1 Highlight_Type.string_delim) false

theorem srel_template_flush {a b : HState} (h : srel a b) (chars : Nat) :
    srel (template_flush chars a) (template_flush chars b) := by
  unfold template_flush
  by_cases hc : chars ≠ 0
  · simp only [if_pos hc]
    have h2 := h.2.1
    rw [← h2]
    exact srel_emit h _ _ _
  · simp only [if_neg hc]
    exact h

theorem srel_expect_whitespace {a b : HState} (h : srel a b) :
    (expect_whitespace a).1 = (expect_whitespace b).1 ∧
    srel (expect_whitespace a).2 (expect_whitespace b).2 := by
  unfold expect_whitespace
  dsimp only
  rw [srel_remainder h]
  exact ⟨rfl, srel_advance h _⟩

theorem srel_expect_line_comment {a b : HState} (h : srel a b) :
    (expect_line_comment a).1 = (expect_line_comment b).1 ∧
    srel (expect_line_comment a).2 (expect_line_comment b).2 := by
  unfold expect_line_comment
  dsimp only
  rw [srel_remainder h]
  split
  · exact ⟨rfl, srel_highlight_line_comment h _⟩
  · exact ⟨rfl, h⟩

theorem srel_expect_block_comment {a b : HState} (h : srel a b) :
    (expect_block_comment a).1 = (expect_block_comment b).1 ∧
    srel (expect_block_comment a).2 (expect_block_comment b).2 := by
  unfold expect_block_comment
  dsimp only
  rw [srel_remainder h]
  split
  · exact ⟨rfl, srel_highlight_block_comment h _⟩
  · exact ⟨rfl, h⟩

theorem srel_expect_string_literal {a b : HState} (h : srel a b) :
    (expect_string_literal a).1 = (expect_string_literal b).1 ∧
    srel (expect_string_literal a).2 (expect_string_literal b).2 := by
  unfold expect_string_literal
  dsimp only
  rw [srel_remainder h]
  split
  · exact ⟨rfl, srel_highlight_string_literal h _⟩
  · exact ⟨rfl, h⟩

theorem srel_expect_regex {a b : HState} (h : srel a b) :
    (expect_regex a).1 = (expect_regex b).1 ∧
    srel (expect_regex a).2 (expect_regex b).2 := by
  unfold expect_regex
  dsimp only
  rw [srel_remainder h, h.2.2.1]
  split
  · exact ⟨rfl, h⟩
  · split
    · split
      · exact ⟨rfl, srel_set_regex (srel_emit_and_advance h _ Highlight_Type.string) false⟩
      · exact ⟨rfl, h⟩
    · exact ⟨rfl, h⟩

theorem srel_expect_numeric_literal {a b : HState} (h : srel a b) :
    (expect_numeric_literal a).1 = (expect_numeric_literal b).1 ∧
    srel (expect_numeric_literal a).2 (expect_numeric_literal b).2 := by
  unfold expect_numeric_literal
  dsimp only
  rw [srel_remainder h]
  split
  · exact ⟨rfl, h⟩
  · exact ⟨rfl, srel_set_regex (srel_emit_and_advance h _ _) false⟩

theorem srel_expect_private_identifier {a b : HState} (h : srel a b) :
    (expect_private_identifier a).1 = (expect_private_identifier b).1 ∧
    srel (expect_private_identifier a).2 (expect_private_identifier b).2 := by
  unfold expect_private_identifier
  dsimp only
  rw [srel_remainder h]
  split
  · exact ⟨rfl, srel_set_regex (srel_emit_and_advance h _ Highlight_Type.id) false⟩
  · exact ⟨rfl, h⟩

theorem srel_expect_symbols {a b : HState} (h : srel a b) :
    (expect_symbols a).1 = (expect_symbols b).1 ∧
    srel (expect_symbols a).2 (expect_symbols b).2 := by
  have hrem := srel_remainder h
  obtain ⟨h1, h2, h3, h4, h5, h6, h7⟩ := h
  unfold expect_symbols
  dsimp only
  rw [hrem, ← h2]
  split
  · exact ⟨rfl, h1, h2, h3, h4, h5, h6, h7⟩
  · rcases hkw : js_token_type_by_code (String.mk ((remainder b).take
        (match_identifier (remainder b)))) with _ | t <;>
      dsimp only <;> refine ⟨rfl, ?_, ?_, rfl, ?_, ?_, ?_, ?_⟩
    · rw [emit_source, emit_source, h1]
    · rw [emit_index, emit_index, h2]
    · rw [emit_at_start, emit_at_start, h4]
    · rw [emit_coalescing]
      exact h5
    · rw [emit_coalescing]
      exact h6
    · rw [expand_emit, expand_emit, h7]
    · rw [emit_source, emit_source, h1]
    · rw [emit_index, emit_index, h2]
    · rw [emit_at_start, emit_at_start, h4]
    · rw [emit_coalescing]
      exact h5
    · rw [emit_coalescing]
      exact h6
    · rw [expand_emit, expand_emit, h7]

theorem srel_expect_operator_or_punctuation {a b : HState} (h : srel a b) :
    (expect_operator_or_punctuation a).1 = (expect_operator_or_punctuation b).1 ∧
    srel (expect_operator_or_punctuation a).2 (expect_operator_or_punctuation b).2 := by
  unfold expect_operator_or_punctuation
  rw [srel_remainder h]
  rcases match_operator_or_punctuation (remainder b) with _ | sp <;> dsimp only
  · exact ⟨rfl, h⟩
  · exact ⟨rfl, srel_set_regex (srel_emit_and_advance h _ _) _⟩

theorem bool_if_pos {α : Sort 1} {x y : α} : (if true = true then x else y) = x :=
  if_pos rfl

theorem bool_if_neg {α : Sort 1} {x y : α} : (if false = true then x else y) = y :=
  if_neg Bool.false_ne_true

set_option maxHeartbeats 3000000 in
theorem runHL_srel (fuel : Nat) :
    ∀ (c : HCall) (sc snc : HState), srel sc snc →
      (runHL fuel (set_state c sc) = none ∧ runHL fuel (set_state c snc) = none) ∨
      (∃ b2 sc2 snc2, runHL fuel (set_state c sc) = some (b2, sc2) ∧
        runHL fuel (set_state c snc) = some (b2, snc2) ∧ srel sc2 snc2) := by
  induction fuel with
  | zero =>
    intro c sc snc h
    exact Or.inl ⟨rfl, rfl⟩
  | succ fuel ih =>
    intro c sc snc h
    cases c with
    | main s0 =>
      dsimp only [set_state]
      simp only [runHL]
      rw [h.1, h.2.1]
      by_cases hidx : snc.index < snc.source.length
      · simp only [if_pos hidx]
        have hd := ih (HCall.dispatch sc) sc snc h
        dsimp only [set_state] at hd
        rcases hd with ⟨hn1, hn2⟩ | ⟨b2, sc2, snc2, e1, e2, hs2⟩
        · rw [hn1, hn2]
          exact Or.inl ⟨rfl, rfl⟩
        · rw [e1, e2]
          dsimp only
          have hm := ih (HCall.main sc) sc2 snc2 hs2
          dsimp only [set_state] at hm
          exact hm
      · simp only [if_neg hidx]
        exact Or.inr ⟨true, sc, snc, rfl, rfl, h⟩
    | dispatch s0 =>
      dsimp only [set_state]
      simp only [runHL]
      try dsimp only
      have hw := srel_expect_whitespace h
      have hk : ∀ (ska skb : HState), srel ska skb →
          ((match runHL fuel (HCall.chain ska) with
            | some (true, s4) => some (true, s4)
            | some (false, s4) => some (true, consume_error s4)
            | none => none) = none ∧
           (match runHL fuel (HCall.chain skb) with
            | some (true, s4) => some (true, s4)
            | some (false, s4) => some (true, consume_error s4)
            | none => none) = none) ∨
          (∃ b2 sc2 snc2,
            (match runHL fuel (HCall.chain ska) with
              | some (true, s4) => some (true, s4)
              | some (false, s4) => some (true, consume_error s4)
              | none => none) = some (b2, sc2) ∧
            (match runHL fuel (HCall.chain skb) with
              | some (true, s4) => some (true, s4)
              | some (false, s4) => some (true, consume_error s4)
              | none => none) = some (b2, snc2) ∧ srel sc2 snc2) := by
        intro ska skb hsk
        have hc := ih (HCall.chain ska) ska skb hsk
        dsimp only [set_state] at hc
        rcases hc with ⟨hn1, hn2⟩ | ⟨b2, s4a, s4b, e1, e2, hs4⟩
        · rw [hn1, hn2]
          exact Or.inl ⟨rfl, rfl⟩
        · rw [e1, e2]
          cases b2
          · dsimp only
            exact Or.inr ⟨true, _, _, rfl, rfl, srel_consume_error hs4⟩
          · dsimp only
            exact Or.inr ⟨true, _, _, rfl, rfl, hs4⟩
      rw [hw.1, hw.2.2.2.2.1]
      by_cases hb1 : (expect_whitespace snc).1 = true
      · simp only [if_pos hb1]
        exact Or.inr ⟨true, _, _, rfl, rfl, hw.2⟩
      · simp only [if_neg hb1]
        by_cases hst : (expect_whitespace snc).2.at_start_of_file = true
        · simp only [if_pos hst]
          have hefa := expect_hashbang_comment_of_not_start
            { (expect_whitespace sc).2 with at_start_of_file := false } rfl
          have hefb := expect_hashbang_comment_of_not_start
            { (expect_whitespace snc).2 with at_start_of_file := false } rfl
          dsimp only at hefa hefb
          rw [hefa, hefb]
          dsimp only
          simp only [bool_if_neg]
          exact hk _ _ (srel_set_start hw.2 false)
        · simp only [if_neg hst]
          exact hk _ _ hw.2
    | chain s0 =>
      dsimp only [set_state]
      simp only [runHL]
      try dsimp only
      have q1 := srel_expect_line_comment h
      rw [q1.1]
      by_cases hb1 : (expect_line_comment snc).1 = true
      · simp only [if_pos hb1]
        exact Or.inr ⟨true, _, _, rfl, rfl, q1.2⟩
      · simp only [if_neg hb1]
        have q2 := srel_expect_block_comment q1.2
        rw [q2.1]
        by_cases hb2 : (expect_block_comment (expect_line_comment snc).2).1 = true
        · simp only [if_pos hb2]
          exact Or.inr ⟨true, _, _, rfl, rfl, q2.2⟩
        · simp only [if_neg hb2]
          have hjj := ih (HCall.jsxInJs sc) _ _ q2.2
          dsimp only [set_state] at hjj
          rcases hjj with ⟨hn1, hn2⟩ | ⟨b3, s3a, s3b, e1, e2, hs3⟩
          · rw [hn1, hn2]
            exact Or.inl ⟨rfl, rfl⟩
          · rw [e1, e2]
            dsimp only
            cases b3
            · simp only [bool_if_neg]
              have q4 := srel_expect_string_literal hs3
              rw [q4.1]
              by_cases hb4 : (expect_string_literal s3b).1 = true
              · simp only [if_pos hb4]
                exact Or.inr ⟨true, _, _, rfl, rfl, q4.2⟩
              · simp only [if_neg hb4]
                have het := ih (HCall.expectTemplate sc) _ _ q4.2
                dsimp only [set_state] at het
                rcases het with ⟨hn1, hn2⟩ | ⟨b5, s5a, s5b, f1, f2, hs5⟩
                · rw [hn1, hn2]
                  exact Or.inl ⟨rfl, rfl⟩
                · rw [f1, f2]
                  dsimp only
                  cases b5
                  · simp only [bool_if_neg]
                    have q6 := srel_expect_regex hs5
                    rw [q6.1]
                    by_cases hb6 : (expect_regex s5b).1 = true
                    · simp only [if_pos hb6]
                      exact Or.inr ⟨true, _, _, rfl, rfl, q6.2⟩
                    · simp only [if_neg hb6]
                      have q7 := srel_expect_numeric_literal q6.2
                      rw [q7.1]
                      by_cases hb7 : (expect_numeric_literal (expect_regex s5b).2).1 = true
                      · simp only [if_pos hb7]
                        exact Or.inr ⟨true, _, _, rfl, rfl, q7.2⟩
                      · simp only [if_neg hb7]
                        have q8 := srel_expect_private_identifier q7.2
                        rw [q8.1]
                        by_cases hb8 : (expect_private_identifier
                            (expect_numeric_literal (expect_regex s5b).2).2).1 = true
                        · simp only [if_pos hb8]
                          exact Or.inr ⟨true, _, _, rfl, rfl, q8.2⟩
                        · simp only [if_neg hb8]
                          have q9 := srel_expect_symbols q8.2
                          rw [q9.1]
                          by_cases hb9 : (expect_symbols (expect_private_identifier
                              (expect_numeric_literal (expect_regex s5b).2).2).2).1 = true
                          · simp only [if_pos hb9]
                            exact Or.inr ⟨true, _, _, rfl, rfl, q9.2⟩
                          · simp only [if_neg hb9]
                            have q10 := srel_expect_operator_or_punctuation q9.2
                            refine Or.inr ⟨(expect_operator_or_punctuation (expect_symbols
                              (expect_private_identifier (expect_numeric_literal
                                (expect_regex s5b).2).2).2).2).1,
                              (expect_operator_or_punctuation (expect_symbols
                                (expect_private_identifier (expect_numeric_literal
                                  (expect_regex s5a).2).2).2).2).2,
                              (expect_operator_or_punctuation (expect_symbols
                                (expect_private_identifier (expect_numeric_literal
                                  (expect_regex s5b).2).2).2).2).2, ?_, ?_, q10.2⟩
                            · rw [← q10.1]
                            · rfl
                  · simp only [bool_if_pos]
                    exact Or.inr ⟨true, _, _, rfl, rfl, hs5⟩
            · simp only [bool_if_pos]
              exact Or.inr ⟨true, _, _, rfl, rfl, hs3⟩
    | jsxInJs s0 =>
      dsimp only [set_state]
      simp only [runHL]
      try dsimp only
      rw [srel_remainder h]
      by_cases hop : (match_jsx_tag_impl (remainder snc) true).length = 0
      · simp only [if_pos hop]
        exact Or.inr ⟨false, _, _, rfl, rfl, h⟩
      · simp only [if_neg hop]
        have htag := ih (HCall.tag sc) _ _ h
        dsimp only [set_state] at htag
        rcases htag with ⟨hn1, hn2⟩ | ⟨bt, s1a, s1b, e1, e2, hs1⟩
        · rw [hn1, hn2]
          exact Or.inl ⟨rfl, rfl⟩
        · rw [e1, e2]
          dsimp only
          by_cases hsc2 : (match_jsx_tag_impl (remainder snc) true).type ≠
              JSX_Type.self_closing
          · simp only [if_pos hsc2]
            rw [← srel_remainder hs1]
            have hch := ih (HCall.children 0 (remainder s1a) sc) _ _ hs1
            dsimp only [set_state] at hch
            rcases hch with ⟨hn1, hn2⟩ | ⟨bc, s2a, s2b, f1, f2, hs2⟩
            · rw [hn1, hn2]
              exact Or.inl ⟨rfl, rfl⟩
            · rw [f1, f2]
              dsimp only
              exact Or.inr ⟨true, _, _, rfl, rfl, srel_set_regex hs2 true⟩
          · simp only [if_neg hsc2]
            exact Or.inr ⟨true, _, _, rfl, rfl, srel_set_regex hs1 true⟩
    | tag s0 =>
      dsimp only [set_state]
      simp only [runHL]
      rw [srel_remainder h]
      have := ih (HCall.events (match_jsx_tag_events (remainder snc) false).1 sc) sc snc h
      dsimp only [set_state] at this
      exact this
    | events evs s0 =>
      dsimp only [set_state]
      cases evs with
      | nil =>
        simp only [runHL]
        exact Or.inr ⟨true, sc, snc, rfl, rfl, h⟩
      | cons e rest =>
        simp only [runHL]
        cases e with
        | ws n =>
          have := ih (HCall.events rest sc) _ _ (srel_advance h n)
          dsimp only [set_state] at this
          exact this
        | block_comment r =>
          have := ih (HCall.events rest sc) _ _ (srel_highlight_block_comment h r)
          dsimp only [set_state] at this
          exact this
        | line_comment n =>
          have := ih (HCall.events rest sc) _ _ (srel_highlight_line_comment h n)
          dsimp only [set_state] at this
          exact this
        | opening_symbol =>
          have := ih (HCall.events rest sc) _ _
            (srel_emit_and_advance h 1 Highlight_Type.sym_punc)
          dsimp only [set_state] at this
          exact this
        | closing_symbol =>
          have := ih (HCall.events rest sc) _ _
            (srel_emit_and_advance h 1 Highlight_Type.sym_punc)
          dsimp only [set_state] at this
          exact this
        | element_name n =>
          have := ih (HCall.events rest sc) _ _
            (srel_emit_and_advance h n Highlight_Type.markup_tag)
          dsimp only [set_state] at this
          exact this
        | attribute_name n =>
          have := ih (HCall.events rest sc) _ _
            (srel_emit_and_advance h n Highlight_Type.markup_tag)
          dsimp only [set_state] at this
          exact this
        | attribute_equals =>
          have := ih (HCall.events rest sc) _ _
            (srel_emit_and_advance h 1 Highlight_Type.sym_punc)
          dsimp only [set_state] at this
          exact this
        | string_lit r =>
          have := ih (HCall.events rest sc) _ _ (srel_highlight_string_literal h r)
          dsimp only [set_state] at this
          exact this
        | braced bb =>
          dsimp only
          have hbb := ih (HCall.braced bb sc) _ _ h
          dsimp only [set_state] at hbb
          rcases hbb with ⟨hn1, hn2⟩ | ⟨b1, s1a, s1b, e1, e2, hs1⟩
          · rw [hn1, hn2]
            exact Or.inl ⟨rfl, rfl⟩
          · rw [e1, e2]
            dsimp only
            have := ih (HCall.events rest sc) _ _ hs1
            dsimp only [set_state] at this
            exact this
    | braced bb s0 =>
      dsimp only [set_state]
      simp only [runHL]
      try dsimp only
      by_cases hjs : bb.length - (if bb.is_terminated = true then 2 else 1) ≠ 0
      · simp only [if_pos hjs]
        have hb1 := srel_emit_and_advance h 1 Highlight_Type.sym_brace
        have hcj := ih (HCall.consumeJs 0 sc) _ _ hb1
        dsimp only [set_state] at hcj
        rcases hcj with ⟨hn1, hn2⟩ | ⟨bc, s2a, s2b, e1, e2, hs2⟩
        · rw [hn1, hn2]
          exact Or.inl ⟨rfl, rfl⟩
        · rw [e1, e2]
          dsimp only
          rcases hterm : bb.is_terminated
          · simp only [hterm, bool_if_neg]
            exact Or.inr ⟨true, _, _, rfl, rfl, hs2⟩
          · simp only [hterm, bool_if_pos]
            exact Or.inr ⟨true, _, _, rfl, rfl,
              srel_emit_and_advance hs2 1 Highlight_Type.sym_brace⟩
      · simp only [if_neg hjs]
        rcases hterm : bb.is_terminated
        · simp only [hterm, bool_if_neg]
          exact Or.inr ⟨true, _, _, rfl, rfl,
            srel_emit_and_advance h 1 Highlight_Type.sym_brace⟩
        · simp only [hterm, bool_if_pos]
          exact Or.inr ⟨true, _, _, rfl, rfl, srel_emit_and_advance
            (srel_emit_and_advance h 1 Highlight_Type.sym_brace) 1
              Highlight_Type.sym_brace⟩
    | consumeJs level s0 =>
      dsimp only [set_state]
      simp only [runHL]
      try dsimp only
      rw [h.1, h.2.1]
      by_cases hidx : snc.index < snc.source.length
      · simp only [if_pos hidx]
        by_cases hc1 : snc.source.getD snc.index junk_byte = lbrace
        · simp only [if_pos hc1]
          have := ih (HCall.consumeJs (level + 1) sc) _ _
            (srel_emit_and_advance h 1 Highlight_Type.sym_brace)
          dsimp only [set_state] at this
          exact this
        · simp only [if_neg hc1]
          by_cases hc2 : snc.source.getD snc.index junk_byte = rbrace
          · simp only [if_pos hc2]
            by_cases hlev : level = 0
            · simp only [if_pos hlev]
              exact Or.inr ⟨true, sc, snc, rfl, rfl, h⟩
            · simp only [if_neg hlev]
              have := ih (HCall.consumeJs (level - 1) sc) _ _
                (srel_emit_and_advance h 1 Highlight_Type.sym_brace)
              dsimp only [set_state] at this
              exact this
          · simp only [if_neg hc2]
            have hwcs := srel_expect_whitespace h
            rw [hwcs.1]
            by_cases hwb : (expect_whitespace snc).1 = true
            · simp only [if_pos hwb]
              have := ih (HCall.consumeJs level sc) _ _ hwcs.2
              dsimp only [set_state] at this
              exact this
            · simp only [if_neg hwb]
              have hch := ih (HCall.chain sc) _ _ hwcs.2
              dsimp only [set_state] at hch
              rcases hch with ⟨hn1, hn2⟩ | ⟨bc, s2a, s2b, e1, e2, hs2⟩
              · rw [hn1, hn2]
                exact Or.inl ⟨rfl, rfl⟩
              · rw [e1, e2]
                cases bc
                · dsimp only
                  have := ih (HCall.consumeJs level sc) _ _ (srel_consume_error hs2)
                  dsimp only [set_state] at this
                  exact this
                · dsimp only
                  have := ih (HCall.consumeJs level sc) _ _ hs2
                  dsimp only [set_state] at this
                  exact this
      · simp only [if_neg hidx]
        exact Or.inr ⟨true, sc, snc, rfl, rfl, h⟩
    | expectTemplate s0 =>
      dsimp only [set_state]
      simp only [runHL]
      try dsimp only
      rw [srel_remainder h]
      by_cases hbt : (remainder snc).take 1 = [backtick]
      · simp only [if_pos hbt]
        have ht := ih (HCall.template sc) _ _ h
        dsimp only [set_state] at ht
        rcases ht with ⟨hn1, hn2⟩ | ⟨bt, s1a, s1b, e1, e2, hs1⟩
        · rw [hn1, hn2]
          exact Or.inl ⟨rfl, rfl⟩
        · rw [e1, e2]
          dsimp only
          exact Or.inr ⟨true, _, _, rfl, rfl, hs1⟩
      · simp only [if_neg hbt]
        exact Or.inr ⟨false, sc, snc, rfl, rfl, h⟩
    | template s0 =>
      dsimp only [set_state]
      simp only [runHL]
      have := ih (HCall.templateLoop 0 sc) _ _
        (srel_emit_and_advance h 1 Highlight_Type.string_delim)
      dsimp only [set_state] at this
      exact this
    | templateLoop chars s0 =>
      dsimp only [set_state]
      simp only [runHL]
      try dsimp only
      rw [h.1, h.2.1, srel_remainder h]
      by_cases hidx : snc.index < snc.source.length
      · simp only [if_pos hidx]
        by_cases hc1 : (remainder snc).getD 0 junk_byte = backtick
        · simp only [if_pos hc1]
          exact Or.inr ⟨true, _, _, rfl, rfl, srel_emit_and_advance
            (srel_template_flush h chars) 1 Highlight_Type.string_delim⟩
        · simp only [if_neg hc1]
          by_cases hc2 : (remainder snc).getD 0 junk_byte = '$'
          · simp only [if_pos hc2]
            by_cases hsub : (remainder snc).take 2 = ['$', lbrace]
            · simp only [if_pos hsub]
              have hcj := ih (HCall.consumeJs 0 sc) _ _ (srel_emit_and_advance
                (srel_template_flush h chars) 2 Highlight_Type.escape)
              dsimp only [set_state] at hcj
              rcases hcj with ⟨hn1, hn2⟩ | ⟨bc, s2a, s2b, e1, e2, hs2⟩
              · rw [hn1, hn2]
                exact Or.inl ⟨rfl, rfl⟩
              · rw [e1, e2]
                dsimp only
                rw [hs2.1, hs2.2.1]
                by_cases hin2 : s2b.index < s2b.source.length
                · simp only [if_pos hin2]
                  have := ih (HCall.templateLoop 0 sc) _ _
                    (srel_emit_and_advance hs2 1 Highlight_Type.escape)
                  dsimp only [set_state] at this
                  exact this
                · simp only [if_neg hin2]
                  have := ih (HCall.templateLoop 0 sc) _ _ hs2
                  dsimp only [set_state] at this
                  exact this
            · simp only [if_neg hsub]
              have := ih (HCall.templateLoop (chars + 1) sc) _ _ (srel_advance h 1)
              dsimp only [set_state] at this
              exact this
          · simp only [if_neg hc2]
            by_cases hc3 : (remainder snc).getD 0 junk_byte = '\\'
            · simp only [if_pos hc3]
              by_cases hcl : match_line_continuation (remainder snc) ≠ 0
              · simp only [if_pos hcl]
                have := ih (HCall.templateLoop (match_line_continuation
                  (remainder snc) - 1) sc) _ _ (srel_advance (srel_emit_and_advance
                    (srel_template_flush h chars) 1 Highlight_Type.escape)
                    (match_line_continuation (remainder snc) - 1))
                dsimp only [set_state] at this
                exact this
              · simp only [if_neg hcl]
                have := ih (HCall.templateLoop (chars + 1) sc) _ _ (srel_advance h 1)
                dsimp only [set_state] at this
                exact this
            · simp only [if_neg hc3]
              have := ih (HCall.templateLoop (chars + 1) sc) _ _ (srel_advance h 1)
              dsimp only [set_state] at this
              exact this
      · simp only [if_neg hidx]
        exact Or.inr ⟨true, _, _, rfl, rfl, srel_template_flush h chars⟩
    | children depth rem s0 =>
      dsimp only [set_state]
      simp only [runHL]
      try dsimp only
      by_cases hnil : rem = []
      · simp only [if_pos hnil]
        exact Or.inr ⟨true, sc, snc, rfl, rfl, h⟩
      · simp only [if_neg hnil]
        set j := rem.findIdx fun ch =>
          ch = '&' || ch = lbrace || ch = rbrace || ch = '<' || ch = '>' with hj
        set rem2 := rem.drop j with hrem2
        by_cases hsafe : j = rem.length
        · simp only [if_pos hsafe]
          exact Or.inr ⟨true, _, _, rfl, rfl, srel_advance h rem.length⟩
        · simp only [if_neg hsafe]
          by_cases hamp : rem2.getD 0 junk_byte = '&'
          · simp only [if_pos hamp]
            by_cases href : match_character_reference rem2 ≠ 0
            · simp only [if_pos href]
              have := ih (HCall.children depth
                (rem2.drop (match_character_reference rem2)) sc) _ _
                (srel_emit_and_advance (srel_advance h j)
                  (match_character_reference rem2) Highlight_Type.escape)
              dsimp only [set_state] at this
              exact this
            · simp only [if_neg href]
              have := ih (HCall.children depth (rem2.drop 1) sc) _ _
                (srel_advance (srel_advance h j) 1)
              dsimp only [set_state] at this
              exact this
          · simp only [if_neg hamp]
            by_cases hlt : rem2.getD 0 junk_byte = '<'
            · simp only [if_pos hlt]
              by_cases htg : (match_jsx_tag rem2).length = 0
              · simp only [if_pos htg]
                have := ih (HCall.children depth (rem2.drop 1) sc) _ _
                  (srel_emit_and_advance (srel_advance h j) 1 Highlight_Type.error)
                dsimp only [set_state] at this
                exact this
              · simp only [if_neg htg]
                have htag := ih (HCall.tag sc) _ _ (srel_advance h j)
                dsimp only [set_state] at htag
                rcases htag with ⟨hn1, hn2⟩ | ⟨bt, s1a, s1b, e1, e2, hs1⟩
                · rw [hn1, hn2]
                  exact Or.inl ⟨rfl, rfl⟩
                · rw [e1, e2]
                  dsimp only
                  by_cases hop2 : (decide ((match_jsx_tag rem2).type = JSX_Type.opening) ||
                      decide ((match_jsx_tag rem2).type = JSX_Type.fragment_opening)) = true
                  · simp only [if_pos hop2]
                    have := ih (HCall.children (depth + 1)
                      (rem2.drop (match_jsx_tag rem2).length) sc) _ _ hs1
                    dsimp only [set_state] at this
                    exact this
                  · simp only [if_neg hop2]
                    by_cases hcl2 : (decide ((match_jsx_tag rem2).type =
                        JSX_Type.closing) || decide ((match_jsx_tag rem2).type =
                        JSX_Type.fragment_closing)) = true
                    · simp only [if_pos hcl2]
                      by_cases hd0 : depth = 0
                      · simp only [if_pos hd0]
                        exact Or.inr ⟨true, _, _, rfl, rfl, hs1⟩
                      · simp only [if_neg hd0]
                        have := ih (HCall.children (depth - 1)
                          (rem2.drop (match_jsx_tag rem2).length) sc) _ _ hs1
                        dsimp only [set_state] at this
                        exact this
                    · simp only [if_neg hcl2]
                      have := ih (HCall.children depth
                        (rem2.drop (match_jsx_tag rem2).length) sc) _ _ hs1
                      dsimp only [set_state] at this
                      exact this
            · simp only [if_neg hlt]
              by_cases hgt : rem2.getD 0 junk_byte = '>'
              · simp only [if_pos hgt]
                have := ih (HCall.children depth (rem2.drop 1) sc) _ _
                  (srel_emit_and_advance (srel_advance h j) 1 Highlight_Type.error)
                dsimp only [set_state] at this
                exact this
              · simp only [if_neg hgt]
                by_cases hbrc : rem2.getD 0 junk_byte = lbrace
                · simp only [if_pos hbrc]
                  by_cases hbl : (match_jsx_braced rem2).length ≠ 0
                  · simp only [if_pos hbl]
                    have hbb := ih (HCall.braced (match_jsx_braced rem2) sc) _ _
                      (srel_advance h j)
                    dsimp only [set_state] at hbb
                    rcases hbb with ⟨hn1, hn2⟩ | ⟨b1, s1a, s1b, e1, e2, hs1⟩
                    · rw [hn1, hn2]
                      exact Or.inl ⟨rfl, rfl⟩
                    · rw [e1, e2]
                      dsimp only
                      have := ih (HCall.children depth
                        (rem2.drop (match_jsx_braced rem2).length) sc) _ _ hs1
                      dsimp only [set_state] at this
                      exact this
                  · simp only [if_neg hbl]
                    have := ih (HCall.children depth (rem2.drop 1) sc) _ _
                      (srel_emit_and_advance (srel_advance h j) 1 Highlight_Type.error)
                    dsimp only [set_state] at this
                    exact this
                · simp only [if_neg hbrc]
                  have := ih (HCall.children depth (rem2.drop 1) sc) _ _
                    (srel_emit_and_advance (srel_advance h j) 1 Highlight_Type.error)
                  dsimp only [set_state] at this
                  exact this

/-- C8: coalescing is a pure presentation change: for every input span and
every fuel, the coalescing run and the non-coalescing run complete in
lock-step, and their emitted records expand to the identical per-position
map from source offset to highlight category. -/
theorem claim8_coalescing_expansion :
    ∀ (fuel : Nat) (source : List Char),
      (highlight_javascript fuel source true).map expand =
      (highlight_javascript fuel source false).map expand := by
  intro fuel source
  have hsr : srel (init_state source true) (init_state source false) :=
    ⟨rfl, rfl, rfl, rfl, rfl, rfl, rfl⟩
  have hb := runHL_srel fuel (HCall.main (init_state source true))
    (init_state source true) (init_state source false) hsr
  dsimp only [set_state] at hb
  unfold highlight_javascript mainLoop
  rcases hb with ⟨hn1, hn2⟩ | ⟨b2, sc2, snc2, e1, e2, hs2⟩
  · rw [hn1, hn2]
  · rw [e1, e2]
    dsimp only [Option.map_some, Option.map]
    rw [hs2.2.2.2.2.2.2]

set_option maxRecDepth 8000 in
/-- C2 (counterexample to the original claim): whitespace is skipped without
emitting any record, so the records need not tile `[0, length(source))`: on
the one-unit input `" "` the completed scan emits no records at all, and the
empty record list does not tile `[0, 1)`. -/
theorem claim2_tiling_counterexample :
    highlight_javascript 8 [' '] false = some [] ∧
    tiles [] (([' '] : List Char).length) = false := by
  constructor <;> decide

end UJS
